import Mathlib

/-!
# Spotitable: the reconciliation engine of spotify.go

A shallow embedding of the playlist synchronisation code of spotify.go
(with the in-memory client of spotify_test.go), of its base64 helper and of
the bucket loops of main.go, and theorems about them.

Conventions of the embedding.

* A Go string and a spotify.ID are a Lean String.
* A Go map is an association list with unique keys (mapGet, mapSet); the
  code never ranges over a map, so iteration order plays no part.
* The SpotifyClient interface is a record of functions over a hidden client
  state: every call takes the state and returns a reply and the next state.
* A World holds the Spotify struct's caches, the client state, the log of
  client calls with their replies, and the lines printed on standard output.
* A call of a Go function ends in an Outcome: it returns normally, returns an
  error, ends the process (log.Fatal), panics (index out of range), or is cut
  off by the fuel that bounds the pagination loops.
* A Go int is 64 bits wide. The offsets of the page loops are integers and
  every addition to them wraps around (wrapInt); indices into slices and
  loop variables bounded by a slice length are natural numbers.
* Bytes are natural numbers below 256; years are natural numbers.
* The loops over chunks, years and decades always end; their fuel is set by
  the caller beyond what they can use. Only the two page loops of
  populatePlaylists can run on for ever, and their fuel is a parameter.
-/

namespace Spotitable

/-! ## Constants (main.go, spotify.go) -/

/-- Go type spotify.ID, a string. -/
abbrev SpotifyID := String

/-- Go error values, identified with their message. -/
abbrev Err := String

/-- Maximum number of tracks in one GetTracks request. -/
def maxTracks : Nat := 50

/-- Maximum number of playlists in one listing request. -/
def maxPlaylists : Nat := 50

/-- Maximum number of playlist tracks in one request. -/
def maxPlaylistTracks : Nat := 100

/-- Reserved name fragment of managed playlists (main.go). -/
def playlistPrefix : String := "st"

/-! ## Go maps and slices -/

/-- Go map read with the comma-ok form: m[k]. -/
def mapGet {κ ν : Type} [DecidableEq κ] : List (κ × ν) → κ → Option ν
  | [], _ => none
  | (k', v) :: m, k => if k' = k then some v else mapGet m k

/-- Go map read m[k], the zero value d when the key is absent. -/
def mapGetD {κ ν : Type} [DecidableEq κ] (m : List (κ × ν)) (k : κ) (d : ν) : ν :=
  (mapGet m k).getD d

/-- Go map write m[k] = v. -/
def mapSet {κ ν : Type} [DecidableEq κ] : List (κ × ν) → κ → ν → List (κ × ν)
  | [], k, v => [(k, v)]
  | (k', v') :: m, k, v => if k' = k then (k, v) :: m else (k', v') :: mapSet m k v

/-- Go slice expression s[i:j]. -/
def slice {α : Type} (s : List α) (i j : Nat) : List α :=
  (s.drop i).take (j - i)

/-- The largest value of a Go int of 64 bits. -/
def maxInt : Int := 9223372036854775807

/-- The value of a Go int after an arithmetic operation with the exact result
x: the result modulo 2^64 in the range from -2^63 to 2^63 - 1. -/
def wrapInt (x : Int) : Int :=
  (x + 9223372036854775808) % 18446744073709551616 - 9223372036854775808

/-- Go strings.HasPrefix. -/
def hasPrefix (s pre : String) : Bool :=
  pre.toList.isPrefixOf s.toList

/-! ## Replies of the playlist service -/

/-- The fields of spotify.SimplePlaylist the code reads. -/
structure SimplePlaylist where
  ID : SpotifyID
  Name : String
deriving DecidableEq, Repr

/-- The fields of spotify.SimplePlaylistPage the code reads. -/
structure SimplePlaylistPage where
  Playlists : List SimplePlaylist
  Next : String
  Total : Int
deriving DecidableEq, Repr

/-- The fields of spotify.PlaylistTrackPage the code reads: the track IDs of
the page's entries, the cursor and the total. -/
structure PlaylistTrackPage where
  Tracks : List SpotifyID
  Next : String
  Total : Int
deriving DecidableEq, Repr

/-- A client call with its arguments. -/
inductive Call where
  | GetTracks (ids : List SpotifyID)
  | GetPlaylistsForUserOpt (userID : String) (limit : Nat) (offset : Int)
  | GetPlaylistTracksOpt (playlistID : SpotifyID) (limit : Nat) (offset : Int) (fields : String)
  | CreatePlaylistForUser (userID name description : String) (pub : Bool)
  | AddTracksToPlaylist (playlistID : SpotifyID) (ids : List SpotifyID)
  | RemoveTracksFromPlaylist (playlistID : SpotifyID) (ids : List SpotifyID)
deriving DecidableEq, Repr

/-- What a client call answered. -/
inductive Reply where
  | failed (e : Err)
  | tracks (ts : List (Option SpotifyID))
  | playlists (page : SimplePlaylistPage)
  | playlistTracks (page : PlaylistTrackPage)
  | created (id : SpotifyID)
  | snapshot (s : String)
deriving DecidableEq, Repr

/-- One entry of the call log. -/
structure Event where
  call : Call
  reply : Reply
deriving DecidableEq, Repr

/-- Go interface SpotifyClient over a client state σ. GetTracks answers one
entry per track, none for a nil pointer; the other replies carry the fields
the code reads. -/
structure SpotifyClient (σ : Type) where
  GetTracks : σ → List SpotifyID → Except Err (List (Option SpotifyID)) × σ
  GetPlaylistsForUserOpt : σ → String → Nat → Int → Except Err SimplePlaylistPage × σ
  GetPlaylistTracksOpt : σ → SpotifyID → Nat → Int → String → Except Err PlaylistTrackPage × σ
  CreatePlaylistForUser : σ → String → String → String → Bool → Except Err SpotifyID × σ
  AddTracksToPlaylist : σ → SpotifyID → List SpotifyID → Except Err String × σ
  RemoveTracksFromPlaylist : σ → SpotifyID → List SpotifyID → Except Err String × σ

/-! ## The Spotify struct and the world around it -/

/-- The fields of the Go struct Spotify that the synchronisation uses. -/
structure Spotify where
  currentUserID : String
  playlistTracks : List (SpotifyID × List SpotifyID)
  playlists : List (String × SpotifyID)
deriving DecidableEq, Repr

/-- The Spotify struct together with its client's state, the log of client
calls and the printed lines. -/
structure World (σ : Type) where
  c : Spotify
  remote : σ
  events : List Event
  stdout : List String

/-- Go NewSpotifyWithClient: empty caches over the given client. -/
def NewSpotifyWithClient {σ : Type} (userID : String) (sc : σ) : World σ :=
  { c := { currentUserID := userID, playlistTracks := [], playlists := [] },
    remote := sc, events := [], stdout := [] }

/-- Why a call did not return normally. -/
inductive Halt where
  | returned (e : Err)
  | fatal (e : Err)
  | panic
  | outOfFuel
deriving DecidableEq, Repr

/-- How a call of a Go function ended. -/
inductive Outcome (α : Type) where
  | ok (a : α)
  | halt (h : Halt)
deriving DecidableEq, Repr

/-- Records a client call, its reply and the client's next state. -/
def World.record {σ : Type} (w : World σ) (call : Call) (reply : Reply) (next : σ) : World σ :=
  { w with remote := next, events := w.events ++ [⟨call, reply⟩] }

/-- Appends a line to standard output (fmt.Printf). -/
def World.print {σ : Type} (w : World σ) (line : String) : World σ :=
  { w with stdout := w.stdout ++ [line] }

/-- The calls of the log, in order. -/
def World.calls {σ : Type} (w : World σ) : List Call :=
  w.events.map Event.call

/-! ## Delta computation (getTrackIDsToAdd, getTrackIDsToRemove) -/

/-- The inner search loop: ranges over ts and breaks at the first element
equal to trackID; the value of found after the loop. -/
def foundIn : List SpotifyID → SpotifyID → Bool
  | [], _ => false
  | t :: ts, trackID => if t = trackID then true else foundIn ts trackID

/-- Loop of getTrackIDsToAdd over inputTrackIDs, with the slice built so far. -/
def getTrackIDsToAddLoop {σ : Type} (playlistID : SpotifyID) :
    List SpotifyID → List SpotifyID → World σ → List SpotifyID × World σ
  | [], trackIDsToAdd, w => (trackIDsToAdd, w)
  | trackID :: rest, trackIDsToAdd, w =>
    if foundIn (mapGetD w.c.playlistTracks playlistID []) trackID then
      getTrackIDsToAddLoop playlistID rest trackIDsToAdd w
    else
      getTrackIDsToAddLoop playlistID rest (trackIDsToAdd ++ [trackID])
        (w.print ("add spotify:track:" ++ trackID ++ " to spotify:playlist:" ++ playlistID ++ "\n"))

/-- Go getTrackIDsToAdd. -/
def getTrackIDsToAdd {σ : Type} (playlistID : SpotifyID) (inputTrackIDs : List SpotifyID)
    (w : World σ) : List SpotifyID × World σ :=
  getTrackIDsToAddLoop playlistID inputTrackIDs [] w

/-- Loop of getTrackIDsToRemove over the cached membership. -/
def getTrackIDsToRemoveLoop {σ : Type} (playlistID : SpotifyID) (inputTrackIDs : List SpotifyID) :
    List SpotifyID → List SpotifyID → World σ → List SpotifyID × World σ
  | [], trackIDsToRemove, w => (trackIDsToRemove, w)
  | trackID :: rest, trackIDsToRemove, w =>
    if foundIn inputTrackIDs trackID then
      getTrackIDsToRemoveLoop playlistID inputTrackIDs rest trackIDsToRemove w
    else
      getTrackIDsToRemoveLoop playlistID inputTrackIDs rest (trackIDsToRemove ++ [trackID])
        (w.print ("remove spotify:track:" ++ trackID ++ " from spotify:playlist:" ++ playlistID ++ "\n"))

/-- Go getTrackIDsToRemove. -/
def getTrackIDsToRemove {σ : Type} (playlistID : SpotifyID) (inputTrackIDs : List SpotifyID)
    (w : World σ) : List SpotifyID × World σ :=
  getTrackIDsToRemoveLoop playlistID inputTrackIDs (mapGetD w.c.playlistTracks playlistID []) [] w

/-! ## Batched mutations (removeTracksFromPlaylist, addTracksToPlaylist) -/

/-- Loop of removeTracksFromPlaylist with loop variable i. The fuel bounds the
number of iterations; the caller passes more than the loop can use. -/
def removeTracksFromPlaylistLoop {σ : Type} (cl : SpotifyClient σ) (playlistID : SpotifyID)
    (trackIDs : List SpotifyID) : Nat → Nat → World σ → Outcome Unit × World σ
  | 0, _, w => (.halt .outOfFuel, w)
  | fuel + 1, i, w =>
    if i < trackIDs.length then
      let j := if i + maxPlaylistTracks > trackIDs.length then trackIDs.length
        else i + maxPlaylistTracks
      let r := cl.RemoveTracksFromPlaylist w.remote playlistID (slice trackIDs i j)
      match r.1 with
      | .error e =>
        (.halt (.returned e),
          w.record (.RemoveTracksFromPlaylist playlistID (slice trackIDs i j)) (.failed e) r.2)
      | .ok snap =>
        removeTracksFromPlaylistLoop cl playlistID trackIDs fuel (i + maxPlaylistTracks)
          (w.record (.RemoveTracksFromPlaylist playlistID (slice trackIDs i j)) (.snapshot snap) r.2)
    else (.ok (), w)

/-- Go removeTracksFromPlaylist. -/
def removeTracksFromPlaylist {σ : Type} (cl : SpotifyClient σ) (playlistID : SpotifyID)
    (trackIDs : List SpotifyID) (w : World σ) : Outcome Unit × World σ :=
  removeTracksFromPlaylistLoop cl playlistID trackIDs (trackIDs.length + 1) 0 w

/-- Loop of addTracksToPlaylist with loop variable i. -/
def addTracksToPlaylistLoop {σ : Type} (cl : SpotifyClient σ) (playlistID : SpotifyID)
    (trackIDs : List SpotifyID) : Nat → Nat → World σ → Outcome Unit × World σ
  | 0, _, w => (.halt .outOfFuel, w)
  | fuel + 1, i, w =>
    if i < trackIDs.length then
      let j := if i + maxPlaylistTracks > trackIDs.length then trackIDs.length
        else i + maxPlaylistTracks
      let r := cl.AddTracksToPlaylist w.remote playlistID (slice trackIDs i j)
      match r.1 with
      | .error e =>
        (.halt (.returned e),
          w.record (.AddTracksToPlaylist playlistID (slice trackIDs i j)) (.failed e) r.2)
      | .ok snap =>
        addTracksToPlaylistLoop cl playlistID trackIDs fuel (i + maxPlaylistTracks)
          (w.record (.AddTracksToPlaylist playlistID (slice trackIDs i j)) (.snapshot snap) r.2)
    else (.ok (), w)

/-- Go addTracksToPlaylist. -/
def addTracksToPlaylist {σ : Type} (cl : SpotifyClient σ) (playlistID : SpotifyID)
    (trackIDs : List SpotifyID) (w : World σ) : Outcome Unit × World σ :=
  addTracksToPlaylistLoop cl playlistID trackIDs (trackIDs.length + 1) 0 w

/-! ## Existence validation (cleanTrackIDs) -/

/-- The message printed for a track the service answered nil for. -/
def doesNotExist (trackID : String) : String :=
  "spotify:track:" ++ trackID ++ " does not exist"

/-- Loop of cleanTrackIDs over one reply, with index k: a non-nil entry is
appended to trackIDs, a nil entry prints inputTrackIDs[k]. An index out of
range panics. -/
def cleanTrackIDsRange {σ : Type} (inputTrackIDs : List String) :
    List (Option SpotifyID) → Nat → List SpotifyID → World σ →
      Outcome (List SpotifyID) × World σ
  | [], _, trackIDs, w => (.ok trackIDs, w)
  | some id :: ts, k, trackIDs, w =>
    cleanTrackIDsRange inputTrackIDs ts (k + 1) (trackIDs ++ [id]) w
  | none :: ts, k, trackIDs, w =>
    match inputTrackIDs[k]? with
    | none => (.halt .panic, w)
    | some s => cleanTrackIDsRange inputTrackIDs ts (k + 1) trackIDs (w.print (doesNotExist s))

/-- Chunk loop of cleanTrackIDs with loop variable i. -/
def cleanTrackIDsLoop {σ : Type} (cl : SpotifyClient σ) (inputTrackIDs : List String)
    (trackIDsToCheck : List SpotifyID) :
    Nat → Nat → List SpotifyID → World σ → Outcome (List SpotifyID) × World σ
  | 0, _, _, w => (.halt .outOfFuel, w)
  | fuel + 1, i, trackIDs, w =>
    if i < trackIDsToCheck.length then
      let j := if i + maxTracks > trackIDsToCheck.length then trackIDsToCheck.length
        else i + maxTracks
      let r := cl.GetTracks w.remote (slice trackIDsToCheck i j)
      match r.1 with
      | .error e =>
        (.halt (.returned e), w.record (.GetTracks (slice trackIDsToCheck i j)) (.failed e) r.2)
      | .ok tracks =>
        match cleanTrackIDsRange inputTrackIDs tracks 0 trackIDs
            (w.record (.GetTracks (slice trackIDsToCheck i j)) (.tracks tracks) r.2) with
        | (.ok trackIDs', w') =>
          cleanTrackIDsLoop cl inputTrackIDs trackIDsToCheck fuel (i + maxTracks) trackIDs' w'
        | (.halt h, w') => (.halt h, w')
    else (.ok trackIDs, w)

/-- Go cleanTrackIDs. The conversion of the input strings to spotify.IDs is the
identity on the embedding. -/
def cleanTrackIDs {σ : Type} (cl : SpotifyClient σ) (inputTrackIDs : List String)
    (w : World σ) : Outcome (List SpotifyID) × World σ :=
  cleanTrackIDsLoop cl inputTrackIDs inputTrackIDs (inputTrackIDs.length + 1) 0 [] w

/-! ## The remote state cache (populatePlaylists) -/

/-- The statement c.playlistTracks[id] = append(c.playlistTracks[id], t) for
every track t of a page. -/
def appendTracks (m : List (SpotifyID × List SpotifyID)) (id : SpotifyID) :
    List SpotifyID → List (SpotifyID × List SpotifyID)
  | [] => m
  | t :: ts => appendTracks (mapSet m id (mapGetD m id [] ++ [t])) id ts

/-- The test of the safety check: the name carries the reserved prefix. -/
def managed (p : SimplePlaylist) : Bool :=
  hasPrefix p.Name (playlistPrefix ++ "-")

/-- Inner page loop of populatePlaylists: the tracks of one playlist. The
offset is a Go int, so adding the limit to it wraps around. -/
def populateTracksLoop {σ : Type} (cl : SpotifyClient σ) (playlistID : SpotifyID) :
    Nat → Int → World σ → Outcome Unit × World σ
  | 0, _, w => (.halt .outOfFuel, w)
  | fuel + 1, playlistTracksOffset, w =>
    let r := cl.GetPlaylistTracksOpt w.remote playlistID maxPlaylistTracks playlistTracksOffset ""
    match r.1 with
    | .error e =>
      (.halt (.returned e),
        w.record (.GetPlaylistTracksOpt playlistID maxPlaylistTracks playlistTracksOffset "")
          (.failed e) r.2)
    | .ok page =>
      let w1 := w.record
        (.GetPlaylistTracksOpt playlistID maxPlaylistTracks playlistTracksOffset "")
        (.playlistTracks page) r.2
      let w2 : World σ :=
        { w1 with c := { w1.c with
            playlistTracks := appendTracks w1.c.playlistTracks playlistID page.Tracks } }
      if page.Next = "" ∨ wrapInt (playlistTracksOffset + maxPlaylistTracks) ≥ page.Total then
        (.ok (), w2)
      else populateTracksLoop cl playlistID fuel
        (wrapInt (playlistTracksOffset + maxPlaylistTracks)) w2

/-- Loop of populatePlaylists over the playlists of one page. -/
def populateRange {σ : Type} (cl : SpotifyClient σ) (fuel : Nat) :
    List SimplePlaylist → World σ → Outcome Unit × World σ
  | [], w => (.ok (), w)
  | p :: ps, w =>
    if !managed p then populateRange cl fuel ps w
    else
      let w1 : World σ := { w with c := { w.c with playlists := mapSet w.c.playlists p.Name p.ID } }
      match populateTracksLoop cl p.ID fuel 0 w1 with
      | (.ok (), w2) => populateRange cl fuel ps w2
      | (.halt h, w2) => (.halt h, w2)

/-- Outer page loop of populatePlaylists: the user's playlists. Every inner
loop gets the same fuel as the outer one. The offset is a Go int, so adding
the limit to it wraps around. -/
def populatePagesLoop {σ : Type} (cl : SpotifyClient σ) (fuel : Nat) :
    Nat → Int → World σ → Outcome Unit × World σ
  | 0, _, w => (.halt .outOfFuel, w)
  | n + 1, offset, w =>
    let r := cl.GetPlaylistsForUserOpt w.remote w.c.currentUserID maxPlaylists offset
    match r.1 with
    | .error e =>
      (.halt (.returned e),
        w.record (.GetPlaylistsForUserOpt w.c.currentUserID maxPlaylists offset) (.failed e) r.2)
    | .ok page =>
      match populateRange cl fuel page.Playlists
          (w.record (.GetPlaylistsForUserOpt w.c.currentUserID maxPlaylists offset)
            (.playlists page) r.2) with
      | (.ok (), w') =>
        if page.Next = "" ∨ wrapInt (offset + maxPlaylists) ≥ page.Total then (.ok (), w')
        else populatePagesLoop cl fuel n (wrapInt (offset + maxPlaylists)) w'
      | (.halt h, w') => (.halt h, w')

/-- Go populatePlaylists. -/
def populatePlaylists {σ : Type} (cl : SpotifyClient σ) (fuel : Nat) (w : World σ) :
    Outcome Unit × World σ :=
  if w.c.playlistTracks.length > 0 ∧ w.c.playlists.length > 0 then (.ok (), w)
  else populatePagesLoop cl fuel fuel 0 w

/-! ## Reconciliation (findOrCreatePlaylist, updatePlaylist, AddTracksToNamedPlaylist) -/

/-- Go findOrCreatePlaylist. -/
def findOrCreatePlaylist {σ : Type} (cl : SpotifyClient σ) (fuel : Nat) (name : String)
    (w : World σ) : Outcome SpotifyID × World σ :=
  match populatePlaylists cl fuel w with
  | (.halt h, w1) => (.halt h, w1)
  | (.ok (), w1) =>
    match mapGet w1.c.playlists name with
    | none =>
      let r := cl.CreatePlaylistForUser w1.remote w1.c.currentUserID name "Managed by Spotitable" false
      match r.1 with
      | .error e =>
        (.halt (.returned e),
          (w1.record
            (.CreatePlaylistForUser w1.c.currentUserID name "Managed by Spotitable" false)
            (.failed e) r.2).print ("Error: " ++ e))
      | .ok id =>
        (.ok id,
          (w1.record
            (.CreatePlaylistForUser w1.c.currentUserID name "Managed by Spotitable" false)
            (.created id) r.2).print ("create spotify:playlist:" ++ id ++ " (" ++ name ++ ")\n"))
    | some playlistID => (.ok playlistID, w1)

/-- Turns a returned error into the end of the process (log.Fatal). -/
def Halt.toFatal : Halt → Halt
  | .returned e => .fatal e
  | h => h

/-- Go updatePlaylist. -/
def updatePlaylist {σ : Type} (cl : SpotifyClient σ) (inputPlaylistID : String)
    (inputTrackIDs : List String) (w : World σ) : Outcome Unit × World σ :=
  match cleanTrackIDs cl inputTrackIDs w with
  | (.halt h, w1) => (.halt h.toFatal, w1)
  | (.ok trackIDs, w1) =>
    let rm := getTrackIDsToRemove inputPlaylistID trackIDs w1
    match removeTracksFromPlaylist cl inputPlaylistID rm.1 rm.2 with
    | (.halt h, w2) => (.halt h.toFatal, w2)
    | (.ok (), w2) =>
      let ad := getTrackIDsToAdd inputPlaylistID trackIDs w2
      match addTracksToPlaylist cl inputPlaylistID ad.1 ad.2 with
      | (.halt h, w3) => (.halt h.toFatal, w3)
      | (.ok (), w3) => (.ok (), w3)

/-- Go AddTracksToNamedPlaylist. -/
def AddTracksToNamedPlaylist {σ : Type} (cl : SpotifyClient σ) (fuel : Nat)
    (playlistName : String) (trackIDsToAdd : List String) (w : World σ) :
    Outcome Unit × World σ :=
  if trackIDsToAdd.length > 0 then
    match findOrCreatePlaylist cl fuel playlistName w with
    | (.halt h, w1) => (.halt h, w1)
    | (.ok playlistID, w1) =>
      match updatePlaylist cl playlistID trackIDsToAdd w1 with
      | (.halt h, w2) => (.halt h, w2)
      | (.ok (), w2) => (.ok (), w2)
  else (.ok (), w)

/-! ## The in-memory client of spotify_test.go -/

/-- Loop of the test client's AddTracksToPlaylist. -/
def testAddLoop (m : List (String × List String)) (pID : SpotifyID) :
    List SpotifyID → List (String × List String)
  | [] => m
  | t :: ts => testAddLoop (mapSet m pID (mapGetD m pID [] ++ [t])) pID ts

/-- Loop of the test client's RemoveTracksFromPlaylist over the stored tracks. -/
def testRemoveLoop (tracks : List SpotifyID) : List String → List String → List String
  | [], newTrackIDs => newTrackIDs
  | t :: ts, newTrackIDs =>
    if foundIn tracks t then testRemoveLoop tracks ts newTrackIDs
    else testRemoveLoop tracks ts (newTrackIDs ++ [t])

/-- The in-memory client of the tests over its map remotePlaylistsTracks,
with the playlists it lists as a parameter. -/
def memoryClient (listing : List SimplePlaylist) : SpotifyClient (List (String × List String)) where
  GetTracks := fun s tracks => (.ok (tracks.map some), s)
  GetPlaylistsForUserOpt := fun s _ _ _ =>
    (.ok { Playlists := listing, Next := "", Total := 0 }, s)
  GetPlaylistTracksOpt := fun s playlistID _ _ _ =>
    (.ok { Tracks := mapGetD s playlistID [], Next := "", Total := 0 }, s)
  CreatePlaylistForUser := fun s _ _ _ _ => (.ok "spotify:playlist:1", s)
  AddTracksToPlaylist := fun s pID tracks => (.ok "", testAddLoop s pID tracks)
  RemoveTracksFromPlaylist := fun s playlistID tracks =>
    (.ok "", mapSet s playlistID (testRemoveLoop tracks (mapGetD s playlistID []) []))

/-- Go TestSpotify: the client of the tests, which lists the one playlist
st-foo with ID spotify:playlist:foo1. -/
def TestSpotify : SpotifyClient (List (String × List String)) :=
  memoryClient [{ ID := "spotify:playlist:foo1", Name := "st-foo" }]

/-- A client that answers nil for the tracks in missing (they no longer exist
in the catalogue) and otherwise behaves as cl. -/
def withMissing {σ : Type} (cl : SpotifyClient σ) (missing : List SpotifyID) : SpotifyClient σ :=
  { cl with
    GetTracks := fun s tracks =>
      (.ok (tracks.map (fun t => if t ∈ missing then none else some t)), s) }

/-! ## Auxiliary definitions of the statements -/

/-- The client state after a run of successful mutation calls, one per chunk. -/
def remoteAfter {σ : Type} (step : σ → List SpotifyID → σ) (s : σ)
    (chunks : List (List SpotifyID)) : σ :=
  chunks.foldl step s

/-- The reply of a service that answers a GetTracks request entry by entry:
the track when it exists, nil otherwise. -/
def answerTracks (ex : SpotifyID → Bool) (ids : List SpotifyID) : List (Option SpotifyID) :=
  ids.map (fun t => if ex t then some t else none)

/-- The playlists the service listed: the entries of the successful listing
replies of a log, in order of discovery. -/
def listed (evs : List Event) : List SimplePlaylist :=
  evs.flatMap (fun e =>
    match e.reply with
    | .playlists page => page.Playlists
    | _ => [])

/-- The ID of the first managed playlist called name among ps. -/
def firstManaged (ps : List SimplePlaylist) (name : String) : Option SpotifyID :=
  ((ps.filter (fun p => managed p && decide (p.Name = name))).head?).map SimplePlaylist.ID

/-- The ID of the last managed playlist called name among ps. -/
def lastManaged (ps : List SimplePlaylist) (name : String) : Option SpotifyID :=
  ((ps.filter (fun p => managed p && decide (p.Name = name))).getLast?).map SimplePlaylist.ID

/-- The playlists cache after the playlists ps were discovered in order over
the cache m: every managed playlist writes its ID under its name. -/
def cacheOf (m : List (String × SpotifyID)) (ps : List SimplePlaylist) :
    List (String × SpotifyID) :=
  ps.foldl (fun m p => if managed p then mapSet m p.Name p.ID else m) m

/-- The ID belongs to a listed playlist whose name carries the reserved prefix. -/
def listedManaged (evs : List Event) (pid : SpotifyID) : Prop :=
  ∃ p ∈ listed evs, managed p = true ∧ p.ID = pid

/-- The ID was answered by the service for a playlist it created. -/
def createdID (evs : List Event) (pid : SpotifyID) : Prop :=
  ∃ e ∈ evs, e.reply = .created pid

/-- The safety invariant of the prefix check: every name in the playlists cache
carries the prefix st- and belongs, with its ID, to a listed playlist; every
key of playlistTracks and every playlist whose tracks were requested is a
listed managed playlist; every playlist mutated is a listed managed playlist
or one the service created on request. -/
def PrefixSafe {σ : Type} (w : World σ) : Prop :=
  (∀ kv ∈ w.c.playlists, hasPrefix kv.1 "st-" = true ∧
    ({ ID := kv.2, Name := kv.1 } : SimplePlaylist) ∈ listed w.events) ∧
  (∀ kv ∈ w.c.playlistTracks, listedManaged w.events kv.1) ∧
  (∀ e ∈ w.events, ∀ pid l o f, e.call = .GetPlaylistTracksOpt pid l o f →
    listedManaged w.events pid) ∧
  (∀ e ∈ w.events, ∀ pid ids,
    e.call = .AddTracksToPlaylist pid ids ∨ e.call = .RemoveTracksFromPlaylist pid ids →
    listedManaged w.events pid ∨ createdID w.events pid)

/-- The ID of the playlist q is the ID of no listed managed playlist and of no
playlist the service created: distinct playlists have distinct IDs. -/
def DistinctID {σ : Type} (w : World σ) (q : SimplePlaylist) : Prop :=
  (∀ p ∈ listed w.events, managed p = true → p.ID ≠ q.ID) ∧
  (∀ pid, createdID w.events pid → pid ≠ q.ID)

/-- The playlist q is not a key of playlistTracks, its tracks were never
requested and no mutation call had it as its target. -/
def NeverTouched {σ : Type} (w : World σ) (q : SimplePlaylist) : Prop :=
  (∀ kv ∈ w.c.playlistTracks, kv.1 ≠ q.ID) ∧
  (∀ e ∈ w.events, ∀ l o f, e.call ≠ .GetPlaylistTracksOpt q.ID l o f) ∧
  (∀ e ∈ w.events, ∀ ids,
    e.call ≠ .AddTracksToPlaylist q.ID ids ∧ e.call ≠ .RemoveTracksFromPlaylist q.ID ids)

/-! ## The buckets of the sync driver (main.go) -/

/-- First year of the yearly and decade playlists. -/
def epoch : Nat := 1970

/-- Length of a decade in years. -/
def decadeYears : Nat := 10

/-- The loop over the years in main, from loop variable i on: the values of i
for which the body runs. The fuel bounds the number of iterations. -/
def yearLoop (currentYear : Nat) : Nat → Nat → List Nat
  | 0, _ => []
  | fuel + 1, i => if i ≤ currentYear then i :: yearLoop currentYear fuel (i + 1) else []

/-- The years for which main synchronises a yearly playlist. -/
def yearBuckets (currentYear : Nat) : List Nat :=
  yearLoop currentYear (currentYear + 1) epoch

/-- The loop over the decades in main, from loop variable i on: the values of
i for which the body runs. -/
def decadeLoop (currentYear : Nat) : Nat → Nat → List Nat
  | 0, _ => []
  | fuel + 1, i =>
    if i < currentYear + decadeYears then i :: decadeLoop currentYear fuel (i + decadeYears)
    else []

/-- The start years of the decades for which main synchronises a decade
playlist. -/
def decadeBuckets (currentYear : Nat) : List Nat :=
  decadeLoop currentYear (currentYear + decadeYears) epoch

/-! ## Concrete states and clients of the examples -/

/-- An instance over the client of the tests whose caches hold the playlist
st-foo with one track. -/
def populatedInstance : World (List (String × List String)) :=
  { c := { currentUserID := "koenrh",
           playlistTracks := [("spotify:playlist:foo1", ["spotify:track:foo2"])],
           playlists := [("st-foo", "spotify:playlist:foo1")] },
    remote := [("spotify:playlist:foo1", ["spotify:track:foo2"])],
    events := [], stdout := [] }

/-! ## Base64 (EncodeBase64WithoutPadding)

Go's encoding/base64 is not part of the repository; URLEncoding.EncodeToString
and RawURLEncoding.DecodeString are written down after RFC 4648 and the Go
library, on bytes as natural numbers below 256. -/

/-- The alphabet of base64.URLEncoding. -/
def encodeURL : List Char :=
  "ABCDEFGHIJKLMNOPQRSTUVWXYZabcdefghijklmnopqrstuvwxyz0123456789-_".toList

/-- The character of a 6-bit value. -/
def encodeChar (v : Nat) : Char :=
  encodeURL.getD v 'A'

/-- Go base64.URLEncoding.EncodeToString: every three bytes form a 24-bit value
written as four characters; a last group of one or two bytes is written as two
or three characters and padded with = to four. -/
def EncodeToString : List Nat → List Char
  | [] => []
  | [a] =>
    [encodeChar (a * 65536 / 262144 % 64), encodeChar (a * 65536 / 4096 % 64), '=', '=']
  | [a, b] =>
    [encodeChar ((a * 65536 + b * 256) / 262144 % 64),
     encodeChar ((a * 65536 + b * 256) / 4096 % 64),
     encodeChar ((a * 65536 + b * 256) / 64 % 64), '=']
  | a :: b :: c :: rest =>
    encodeChar ((a * 65536 + b * 256 + c) / 262144 % 64) ::
    encodeChar ((a * 65536 + b * 256 + c) / 4096 % 64) ::
    encodeChar ((a * 65536 + b * 256 + c) / 64 % 64) ::
    encodeChar ((a * 65536 + b * 256 + c) % 64) :: EncodeToString rest

/-- Element 0 of Go strings.Split(s, sep) for a one-character separator: the
part of s before the first occurrence of sep, all of s when there is none. -/
def splitFirst (s : List Char) (sep : Char) : List Char :=
  s.takeWhile (fun c => c != sep)

/-- Go EncodeBase64WithoutPadding. -/
def EncodeBase64WithoutPadding (input : List Nat) : String :=
  String.mk (splitFirst (EncodeToString input) '=')

/-- The 6-bit value of a character of the alphabet. -/
def decodeChar (c : Char) : Option Nat :=
  if encodeURL.indexOf c < 64 then some (encodeURL.indexOf c) else none

/-- Go base64.RawURLEncoding.DecodeString (unpadded, not strict): four
characters give three bytes, a last group of two or three characters gives one
or two bytes, a single last character or a character outside the alphabet is
an error. -/
def DecodeString : List Char → Option (List Nat)
  | [] => some []
  | [_] => none
  | [c0, c1] =>
    match decodeChar c0, decodeChar c1 with
    | some v0, some v1 => some [(v0 * 262144 + v1 * 4096) / 65536 % 256]
    | _, _ => none
  | [c0, c1, c2] =>
    match decodeChar c0, decodeChar c1, decodeChar c2 with
    | some v0, some v1, some v2 =>
      some [(v0 * 262144 + v1 * 4096 + v2 * 64) / 65536 % 256,
            (v0 * 262144 + v1 * 4096 + v2 * 64) / 256 % 256]
    | _, _, _ => none
  | c0 :: c1 :: c2 :: c3 :: rest =>
    match decodeChar c0, decodeChar c1, decodeChar c2, decodeChar c3, DecodeString rest with
    | some v0, some v1, some v2, some v3, some bytes =>
      some ((v0 * 262144 + v1 * 4096 + v2 * 64 + v3) / 65536 % 256 ::
            (v0 * 262144 + v1 * 4096 + v2 * 64 + v3) / 256 % 256 ::
            (v0 * 262144 + v1 * 4096 + v2 * 64 + v3) % 256 :: bytes)
    | _, _, _, _, _ => none

/-- Chunk number j, counted from 0, of the mutation loops: the slice
trackIDs[i:j'] the loop passes on when its variable i is j * maxPlaylistTracks. -/
def chunkAt (trackIDs : List SpotifyID) (j : Nat) : List SpotifyID :=
  slice trackIDs (j * maxPlaylistTracks)
    (if j * maxPlaylistTracks + maxPlaylistTracks > trackIDs.length then trackIDs.length
      else j * maxPlaylistTracks + maxPlaylistTracks)

/-- The number of chunks of the mutation loops: ceil(n / 100). -/
def chunkCount (trackIDs : List SpotifyID) : Nat :=
  (trackIDs.length + 99) / 100

/-- A client whose mutation calls fail, without effect, when the chunk holds
the track bad, and that otherwise behaves as cl. -/
def withRejected {σ : Type} (cl : SpotifyClient σ) (bad : SpotifyID) : SpotifyClient σ :=
  { cl with
    AddTracksToPlaylist := fun s pID tracks =>
      if bad ∈ tracks then (.error "rejected", s) else cl.AddTracksToPlaylist s pID tracks
    RemoveTracksFromPlaylist := fun s pID tracks =>
      if bad ∈ tracks then (.error "rejected", s) else cl.RemoveTracksFromPlaylist s pID tracks }

/-- The client of the tests, made to reject the track bad in a mutation. -/
def rejectingClient : SpotifyClient (List (String × List String)) :=
  withRejected TestSpotify "bad"

/-- A client whose additions fail, without effect, when the chunk holds the
track bad, and that otherwise behaves as cl; its removals never fail. -/
def withRejectedAdd {σ : Type} (cl : SpotifyClient σ) (bad : SpotifyID) : SpotifyClient σ :=
  { cl with
    AddTracksToPlaylist := fun s pID tracks =>
      if bad ∈ tracks then (.error "rejected", s) else cl.AddTracksToPlaylist s pID tracks }

/-- The client of the tests, made to reject the track bad in an addition only. -/
def addRejectingClient : SpotifyClient (List (String × List String)) :=
  withRejectedAdd TestSpotify "bad"

/-- A list of 101 track IDs whose last one is bad. -/
def tracksWithBad : List SpotifyID :=
  List.replicate 100 "a" ++ ["bad"]

/-! ## Auxiliary definitions for the pagination -/

/-- The call lists the user's playlists. -/
def isListPlaylists : Call → Bool
  | .GetPlaylistsForUserOpt _ _ _ => true
  | _ => false

/-- The log entries of successful track-listing requests for one playlist at
the offsets offset, offset + 100, ..., one per page answered. -/
def trackRequests (playlistID : SpotifyID) : Int → List PlaylistTrackPage → List Event
  | _, [] => []
  | offset, page :: rest =>
    ⟨.GetPlaylistTracksOpt playlistID maxPlaylistTracks offset "", .playlistTracks page⟩ ::
      trackRequests playlistID (offset + maxPlaylistTracks) rest

/-- The log entries of successful playlist-listing requests at the offsets
offset, offset + 50, ..., one per page answered. -/
def playlistRequests (userID : String) : Int → List SimplePlaylistPage → List Event
  | _, [] => []
  | offset, page :: rest =>
    ⟨.GetPlaylistsForUserOpt userID maxPlaylists offset, .playlists page⟩ ::
      playlistRequests userID (offset + maxPlaylists) rest

/-- The stop rule of a page loop, on the next-page cursors of the pages it
fetched from the given offset on: there is at least one page, the loop went on
after every page but the last because the cursor was not empty and the running
offset was below the total, and it stopped after the last one because the
cursor was empty or the running offset had reached the total. -/
def pagingStops (limit : Nat) (total : Int) : Int → List String → Prop
  | _, [] => False
  | offset, [next] => next = "" ∨ offset + limit ≥ total
  | offset, next :: n2 :: rest =>
    ¬ (next = "" ∨ offset + limit ≥ total) ∧
      pagingStops limit total (offset + limit) (n2 :: rest)

/-- The bound max(1, ceil(total / limit)) on the requests of a page loop. -/
def pageBound (total : Int) (limit : Nat) : Nat :=
  max 1 ((total.toNat + limit - 1) / limit)

/-- A client that answers every listing request like cl but with a cursor
that is never empty and with the given constant totals: one for the playlists
and one for the tracks of every playlist. -/
def withTotals {σ : Type} (cl : SpotifyClient σ) (playlistsTotal : Int)
    (tracksTotal : SpotifyID → Int) : SpotifyClient σ :=
  { cl with
    GetPlaylistsForUserOpt := fun s u l o =>
      match cl.GetPlaylistsForUserOpt s u l o with
      | (.ok page, s') => (.ok { page with Next := "next", Total := playlistsTotal }, s')
      | (.error e, s') => (.error e, s')
    GetPlaylistTracksOpt := fun s p l o f =>
      match cl.GetPlaylistTracksOpt s p l o f with
      | (.ok page, s') => (.ok { page with Next := "next", Total := tracksTotal p }, s')
      | (.error e, s') => (.error e, s') }

/-- The page loop over a constant total fits: its offsets 0, limit, 2 * limit,
... up to the first one that reaches the total stay within the range of a Go
int, and the fuel covers the bound max(1, ceil(total / limit)) on the requests. -/
def LoopFits (fuel : Nat) (total : Int) (limit : Nat) : Prop :=
  ((pageBound total limit * limit : Nat) : Int) ≤ maxInt ∧ pageBound total limit ≤ fuel

/-- The totals of the tracks of the two playlists of the example: 250 tracks
in idA, 90 in every other playlist. -/
def exampleTotals (p : SpotifyID) : Int :=
  if p = "idA" then 250 else 90

/-- The in-memory client listing the managed playlists st-a and st-b, with
cursors that are never empty, 120 playlists in total and the track totals of
exampleTotals. -/
def pagedClient : SpotifyClient (List (String × List String)) :=
  withTotals (memoryClient [{ ID := "idA", Name := "st-a" }, { ID := "idB", Name := "st-b" }])
    120 exampleTotals

/-- A client with cursors that are never empty whose track listings report
the largest int as their total. -/
def endlessTracksClient : SpotifyClient (List (String × List String)) :=
  withTotals TestSpotify 0 (fun _ => maxInt)

/-- A client that lists no playlist on any page, with cursors that are never
empty, and reports the largest int as the total of the playlists. -/
def endlessPlaylistsClient : SpotifyClient (List (String × List String)) :=
  withTotals (memoryClient []) maxInt (fun _ => 0)

/-! ## Auxiliary definitions for failing calls -/

/-- No call among the log entries failed. -/
def NoFailure (evs : List Event) : Prop :=
  ∀ ev ∈ evs, ∀ e, ev.reply ≠ .failed e

/-- The way a call ended, none for a normal return. -/
def Outcome.halted {α : Type} : Outcome α → Option Halt
  | .ok _ => none
  | .halt h => some h

/-- The log entries new of a run and the way it ended, when an error e of a
client call ends the run with mk e: either no call failed and the run returned
normally, panicked or ran out of fuel; or the last entry is a failed call, no
call before it failed, and the run ended with the error of that call. -/
def FailsLast (mk : Err → Halt) (new : List Event) (h : Option Halt) : Prop :=
  (NoFailure new ∧ (h = none ∨ h = some .panic ∨ h = some .outOfFuel)) ∨
  ∃ pre call e, new = pre ++ [⟨call, .failed e⟩] ∧ NoFailure pre ∧ h = some (mk e)

/-- Every track of every page of tracks answered in the log entries new is in
the cached membership of its playlist. -/
def TracksKept (new : List Event) (c : Spotify) : Prop :=
  ∀ ev ∈ new, ∀ pid l o f page, ev.call = .GetPlaylistTracksOpt pid l o f →
    ev.reply = .playlistTracks page → ∀ t ∈ page.Tracks, t ∈ mapGetD c.playlistTracks pid []

/-- Every playlist whose tracks were requested in the log entries new is one
of the managed playlists ps, and its name is a key of the playlists cache. -/
def PlaylistsKept (ps : List SimplePlaylist) (new : List Event) (c : Spotify) : Prop :=
  ∀ ev ∈ new, ∀ pid l o f, ev.call = .GetPlaylistTracksOpt pid l o f →
    ∃ p ∈ ps, managed p = true ∧ p.ID = pid ∧ (mapGet c.playlists p.Name).isSome = true

/-- A client whose track listing fails for the playlist bad and that otherwise
behaves as cl. -/
def withFailingTracks {σ : Type} (cl : SpotifyClient σ) (bad : SpotifyID) : SpotifyClient σ :=
  { cl with
    GetPlaylistTracksOpt := fun s p l o f =>
      if p = bad then (.error "boom", s) else cl.GetPlaylistTracksOpt s p l o f }

/-- The in-memory client listing the managed playlists st-a, st-b and st-c,
whose track listing fails for the second one. -/
def brokenListingClient : SpotifyClient (List (String × List String)) :=
  withFailingTracks
    (memoryClient [{ ID := "idA", Name := "st-a" }, { ID := "idB", Name := "st-b" },
      { ID := "idC", Name := "st-c" }]) "idB"

/-! ## Auxiliary definitions for the order of the calls -/

/-- The call lists playlists or the tracks of a playlist. -/
def isListing : Call → Bool
  | .GetPlaylistsForUserOpt _ _ _ => true
  | .GetPlaylistTracksOpt _ _ _ _ => true
  | _ => false

/-- The call creates a playlist. -/
def isCreate : Call → Bool
  | .CreatePlaylistForUser _ _ _ _ => true
  | _ => false

/-- The call is an existence check. -/
def isGetTracks : Call → Bool
  | .GetTracks _ => true
  | _ => false

/-- The call removes tracks from the playlist pid. -/
def isRemoveFrom (pid : SpotifyID) : Call → Bool
  | .RemoveTracksFromPlaylist p _ => decide (p = pid)
  | _ => false

/-- The call adds tracks to the playlist pid. -/
def isAddTo (pid : SpotifyID) : Call → Bool
  | .AddTracksToPlaylist p _ => decide (p = pid)
  | _ => false

/-! ## Lemmas on the delta computation -/

theorem foundIn_iff (l : List SpotifyID) (x : SpotifyID) : foundIn l x = true ↔ x ∈ l := by
  induction l with
  | nil => simp [foundIn]
  | cons t ts ih =>
    by_cases h : t = x
    · simp [foundIn, h]
    · have h' : ¬ x = t := fun e => h e.symm
      simp [foundIn, h, h', ih]

theorem foundIn_eq_decide (l : List SpotifyID) (x : SpotifyID) : foundIn l x = decide (x ∈ l) := by
  by_cases h : x ∈ l
  · simp [h, (foundIn_iff l x).2 h]
  · have : foundIn l x ≠ true := fun e => h ((foundIn_iff l x).1 e)
    simp [h, this]

theorem getTrackIDsToAddLoop_fst {σ : Type} (playlistID : SpotifyID) (rest acc : List SpotifyID)
    (w : World σ) :
    (getTrackIDsToAddLoop playlistID rest acc w).1
      = acc ++ rest.filter
          (fun t => decide (t ∉ mapGetD w.c.playlistTracks playlistID [])) := by
  induction rest generalizing acc w with
  | nil => simp [getTrackIDsToAddLoop]
  | cons t ts ih =>
    by_cases h : t ∈ mapGetD w.c.playlistTracks playlistID []
    · simp [getTrackIDsToAddLoop, foundIn_eq_decide, h, ih]
    · simp [getTrackIDsToAddLoop, foundIn_eq_decide, h, ih, World.print]

theorem getTrackIDsToAddLoop_frame {σ : Type} (playlistID : SpotifyID)
    (rest acc : List SpotifyID) (w : World σ) :
    (getTrackIDsToAddLoop playlistID rest acc w).2.c = w.c ∧
    (getTrackIDsToAddLoop playlistID rest acc w).2.remote = w.remote ∧
    (getTrackIDsToAddLoop playlistID rest acc w).2.events = w.events := by
  induction rest generalizing acc w with
  | nil => simp [getTrackIDsToAddLoop]
  | cons t ts ih =>
    by_cases h : foundIn (mapGetD w.c.playlistTracks playlistID []) t = true
    · simp [getTrackIDsToAddLoop, h, ih]
    · simp [getTrackIDsToAddLoop, h, ih, World.print]

theorem getTrackIDsToRemoveLoop_fst {σ : Type} (playlistID : SpotifyID)
    (input rest acc : List SpotifyID) (w : World σ) :
    (getTrackIDsToRemoveLoop playlistID input rest acc w).1
      = acc ++ rest.filter (fun t => decide (t ∉ input)) := by
  induction rest generalizing acc w with
  | nil => simp [getTrackIDsToRemoveLoop]
  | cons t ts ih =>
    by_cases h : t ∈ input
    · simp [getTrackIDsToRemoveLoop, foundIn_eq_decide, h, ih]
    · simp [getTrackIDsToRemoveLoop, foundIn_eq_decide, h, ih]

theorem getTrackIDsToRemoveLoop_frame {σ : Type} (playlistID : SpotifyID)
    (input rest acc : List SpotifyID) (w : World σ) :
    (getTrackIDsToRemoveLoop playlistID input rest acc w).2.c = w.c ∧
    (getTrackIDsToRemoveLoop playlistID input rest acc w).2.remote = w.remote ∧
    (getTrackIDsToRemoveLoop playlistID input rest acc w).2.events = w.events := by
  induction rest generalizing acc w with
  | nil => simp [getTrackIDsToRemoveLoop]
  | cons t ts ih =>
    by_cases h : foundIn input t = true
    · simp [getTrackIDsToRemoveLoop, h, ih]
    · simp [getTrackIDsToRemoveLoop, h, ih, World.print]

theorem getTrackIDsToAdd_fst {σ : Type} (playlistID : SpotifyID) (des : List SpotifyID)
    (w : World σ) :
    (getTrackIDsToAdd playlistID des w).1
      = des.filter (fun t => decide (t ∉ mapGetD w.c.playlistTracks playlistID [])) := by
  simp [getTrackIDsToAdd, getTrackIDsToAddLoop_fst]

theorem getTrackIDsToRemove_fst {σ : Type} (playlistID : SpotifyID) (des : List SpotifyID)
    (w : World σ) :
    (getTrackIDsToRemove playlistID des w).1
      = (mapGetD w.c.playlistTracks playlistID []).filter (fun t => decide (t ∉ des)) := by
  simp [getTrackIDsToRemove, getTrackIDsToRemoveLoop_fst]

/-! ## C1: delta computation -/

/-- C1. For every cached membership and every desired list des,
getTrackIDsToRemove returns the cached tracks of the playlist that do not occur
in des, in the cache's order, and getTrackIDsToAdd returns the elements of des
that do not occur in the cached membership, in the order of des. For
des = [A, B, C] over the cached membership [B, C, D] that is toAdd = [A] and
toRemove = [D]. -/
theorem C1_delta_computation {σ : Type} (playlistID : SpotifyID) (des : List SpotifyID)
    (w : World σ) :
    (getTrackIDsToRemove playlistID des w).1
      = (mapGetD w.c.playlistTracks playlistID []).filter (fun t => decide (t ∉ des)) ∧
    (getTrackIDsToAdd playlistID des w).1
      = des.filter (fun t => decide (t ∉ mapGetD w.c.playlistTracks playlistID [])) ∧
    (getTrackIDsToAdd "P" ["A", "B", "C"]
        ({ c := { currentUserID := "u", playlistTracks := [("P", ["B", "C", "D"])],
                  playlists := [("st-p", "P")] },
           remote := (), events := [], stdout := [] } : World Unit)).1 = ["A"] ∧
    (getTrackIDsToRemove "P" ["A", "B", "C"]
        ({ c := { currentUserID := "u", playlistTracks := [("P", ["B", "C", "D"])],
                  playlists := [("st-p", "P")] },
           remote := (), events := [], stdout := [] } : World Unit)).1 = ["D"] :=
  ⟨getTrackIDsToRemove_fst playlistID des w, getTrackIDsToAdd_fst playlistID des w,
    by decide, by decide⟩

/-! ## Lemmas on slices and chunked loops -/

theorem slice_chunk_length {α : Type} (l : List α) (i n : Nat) (hn : 0 < n)
    (hi : i < l.length) :
    1 ≤ (slice l i (if i + n > l.length then l.length else i + n)).length ∧
    (slice l i (if i + n > l.length then l.length else i + n)).length ≤ n := by
  unfold slice
  split <;> simp [List.length_take, List.length_drop] <;> omega

theorem slice_chunk_append {α : Type} (l : List α) (i n : Nat) :
    slice l i (if i + n > l.length then l.length else i + n) ++ l.drop (i + n) = l.drop i := by
  have hd : l.drop (i + n) = (l.drop i).drop n := by rw [List.drop_drop]
  unfold slice
  split
  · rename_i h
    have h1 : (l.drop i).take (l.length - i) = l.drop i := by
      apply List.take_of_length_le
      simp [List.length_drop]
    have h2 : l.drop (i + n) = [] := by
      apply List.drop_of_length_le
      omega
    rw [h1, h2, List.append_nil]
  · have h3 : i + n - i = n := by omega
    rw [h3, hd, List.take_append_drop]

theorem slice_length_le {α : Type} (l : List α) (i j : Nat) : (slice l i j).length ≤ l.length := by
  unfold slice
  simp only [List.length_take, List.length_drop]
  omega

theorem slice_full_length {α : Type} (l : List α) (i n : Nat) (h : i + n ≤ l.length) :
    (slice l i (if i + n > l.length then l.length else i + n)).length = n := by
  unfold slice
  split <;> simp [List.length_take, List.length_drop] <;> omega

theorem addTracksToPlaylistLoop_ok {σ : Type} (cl : SpotifyClient σ) (playlistID : SpotifyID)
    (trackIDs : List SpotifyID)
    (hok : ∀ s ids, ∃ snap, (cl.AddTracksToPlaylist s playlistID ids).1 = .ok snap) :
    ∀ (fuel i : Nat) (w : World σ), trackIDs.length - i < fuel →
      ∃ w' chunks,
        addTracksToPlaylistLoop cl playlistID trackIDs fuel i w = (.ok (), w') ∧
        w'.c = w.c ∧ w'.stdout = w.stdout ∧
        w'.calls = w.calls ++ chunks.map (Call.AddTracksToPlaylist playlistID) ∧
        w'.remote = remoteAfter (fun s ch => (cl.AddTracksToPlaylist s playlistID ch).2)
          w.remote chunks ∧
        chunks.flatten = trackIDs.drop i ∧
        (∀ ch ∈ chunks, 1 ≤ ch.length ∧ ch.length ≤ maxPlaylistTracks) ∧
        chunks.length = (trackIDs.length - i + 99) / 100 ∧
        (∀ ch ∈ chunks.dropLast, ch.length = maxPlaylistTracks) := by
  intro fuel
  induction fuel with
  | zero => intro i w h; omega
  | succ fuel ih =>
    intro i w h
    by_cases hi : i < trackIDs.length
    · obtain ⟨snap, hsnap⟩ := hok w.remote
        (slice trackIDs i (if i + maxPlaylistTracks > trackIDs.length then trackIDs.length
          else i + maxPlaylistTracks))
      have hfuel : trackIDs.length - (i + maxPlaylistTracks) < fuel := by
        simp only [maxPlaylistTracks]; omega
      obtain ⟨w', chunks, hrun, hc, hout, hcalls, hrem, hflat, hlen, hcount, hfull⟩ :=
        ih (i + maxPlaylistTracks)
          (w.record (.AddTracksToPlaylist playlistID
            (slice trackIDs i (if i + maxPlaylistTracks > trackIDs.length then trackIDs.length
              else i + maxPlaylistTracks))) (.snapshot snap)
            (cl.AddTracksToPlaylist w.remote playlistID
              (slice trackIDs i (if i + maxPlaylistTracks > trackIDs.length then trackIDs.length
                else i + maxPlaylistTracks))).2) hfuel
      refine ⟨w', slice trackIDs i (if i + maxPlaylistTracks > trackIDs.length
        then trackIDs.length else i + maxPlaylistTracks) :: chunks, ?_, ?_, ?_, ?_, ?_, ?_, ?_, ?_, ?_⟩
      · simp only [addTracksToPlaylistLoop, hi, if_true, hsnap]
        exact hrun
      · simpa [World.record] using hc
      · simpa [World.record] using hout
      · simpa [World.record, World.calls] using hcalls
      · simpa [World.record, remoteAfter] using hrem
      · rw [List.flatten_cons, hflat]
        exact slice_chunk_append trackIDs i maxPlaylistTracks
      · intro ch hch
        rcases List.mem_cons.1 hch with h1 | h1
        · rw [h1]
          exact slice_chunk_length trackIDs i maxPlaylistTracks (by decide) hi
        · exact hlen ch h1
      · simp only [List.length_cons, hcount, maxPlaylistTracks]
        omega
      · intro ch hch
        cases chunks with
        | nil => simp at hch
        | cons c cs =>
          rw [List.dropLast_cons₂] at hch
          rcases List.mem_cons.1 hch with h1 | h1
          · have hc2 : 0 < (trackIDs.length - (i + maxPlaylistTracks) + 99) / 100 := by
              rw [← hcount]; simp
            rw [h1]
            exact slice_full_length trackIDs i maxPlaylistTracks
              (by simp only [maxPlaylistTracks] at hc2 ⊢; omega)
          · exact hfull ch h1
    · refine ⟨w, [], ?_, rfl, rfl, ?_, rfl, ?_, ?_, ?_, ?_⟩
      · simp [addTracksToPlaylistLoop, hi]
      · simp
      · simp only [List.flatten_nil]
        exact (List.drop_of_length_le (by omega)).symm
      · intro ch hch; simp at hch
      · simp only [List.length_nil]
        omega
      · intro ch hch; simp at hch

theorem removeTracksFromPlaylistLoop_ok {σ : Type} (cl : SpotifyClient σ)
    (playlistID : SpotifyID) (trackIDs : List SpotifyID)
    (hok : ∀ s ids, ∃ snap, (cl.RemoveTracksFromPlaylist s playlistID ids).1 = .ok snap) :
    ∀ (fuel i : Nat) (w : World σ), trackIDs.length - i < fuel →
      ∃ w' chunks,
        removeTracksFromPlaylistLoop cl playlistID trackIDs fuel i w = (.ok (), w') ∧
        w'.c = w.c ∧ w'.stdout = w.stdout ∧
        w'.calls = w.calls ++ chunks.map (Call.RemoveTracksFromPlaylist playlistID) ∧
        w'.remote = remoteAfter (fun s ch => (cl.RemoveTracksFromPlaylist s playlistID ch).2)
          w.remote chunks ∧
        chunks.flatten = trackIDs.drop i ∧
        (∀ ch ∈ chunks, 1 ≤ ch.length ∧ ch.length ≤ maxPlaylistTracks) ∧
        chunks.length = (trackIDs.length - i + 99) / 100 ∧
        (∀ ch ∈ chunks.dropLast, ch.length = maxPlaylistTracks) := by
  intro fuel
  induction fuel with
  | zero => intro i w h; omega
  | succ fuel ih =>
    intro i w h
    by_cases hi : i < trackIDs.length
    · obtain ⟨snap, hsnap⟩ := hok w.remote
        (slice trackIDs i (if i + maxPlaylistTracks > trackIDs.length then trackIDs.length
          else i + maxPlaylistTracks))
      have hfuel : trackIDs.length - (i + maxPlaylistTracks) < fuel := by
        simp only [maxPlaylistTracks]; omega
      obtain ⟨w', chunks, hrun, hc, hout, hcalls, hrem, hflat, hlen, hcount, hfull⟩ :=
        ih (i + maxPlaylistTracks)
          (w.record (.RemoveTracksFromPlaylist playlistID
            (slice trackIDs i (if i + maxPlaylistTracks > trackIDs.length then trackIDs.length
              else i + maxPlaylistTracks))) (.snapshot snap)
            (cl.RemoveTracksFromPlaylist w.remote playlistID
              (slice trackIDs i (if i + maxPlaylistTracks > trackIDs.length then trackIDs.length
                else i + maxPlaylistTracks))).2) hfuel
      refine ⟨w', slice trackIDs i (if i + maxPlaylistTracks > trackIDs.length
        then trackIDs.length else i + maxPlaylistTracks) :: chunks, ?_, ?_, ?_, ?_, ?_, ?_, ?_, ?_, ?_⟩
      · simp only [removeTracksFromPlaylistLoop, hi, if_true, hsnap]
        exact hrun
      · simpa [World.record] using hc
      · simpa [World.record] using hout
      · simpa [World.record, World.calls] using hcalls
      · simpa [World.record, remoteAfter] using hrem
      · rw [List.flatten_cons, hflat]
        exact slice_chunk_append trackIDs i maxPlaylistTracks
      · intro ch hch
        rcases List.mem_cons.1 hch with h1 | h1
        · rw [h1]
          exact slice_chunk_length trackIDs i maxPlaylistTracks (by decide) hi
        · exact hlen ch h1
      · simp only [List.length_cons, hcount, maxPlaylistTracks]
        omega
      · intro ch hch
        cases chunks with
        | nil => simp at hch
        | cons c cs =>
          rw [List.dropLast_cons₂] at hch
          rcases List.mem_cons.1 hch with h1 | h1
          · have hc2 : 0 < (trackIDs.length - (i + maxPlaylistTracks) + 99) / 100 := by
              rw [← hcount]; simp
            rw [h1]
            exact slice_full_length trackIDs i maxPlaylistTracks
              (by simp only [maxPlaylistTracks] at hc2 ⊢; omega)
          · exact hfull ch h1
    · refine ⟨w, [], ?_, rfl, rfl, ?_, rfl, ?_, ?_, ?_, ?_⟩
      · simp [removeTracksFromPlaylistLoop, hi]
      · simp
      · simp only [List.flatten_nil]
        exact (List.drop_of_length_le (by omega)).symm
      · intro ch hch; simp at hch
      · simp only [List.length_nil]
        omega
      · intro ch hch; simp at hch

theorem two_chunks_of_101 (l : List SpotifyID) (chunks : List (List SpotifyID))
    (hl : l.length = 101) (hflat : chunks.flatten = l)
    (hcount : chunks.length = (l.length + 99) / 100)
    (hfull : ∀ ch ∈ chunks.dropLast, ch.length = maxPlaylistTracks) :
    chunks.map List.length = [100, 1] := by
  rw [hl] at hcount
  match chunks, hcount with
  | [a, b], _ =>
    have ha : a.length = 100 := hfull a (by simp)
    have hsum : a.length + b.length = 101 := by
      rw [← hl, ← hflat]; simp
    simp only [List.map_cons, List.map_nil, ha]
    congr 2
    omega

/-! ## C4: batching of mutations -/

/-- C4. When every mutation call of the client succeeds, addTracksToPlaylist
and removeTracksFromPlaylist return without error after exactly
ceil(n / 100) mutation calls for the playlist, where n is the number of
track IDs; every call carries at least 1 and at most 100 IDs (every call but
the last exactly 100), and the calls' ID lists concatenated in call order are
the input list. For n = 101 the calls carry 100 and 1 IDs. -/
theorem C4_batching_of_mutations {σ : Type} (cl : SpotifyClient σ) (playlistID : SpotifyID)
    (trackIDs : List SpotifyID) (w : World σ)
    (hadd : ∀ s ids, ∃ snap, (cl.AddTracksToPlaylist s playlistID ids).1 = .ok snap)
    (hrem : ∀ s ids, ∃ snap, (cl.RemoveTracksFromPlaylist s playlistID ids).1 = .ok snap) :
    (∃ (w' : World σ) (chunks : List (List SpotifyID)),
      addTracksToPlaylist cl playlistID trackIDs w = (.ok (), w') ∧
      w'.calls = w.calls ++ chunks.map (Call.AddTracksToPlaylist playlistID) ∧
      chunks.length = (trackIDs.length + 99) / 100 ∧
      (∀ ch ∈ chunks, 1 ≤ ch.length ∧ ch.length ≤ 100) ∧
      (∀ ch ∈ chunks.dropLast, ch.length = 100) ∧
      chunks.flatten = trackIDs ∧
      (trackIDs.length = 101 → chunks.map List.length = [100, 1])) ∧
    (∃ (w' : World σ) (chunks : List (List SpotifyID)),
      removeTracksFromPlaylist cl playlistID trackIDs w = (.ok (), w') ∧
      w'.calls = w.calls ++ chunks.map (Call.RemoveTracksFromPlaylist playlistID) ∧
      chunks.length = (trackIDs.length + 99) / 100 ∧
      (∀ ch ∈ chunks, 1 ≤ ch.length ∧ ch.length ≤ 100) ∧
      (∀ ch ∈ chunks.dropLast, ch.length = 100) ∧
      chunks.flatten = trackIDs ∧
      (trackIDs.length = 101 → chunks.map List.length = [100, 1])) := by
  constructor
  · obtain ⟨w', chunks, hrun, _, _, hcalls, _, hflat, hlen, hcount, hfull⟩ :=
      addTracksToPlaylistLoop_ok cl playlistID trackIDs hadd (trackIDs.length + 1) 0 w (by omega)
    rw [List.drop_zero] at hflat
    rw [Nat.sub_zero] at hcount
    exact ⟨w', chunks, hrun, hcalls, hcount, hlen, hfull, hflat,
      fun h => two_chunks_of_101 trackIDs chunks h hflat hcount hfull⟩
  · obtain ⟨w', chunks, hrun, _, _, hcalls, _, hflat, hlen, hcount, hfull⟩ :=
      removeTracksFromPlaylistLoop_ok cl playlistID trackIDs hrem (trackIDs.length + 1) 0 w
        (by omega)
    rw [List.drop_zero] at hflat
    rw [Nat.sub_zero] at hcount
    exact ⟨w', chunks, hrun, hcalls, hcount, hlen, hfull, hflat,
      fun h => two_chunks_of_101 trackIDs chunks h hflat hcount hfull⟩

/-- Witness of C4 on the test client with 101 track IDs. -/
theorem C4_batching_of_mutations_witness :
    (∃ (w' : World (List (String × List String))) (chunks : List (List SpotifyID)),
      addTracksToPlaylist TestSpotify "p" (List.replicate 101 "t")
        (NewSpotifyWithClient "koenrh" []) = (.ok (), w') ∧
      w'.calls = (NewSpotifyWithClient "koenrh" ([] : List (String × List String))).calls
        ++ chunks.map (Call.AddTracksToPlaylist "p") ∧
      chunks.length = ((List.replicate 101 "t").length + 99) / 100 ∧
      (∀ ch ∈ chunks, 1 ≤ ch.length ∧ ch.length ≤ 100) ∧
      (∀ ch ∈ chunks.dropLast, ch.length = 100) ∧
      chunks.flatten = List.replicate 101 "t" ∧
      ((List.replicate 101 "t").length = 101 → chunks.map List.length = [100, 1])) ∧
    (∃ (w' : World (List (String × List String))) (chunks : List (List SpotifyID)),
      removeTracksFromPlaylist TestSpotify "p" (List.replicate 101 "t")
        (NewSpotifyWithClient "koenrh" []) = (.ok (), w') ∧
      w'.calls = (NewSpotifyWithClient "koenrh" ([] : List (String × List String))).calls
        ++ chunks.map (Call.RemoveTracksFromPlaylist "p") ∧
      chunks.length = ((List.replicate 101 "t").length + 99) / 100 ∧
      (∀ ch ∈ chunks, 1 ≤ ch.length ∧ ch.length ≤ 100) ∧
      (∀ ch ∈ chunks.dropLast, ch.length = 100) ∧
      chunks.flatten = List.replicate 101 "t" ∧
      ((List.replicate 101 "t").length = 101 → chunks.map List.length = [100, 1])) :=
  C4_batching_of_mutations TestSpotify "p" (List.replicate 101 "t")
    (NewSpotifyWithClient "koenrh" []) (fun _ _ => ⟨"", rfl⟩) (fun _ _ => ⟨"", rfl⟩)

/-! ## C5: existence validation -/

theorem cleanTrackIDsRange_ok {σ : Type} (input : List String) (ex : SpotifyID → Bool) :
    ∀ (ids : List SpotifyID) (k : Nat) (acc : List SpotifyID) (w : World σ),
      k + ids.length ≤ input.length →
      ∃ w', cleanTrackIDsRange input (answerTracks ex ids) k acc w
          = (.ok (acc ++ ids.filter ex), w') ∧
        w'.c = w.c ∧ w'.remote = w.remote ∧ w'.events = w.events := by
  intro ids
  induction ids with
  | nil => intro k acc w _; exact ⟨w, by simp [answerTracks, cleanTrackIDsRange], rfl, rfl, rfl⟩
  | cons t ts ih =>
    intro k acc w hk
    simp only [List.length_cons] at hk
    by_cases ht : ex t = true
    · obtain ⟨w', hrun, h1, h2, h3⟩ := ih (k + 1) (acc ++ [t]) w (by omega)
      refine ⟨w', ?_, h1, h2, h3⟩
      simp only [answerTracks, List.map_cons, ht, if_true, cleanTrackIDsRange]
      simp only [answerTracks] at hrun
      rw [hrun]
      simp [List.filter_cons, ht]
    · have hlt : k < input.length := by omega
      obtain ⟨w', hrun, h1, h2, h3⟩ :=
        ih (k + 1) acc (w.print (doesNotExist (input[k]))) (by omega)
      refine ⟨w', ?_, ?_, ?_, ?_⟩
      · simp only [answerTracks, List.map_cons, ht, cleanTrackIDsRange,
          List.getElem?_eq_getElem hlt]
        simp only [answerTracks] at hrun
        rw [hrun]
        simp [List.filter_cons, ht]
      · simpa [World.print] using h1
      · simpa [World.print] using h2
      · simpa [World.print] using h3

theorem cleanTrackIDsLoop_ok {σ : Type} (cl : SpotifyClient σ) (input : List String)
    (ex : SpotifyID → Bool)
    (hfaith : ∀ s ids, (cl.GetTracks s ids).1 = .ok (answerTracks ex ids)) :
    ∀ (fuel i : Nat) (acc : List SpotifyID) (w : World σ), input.length - i < fuel →
      ∃ w' chunks,
        cleanTrackIDsLoop cl input input fuel i acc w
          = (.ok (acc ++ (input.drop i).filter ex), w') ∧
        w'.c = w.c ∧
        w'.calls = w.calls ++ chunks.map Call.GetTracks ∧
        w'.remote = remoteAfter (fun s ch => (cl.GetTracks s ch).2) w.remote chunks ∧
        chunks.flatten = input.drop i ∧
        (∀ ch ∈ chunks, 1 ≤ ch.length ∧ ch.length ≤ maxTracks) := by
  intro fuel
  induction fuel with
  | zero => intro i acc w h; omega
  | succ fuel ih =>
    intro i acc w h
    by_cases hi : i < input.length
    · have hlen := slice_chunk_length input i maxTracks (by decide) hi
      have happ := slice_chunk_append input i maxTracks
      have hle := slice_length_le input i
        (if i + maxTracks > input.length then input.length else i + maxTracks)
      generalize hch : slice input i (if i + maxTracks > input.length then input.length
        else i + maxTracks) = chunk at hlen happ hle
      have hreply := hfaith w.remote chunk
      obtain ⟨w1, hrange, hc1, hr1, he1⟩ :=
        cleanTrackIDsRange_ok input ex chunk 0 acc
          (w.record (.GetTracks chunk) (.tracks (answerTracks ex chunk))
            (cl.GetTracks w.remote chunk).2)
          (by omega)
      have hfuel : input.length - (i + maxTracks) < fuel := by
        simp only [maxTracks]; omega
      obtain ⟨w', chunks, hrun, hc, hcalls, hrem, hflat, hlens⟩ :=
        ih (i + maxTracks) (acc ++ chunk.filter ex) w1 hfuel
      refine ⟨w', chunk :: chunks, ?_, ?_, ?_, ?_, ?_, ?_⟩
      · simp only [cleanTrackIDsLoop, hi, if_true, hch, hreply, hrange]
        rw [hrun, ← happ, List.filter_append, List.append_assoc]
      · rw [hc, hc1]; rfl
      · rw [hcalls]
        simp [World.calls, he1, World.record]
      · rw [hrem, hr1]
        simp [World.record, remoteAfter]
      · rw [List.flatten_cons, hflat]
        exact happ
      · intro ch hmem
        rcases List.mem_cons.1 hmem with h1 | h1
        · rw [h1]; exact hlen
        · exact hlens ch h1
    · refine ⟨w, [], ?_, rfl, ?_, rfl, ?_, ?_⟩
      · have hd : input.drop i = [] := List.drop_of_length_le (by omega)
        simp [cleanTrackIDsLoop, hi, hd]
      · simp
      · simp only [List.flatten_nil]
        exact (List.drop_of_length_le (by omega)).symm
      · intro ch hch; simp at hch

/-- C5. Over a client whose GetTracks succeeds and answers every request
entry by entry in request order (the track when it exists, nil when it is
missing), cleanTrackIDs returns without error, issues GetTracks calls whose
ID lists are consecutive chunks of 1 to 50 IDs with the input as their
concatenation, and returns the existing IDs of the input in input order; no
ID the service reports missing is in the result. -/
theorem C5_existence_validation {σ : Type} (cl : SpotifyClient σ) (ex : SpotifyID → Bool)
    (inputTrackIDs : List String) (w : World σ)
    (hfaith : ∀ s ids, (cl.GetTracks s ids).1 = .ok (answerTracks ex ids)) :
    ∃ (w' : World σ) (chunks : List (List SpotifyID)),
      cleanTrackIDs cl inputTrackIDs w = (.ok (inputTrackIDs.filter ex), w') ∧
      w'.calls = w.calls ++ chunks.map Call.GetTracks ∧
      chunks.flatten = inputTrackIDs ∧
      (∀ ch ∈ chunks, 1 ≤ ch.length ∧ ch.length ≤ 50) ∧
      (∀ t, ex t = false → t ∉ inputTrackIDs.filter ex) := by
  obtain ⟨w', chunks, hrun, _, hcalls, _, hflat, hlens⟩ :=
    cleanTrackIDsLoop_ok cl inputTrackIDs ex hfaith (inputTrackIDs.length + 1) 0 [] w (by omega)
  rw [List.drop_zero] at hflat
  rw [List.drop_zero, List.nil_append] at hrun
  refine ⟨w', chunks, hrun, hcalls, hflat, hlens, ?_⟩
  intro t ht hmem
  rw [List.mem_filter] at hmem
  rw [hmem.2] at ht
  exact Bool.noConfusion ht

/-- Witness of C5: the test client with the track m missing. -/
theorem C5_existence_validation_witness :
    ∃ (w' : World (List (String × List String))) (chunks : List (List SpotifyID)),
      cleanTrackIDs (withMissing TestSpotify ["m"]) ["a", "m", "b"]
          (NewSpotifyWithClient "koenrh" [])
        = (.ok (["a", "m", "b"].filter (fun t => decide (t ∉ ["m"]))), w') ∧
      w'.calls = (NewSpotifyWithClient "koenrh" ([] : List (String × List String))).calls
        ++ chunks.map Call.GetTracks ∧
      chunks.flatten = ["a", "m", "b"] ∧
      (∀ ch ∈ chunks, 1 ≤ ch.length ∧ ch.length ≤ 50) ∧
      (∀ t, (fun t => decide (t ∉ ["m"])) t = false →
        t ∉ ["a", "m", "b"].filter (fun t => decide (t ∉ ["m"]))) :=
  C5_existence_validation (withMissing TestSpotify ["m"]) (fun t => decide (t ∉ ["m"]))
    ["a", "m", "b"] (NewSpotifyWithClient "koenrh" [])
    (fun s ids => by
      simp only [withMissing, answerTracks]
      congr 3
      funext t
      by_cases h : t ∈ ["m"] <;> simp [h])

/-! ## C7: an empty desired list is a no-op -/

/-- C7. For every client, state and playlist name, AddTracksToNamedPlaylist
with an empty desired list returns without error and leaves the whole world
as it was: no client call is added to the log, the client state, both caches
and the output are unchanged. -/
theorem C7_empty_desired_noop {σ : Type} (cl : SpotifyClient σ) (fuel : Nat)
    (playlistName : String) (w : World σ) :
    AddTracksToNamedPlaylist cl fuel playlistName [] w = (.ok (), w) ∧
    (AddTracksToNamedPlaylist cl fuel playlistName [] w).2.calls = w.calls ∧
    (AddTracksToNamedPlaylist cl fuel playlistName [] w).2.c.playlists = w.c.playlists ∧
    (AddTracksToNamedPlaylist cl fuel playlistName [] w).2.c.playlistTracks
      = w.c.playlistTracks := by
  simp [AddTracksToNamedPlaylist]

/-! ## C10: the message for a missing track -/

/-- C10, the code at the failing input. The input has 51 track IDs, fifty
times a and then b, and the service reports b missing. The track b at input
position 50 is dropped from the result, but the message names the track at
position 0 of the input, a: the index k of the message counts from the start
of the chunk, not of the input. -/
theorem C10_message_names_wrong_track :
    (List.replicate 50 "a" ++ ["b"])[50]? = some "b" ∧
    (cleanTrackIDs (withMissing TestSpotify ["b"]) (List.replicate 50 "a" ++ ["b"])
        (NewSpotifyWithClient "koenrh" [])).1 = .ok (List.replicate 50 "a") ∧
    (cleanTrackIDs (withMissing TestSpotify ["b"]) (List.replicate 50 "a" ++ ["b"])
        (NewSpotifyWithClient "koenrh" [])).2.stdout = ["spotify:track:a does not exist"] ∧
    doesNotExist "b" ∉
      (cleanTrackIDs (withMissing TestSpotify ["b"]) (List.replicate 50 "a" ++ ["b"])
        (NewSpotifyWithClient "koenrh" [])).2.stdout := by
  decide

/-! ## C9: population a second time -/

/-- C9, the code at the failing input. The test client lists the managed
playlist st-foo, which has no tracks. The first populatePlaylists succeeds
and leaves playlistTracks empty, so the guard of the second call does not
hold and the second call lists the playlists and the tracks again. -/
theorem C9_second_populate_requests_again :
    (populatePlaylists TestSpotify 1 (NewSpotifyWithClient "koenrh" [])).1 = .ok () ∧
    (populatePlaylists TestSpotify 1 (NewSpotifyWithClient "koenrh" [])).2.c.playlists
      = [("st-foo", "spotify:playlist:foo1")] ∧
    (populatePlaylists TestSpotify 1 (NewSpotifyWithClient "koenrh" [])).2.c.playlistTracks
      = [] ∧
    (populatePlaylists TestSpotify 1 (NewSpotifyWithClient "koenrh" [])).2.calls
      = [.GetPlaylistsForUserOpt "koenrh" 50 0,
         .GetPlaylistTracksOpt "spotify:playlist:foo1" 100 0 ""] ∧
    (populatePlaylists TestSpotify 1
        (populatePlaylists TestSpotify 1 (NewSpotifyWithClient "koenrh" [])).2).2.calls
      = [.GetPlaylistsForUserOpt "koenrh" 50 0,
         .GetPlaylistTracksOpt "spotify:playlist:foo1" 100 0 "",
         .GetPlaylistsForUserOpt "koenrh" 50 0,
         .GetPlaylistTracksOpt "spotify:playlist:foo1" 100 0 ""] := by
  decide

/-! ## C3: idempotence -/

/-- C3 fails on one instance: the test client holds st-foo with the tracks
rofl and foo2, and the desired list is foo1, foo2. The first call removes rofl
and adds foo1. The cache is not refreshed, so the second call on the same
instance computes the same delta and issues the removal and the addition
again; the playlist then holds foo1 twice. -/
theorem C3_same_instance_repeats_delta :
    (AddTracksToNamedPlaylist TestSpotify 1 "st-foo" ["spotify:track:foo1", "spotify:track:foo2"]
      (NewSpotifyWithClient "koenrh"
        [("spotify:playlist:foo1", ["spotify:track:rofl", "spotify:track:foo2"])])).1 = .ok () ∧
    (AddTracksToNamedPlaylist TestSpotify 1 "st-foo" ["spotify:track:foo1", "spotify:track:foo2"]
      (AddTracksToNamedPlaylist TestSpotify 1 "st-foo"
        ["spotify:track:foo1", "spotify:track:foo2"]
        (NewSpotifyWithClient "koenrh"
          [("spotify:playlist:foo1", ["spotify:track:rofl", "spotify:track:foo2"])])).2).2.calls
      = [.GetPlaylistsForUserOpt "koenrh" 50 0,
         .GetPlaylistTracksOpt "spotify:playlist:foo1" 100 0 "",
         .GetTracks ["spotify:track:foo1", "spotify:track:foo2"],
         .RemoveTracksFromPlaylist "spotify:playlist:foo1" ["spotify:track:rofl"],
         .AddTracksToPlaylist "spotify:playlist:foo1" ["spotify:track:foo1"],
         .GetTracks ["spotify:track:foo1", "spotify:track:foo2"],
         .RemoveTracksFromPlaylist "spotify:playlist:foo1" ["spotify:track:rofl"],
         .AddTracksToPlaylist "spotify:playlist:foo1" ["spotify:track:foo1"]] ∧
    (AddTracksToNamedPlaylist TestSpotify 1 "st-foo" ["spotify:track:foo1", "spotify:track:foo2"]
      (AddTracksToNamedPlaylist TestSpotify 1 "st-foo"
        ["spotify:track:foo1", "spotify:track:foo2"]
        (NewSpotifyWithClient "koenrh"
          [("spotify:playlist:foo1", ["spotify:track:rofl", "spotify:track:foo2"])])).2).2.remote
      = [("spotify:playlist:foo1",
          ["spotify:track:foo2", "spotify:track:foo1", "spotify:track:foo1"])] := by
  decide

/-! ## Lemmas on the test client -/

theorem mapGet_mapSet_same {κ ν : Type} [DecidableEq κ] (m : List (κ × ν)) (k : κ) (v : ν) :
    mapGet (mapSet m k v) k = some v := by
  induction m with
  | nil => simp [mapSet, mapGet]
  | cons kv m ih =>
    obtain ⟨k', v'⟩ := kv
    by_cases h : k' = k
    · simp [mapSet, mapGet, h]
    · simp [mapSet, mapGet, h, ih]

theorem mapGet_mapSet_other {κ ν : Type} [DecidableEq κ] (m : List (κ × ν)) (k k2 : κ) (v : ν)
    (hne : k ≠ k2) : mapGet (mapSet m k v) k2 = mapGet m k2 := by
  induction m with
  | nil => simp [mapSet, mapGet, hne]
  | cons kv m ih =>
    obtain ⟨k', v'⟩ := kv
    by_cases h : k' = k
    · subst h
      simp [mapSet, mapGet, hne]
    · by_cases h2 : k' = k2
      · subst h2
        simp [mapSet, mapGet, h]
      · simp [mapSet, mapGet, h, h2, ih]

theorem mapGetD_mapSet_same {κ ν : Type} [DecidableEq κ] (m : List (κ × ν)) (k : κ) (v d : ν) :
    mapGetD (mapSet m k v) k d = v := by
  simp [mapGetD, mapGet_mapSet_same]

theorem mapGetD_appendTracks (m : List (SpotifyID × List SpotifyID)) (id : SpotifyID)
    (ts : List SpotifyID) :
    mapGetD (appendTracks m id ts) id [] = mapGetD m id [] ++ ts := by
  induction ts generalizing m with
  | nil => simp [appendTracks]
  | cons t ts ih => simp [appendTracks, ih, mapGetD_mapSet_same]

theorem mapGetD_testAddLoop (m : List (String × List String)) (pID : SpotifyID)
    (ts : List SpotifyID) :
    mapGetD (testAddLoop m pID ts) pID [] = mapGetD m pID [] ++ ts := by
  induction ts generalizing m with
  | nil => simp [testAddLoop]
  | cons t ts ih => simp [testAddLoop, ih, mapGetD_mapSet_same]

theorem testRemoveLoop_eq (tracks : List SpotifyID) (stored acc : List String) :
    testRemoveLoop tracks stored acc = acc ++ stored.filter (fun t => decide (t ∉ tracks)) := by
  induction stored generalizing acc with
  | nil => simp [testRemoveLoop]
  | cons t ts ih =>
    by_cases h : t ∈ tracks
    · simp [testRemoveLoop, foundIn_eq_decide, h, ih]
    · simp [testRemoveLoop, foundIn_eq_decide, h, ih]

theorem remoteAfter_getTracks (listing : List SimplePlaylist) (s : List (String × List String))
    (chunks : List (List SpotifyID)) :
    remoteAfter (fun s ch => ((memoryClient listing).GetTracks s ch).2) s chunks = s := by
  induction chunks generalizing s with
  | nil => rfl
  | cons ch chunks ih =>
    have h := ih s
    simp only [remoteAfter, memoryClient] at h ⊢
    exact h

theorem remoteAfter_remove (listing : List SimplePlaylist) (pID : SpotifyID)
    (s : List (String × List String)) (chunks : List (List SpotifyID)) :
    mapGetD (remoteAfter
        (fun s ch => ((memoryClient listing).RemoveTracksFromPlaylist s pID ch).2) s chunks)
        pID []
      = (mapGetD s pID []).filter (fun t => decide (t ∉ chunks.flatten)) := by
  induction chunks generalizing s with
  | nil => simp [remoteAfter]
  | cons ch chunks ih =>
    have h := ih (mapSet s pID (testRemoveLoop ch (mapGetD s pID []) []))
    simp only [remoteAfter, List.foldl_cons, memoryClient] at h ⊢
    rw [h, mapGetD_mapSet_same, testRemoveLoop_eq, List.nil_append, List.filter_filter]
    apply List.filter_congr
    intro t _
    by_cases h1 : t ∈ ch <;> by_cases h2 : t ∈ chunks.flatten <;> simp [h1, h2]

theorem remoteAfter_add (listing : List SimplePlaylist) (pID : SpotifyID)
    (s : List (String × List String)) (chunks : List (List SpotifyID)) :
    mapGetD (remoteAfter
        (fun s ch => ((memoryClient listing).AddTracksToPlaylist s pID ch).2) s chunks) pID []
      = mapGetD s pID [] ++ chunks.flatten := by
  induction chunks generalizing s with
  | nil => simp [remoteAfter]
  | cons ch chunks ih =>
    have h := ih (testAddLoop s pID ch)
    simp only [remoteAfter, List.foldl_cons, memoryClient] at h ⊢
    rw [h, mapGetD_testAddLoop, List.flatten_cons, List.append_assoc]

/-! ## The steps of updatePlaylist over a well-behaved client -/

theorem updatePlaylist_ok {σ : Type} (cl : SpotifyClient σ) (ex : SpotifyID → Bool)
    (playlistID : SpotifyID) (des : List String) (w : World σ)
    (hfaith : ∀ s ids, (cl.GetTracks s ids).1 = .ok (answerTracks ex ids))
    (hadd : ∀ s ids, ∃ snap, (cl.AddTracksToPlaylist s playlistID ids).1 = .ok snap)
    (hrem : ∀ s ids, ∃ snap, (cl.RemoveTracksFromPlaylist s playlistID ids).1 = .ok snap) :
    ∃ (w' : World σ) (gs rs as : List (List SpotifyID)),
      updatePlaylist cl playlistID des w = (.ok (), w') ∧
      w'.c = w.c ∧
      w'.calls = w.calls ++ gs.map Call.GetTracks
        ++ rs.map (Call.RemoveTracksFromPlaylist playlistID)
        ++ as.map (Call.AddTracksToPlaylist playlistID) ∧
      gs.flatten = des ∧
      (∀ ch ∈ rs, 1 ≤ ch.length ∧ ch.length ≤ maxPlaylistTracks) ∧
      (∀ ch ∈ as, 1 ≤ ch.length ∧ ch.length ≤ maxPlaylistTracks) ∧
      rs.flatten = (mapGetD w.c.playlistTracks playlistID []).filter
        (fun t => decide (t ∉ des.filter ex)) ∧
      as.flatten = (des.filter ex).filter
        (fun t => decide (t ∉ mapGetD w.c.playlistTracks playlistID [])) ∧
      w'.remote =
        remoteAfter (fun s ch => (cl.AddTracksToPlaylist s playlistID ch).2)
          (remoteAfter (fun s ch => (cl.RemoveTracksFromPlaylist s playlistID ch).2)
            (remoteAfter (fun s ch => (cl.GetTracks s ch).2) w.remote gs) rs) as := by
  obtain ⟨w1, gs, hrun1, hc1, hcalls1, hrem1, hflat1, _⟩ :=
    cleanTrackIDsLoop_ok cl des ex hfaith (des.length + 1) 0 [] w (by omega)
  rw [List.drop_zero] at hflat1
  rw [List.drop_zero, List.nil_append] at hrun1
  have hfr := getTrackIDsToRemoveLoop_frame playlistID (des.filter ex)
    (mapGetD w1.c.playlistTracks playlistID []) [] w1
  have hr1 := getTrackIDsToRemove_fst playlistID (des.filter ex) w1
  obtain ⟨w2, rs, hrun2, hc2, _, hcalls2, hrem2, hflat2, hlen2, _⟩ :=
    removeTracksFromPlaylistLoop_ok cl playlistID
      (getTrackIDsToRemove playlistID (des.filter ex) w1).1 hrem
      ((getTrackIDsToRemove playlistID (des.filter ex) w1).1.length + 1) 0
      (getTrackIDsToRemove playlistID (des.filter ex) w1).2 (by omega)
  rw [List.drop_zero] at hflat2
  have hfa := getTrackIDsToAddLoop_frame playlistID (des.filter ex) [] w2
  have ha1 := getTrackIDsToAdd_fst playlistID (des.filter ex) w2
  obtain ⟨w3, as, hrun3, hc3, _, hcalls3, hrem3, hflat3, hlen3, _⟩ :=
    addTracksToPlaylistLoop_ok cl playlistID
      (getTrackIDsToAdd playlistID (des.filter ex) w2).1 hadd
      ((getTrackIDsToAdd playlistID (des.filter ex) w2).1.length + 1) 0
      (getTrackIDsToAdd playlistID (des.filter ex) w2).2 (by omega)
  rw [List.drop_zero] at hflat3
  have hw2c : w2.c = w.c := by
    rw [hc2]; unfold getTrackIDsToRemove; rw [hfr.1, hc1]
  refine ⟨w3, gs, rs, as, ?_, ?_, ?_, hflat1, hlen2, hlen3, ?_, ?_, ?_⟩
  · unfold updatePlaylist cleanTrackIDs
    rw [hrun1]
    simp only []
    unfold removeTracksFromPlaylist
    rw [hrun2]
    simp only []
    unfold addTracksToPlaylist
    rw [hrun3]
  · rw [hc3]; unfold getTrackIDsToAdd; rw [hfa.1, hw2c]
  · rw [hcalls3]
    unfold getTrackIDsToAdd World.calls
    rw [hfa.2.2]
    have h2 := hcalls2
    unfold getTrackIDsToRemove World.calls at h2
    rw [hfr.2.2] at h2
    unfold World.calls at hcalls1
    rw [h2, hcalls1]
  · rw [hflat2, hr1, hc1]
  · rw [hflat3, ha1, hw2c]
  · rw [hrem3]
    unfold getTrackIDsToAdd
    rw [hfa.2.1, hrem2]
    unfold getTrackIDsToRemove
    rw [hfr.2.1, hrem1]

/-! ## What each step adds to the call log, whatever the client answers -/

theorem addTracksToPlaylistLoop_trace {σ : Type} (cl : SpotifyClient σ) (playlistID : SpotifyID)
    (trackIDs : List SpotifyID) :
    ∀ (fuel i : Nat) (w : World σ),
      (addTracksToPlaylistLoop cl playlistID trackIDs fuel i w).2.c = w.c ∧
      ∃ new, (addTracksToPlaylistLoop cl playlistID trackIDs fuel i w).2.events
          = w.events ++ new ∧
        ∀ e ∈ new, ∃ ch, e.call = .AddTracksToPlaylist playlistID ch := by
  intro fuel
  induction fuel with
  | zero => intro i w; exact ⟨rfl, [], by simp [addTracksToPlaylistLoop], by simp⟩
  | succ fuel ih =>
    intro i w
    by_cases hi : i < trackIDs.length
    · simp only [addTracksToPlaylistLoop, hi, if_true]
      generalize slice trackIDs i (if i + maxPlaylistTracks > trackIDs.length
        then trackIDs.length else i + maxPlaylistTracks) = chunk
      cases h : (cl.AddTracksToPlaylist w.remote playlistID chunk).1 with
      | error e =>
        exact ⟨rfl, [⟨.AddTracksToPlaylist playlistID chunk, .failed e⟩], rfl, by simp⟩
      | ok snap =>
        obtain ⟨hc, new, hev, hnew⟩ := ih (i + maxPlaylistTracks)
          (w.record (.AddTracksToPlaylist playlistID chunk) (.snapshot snap)
            (cl.AddTracksToPlaylist w.remote playlistID chunk).2)
        refine ⟨hc, ⟨.AddTracksToPlaylist playlistID chunk, .snapshot snap⟩ :: new, ?_, ?_⟩
        · simp only []
          rw [hev]; simp [World.record]
        · intro e he
          rcases List.mem_cons.1 he with h1 | h1
          · exact ⟨chunk, by rw [h1]⟩
          · exact hnew e h1
    · simp only [addTracksToPlaylistLoop, hi, if_false]
      exact ⟨by trivial, [], by simp, by simp⟩

theorem removeTracksFromPlaylistLoop_trace {σ : Type} (cl : SpotifyClient σ) (playlistID : SpotifyID)
    (trackIDs : List SpotifyID) :
    ∀ (fuel i : Nat) (w : World σ),
      (removeTracksFromPlaylistLoop cl playlistID trackIDs fuel i w).2.c = w.c ∧
      ∃ new, (removeTracksFromPlaylistLoop cl playlistID trackIDs fuel i w).2.events
          = w.events ++ new ∧
        ∀ e ∈ new, ∃ ch, e.call = .RemoveTracksFromPlaylist playlistID ch := by
  intro fuel
  induction fuel with
  | zero => intro i w; exact ⟨rfl, [], by simp [removeTracksFromPlaylistLoop], by simp⟩
  | succ fuel ih =>
    intro i w
    by_cases hi : i < trackIDs.length
    · simp only [removeTracksFromPlaylistLoop, hi, if_true]
      generalize slice trackIDs i (if i + maxPlaylistTracks > trackIDs.length
        then trackIDs.length else i + maxPlaylistTracks) = chunk
      cases h : (cl.RemoveTracksFromPlaylist w.remote playlistID chunk).1 with
      | error e =>
        exact ⟨rfl, [⟨.RemoveTracksFromPlaylist playlistID chunk, .failed e⟩], rfl, by simp⟩
      | ok snap =>
        obtain ⟨hc, new, hev, hnew⟩ := ih (i + maxPlaylistTracks)
          (w.record (.RemoveTracksFromPlaylist playlistID chunk) (.snapshot snap)
            (cl.RemoveTracksFromPlaylist w.remote playlistID chunk).2)
        refine ⟨hc, ⟨.RemoveTracksFromPlaylist playlistID chunk, .snapshot snap⟩ :: new, ?_, ?_⟩
        · simp only []
          rw [hev]; simp [World.record]
        · intro e he
          rcases List.mem_cons.1 he with h1 | h1
          · exact ⟨chunk, by rw [h1]⟩
          · exact hnew e h1
    · simp only [removeTracksFromPlaylistLoop, hi, if_false]
      exact ⟨by trivial, [], by simp, by simp⟩

theorem cleanTrackIDsRange_trace {σ : Type} (input : List String) :
    ∀ (tracks : List (Option SpotifyID)) (k : Nat) (acc : List SpotifyID) (w : World σ),
      (cleanTrackIDsRange input tracks k acc w).2.c = w.c ∧
      (cleanTrackIDsRange input tracks k acc w).2.events = w.events ∧
      (cleanTrackIDsRange input tracks k acc w).2.remote = w.remote := by
  intro tracks
  induction tracks with
  | nil => intro k acc w; simp [cleanTrackIDsRange]
  | cons t ts ih =>
    intro k acc w
    cases t with
    | some id => simpa [cleanTrackIDsRange] using ih (k + 1) (acc ++ [id]) w
    | none =>
      cases h : input[k]? with
      | none => simp [cleanTrackIDsRange, h]
      | some s =>
        simpa [cleanTrackIDsRange, h, World.print] using ih (k + 1) acc (w.print (doesNotExist s))

theorem cleanTrackIDsLoop_trace {σ : Type} (cl : SpotifyClient σ) (input check : List String) :
    ∀ (fuel i : Nat) (acc : List SpotifyID) (w : World σ),
      (cleanTrackIDsLoop cl input check fuel i acc w).2.c = w.c ∧
      ∃ new, (cleanTrackIDsLoop cl input check fuel i acc w).2.events = w.events ++ new ∧
        ∀ e ∈ new, ∃ ch, e.call = .GetTracks ch := by
  intro fuel
  induction fuel with
  | zero => intro i acc w; exact ⟨rfl, [], by simp [cleanTrackIDsLoop], by simp⟩
  | succ fuel ih =>
    intro i acc w
    by_cases hi : i < check.length
    · simp only [cleanTrackIDsLoop, hi, if_true]
      generalize slice check i (if i + maxTracks > check.length then check.length
        else i + maxTracks) = chunk
      cases h : (cl.GetTracks w.remote chunk).1 with
      | error e =>
        exact ⟨rfl, [⟨.GetTracks chunk, .failed e⟩], rfl, by simp⟩
      | ok tracks =>
        have hr := cleanTrackIDsRange_trace input tracks 0 acc
          (w.record (.GetTracks chunk) (.tracks tracks) (cl.GetTracks w.remote chunk).2)
        simp only []
        generalize cleanTrackIDsRange input tracks 0 acc
          (w.record (.GetTracks chunk) (.tracks tracks) (cl.GetTracks w.remote chunk).2)
          = res at hr
        obtain ⟨o, w1⟩ := res
        cases o with
        | halt x =>
          exact ⟨hr.1, [⟨.GetTracks chunk, .tracks tracks⟩], hr.2.1, by simp⟩
        | ok acc1 =>
          obtain ⟨hc, new, hev, hnew⟩ := ih (i + maxTracks) acc1 w1
          refine ⟨hc.trans hr.1, ⟨.GetTracks chunk, .tracks tracks⟩ :: new, ?_, ?_⟩
          · simp only []
            rw [hev, hr.2.1]; simp [World.record]
          · intro e he
            rcases List.mem_cons.1 he with h1 | h1
            · exact ⟨chunk, by rw [h1]⟩
            · exact hnew e h1
    · simp only [cleanTrackIDsLoop, hi, if_false]
      exact ⟨by trivial, [], by simp, by simp⟩


/-! ## The population loops, whatever the client answers -/

theorem mem_mapSet {κ ν : Type} [DecidableEq κ] (m : List (κ × ν)) (k : κ) (v : ν)
    (kv : κ × ν) (h : kv ∈ mapSet m k v) : kv = (k, v) ∨ kv ∈ m := by
  induction m with
  | nil => simpa [mapSet] using h
  | cons x m ih =>
    obtain ⟨k', v'⟩ := x
    by_cases hk : k' = k
    · simp only [mapSet, hk, if_true, List.mem_cons] at h
      rcases h with h | h
      · exact Or.inl h
      · exact Or.inr (List.mem_cons_of_mem _ h)
    · simp only [mapSet, hk, if_false, List.mem_cons] at h
      rcases h with h | h
      · exact Or.inr (by rw [h]; exact List.mem_cons_self _ _)
      · rcases ih h with h | h
        · exact Or.inl h
        · exact Or.inr (List.mem_cons_of_mem _ h)

theorem mem_appendTracks (m : List (SpotifyID × List SpotifyID)) (id : SpotifyID)
    (ts : List SpotifyID) (kv : SpotifyID × List SpotifyID) (h : kv ∈ appendTracks m id ts) :
    kv.1 = id ∨ kv ∈ m := by
  induction ts generalizing m with
  | nil => exact Or.inr h
  | cons t ts ih =>
    rcases ih _ h with h1 | h1
    · exact Or.inl h1
    · rcases mem_mapSet _ _ _ _ h1 with h2 | h2
      · exact Or.inl (by rw [h2])
      · exact Or.inr h2

theorem listed_append (a b : List Event) : listed (a ++ b) = listed a ++ listed b := by
  simp [listed, List.flatMap_append]

theorem populateTracksLoop_trace {σ : Type} (cl : SpotifyClient σ) (playlistID : SpotifyID) :
    ∀ (fuel : Nat) (offset : Int) (w : World σ),
      (populateTracksLoop cl playlistID fuel offset w).2.c.playlists = w.c.playlists ∧
      (populateTracksLoop cl playlistID fuel offset w).2.c.currentUserID = w.c.currentUserID ∧
      (∀ kv ∈ (populateTracksLoop cl playlistID fuel offset w).2.c.playlistTracks,
        kv.1 = playlistID ∨ kv ∈ w.c.playlistTracks) ∧
      ∃ new, (populateTracksLoop cl playlistID fuel offset w).2.events = w.events ++ new ∧
        listed new = [] ∧
        ∀ e ∈ new, ∃ l o f, e.call = .GetPlaylistTracksOpt playlistID l o f := by
  intro fuel
  induction fuel with
  | zero =>
    intro offset w
    exact ⟨rfl, rfl, fun kv h => Or.inr h, [], by simp [populateTracksLoop], rfl, by simp⟩
  | succ fuel ih =>
    intro offset w
    simp only [populateTracksLoop]
    cases h : (cl.GetPlaylistTracksOpt w.remote playlistID maxPlaylistTracks offset "").1 with
    | error e =>
      exact ⟨rfl, rfl, fun kv h => Or.inr h,
        [⟨.GetPlaylistTracksOpt playlistID maxPlaylistTracks offset "", .failed e⟩], rfl, rfl,
        by simp⟩
    | ok page =>
      simp only []
      split
      · refine ⟨rfl, rfl, ?_,
          [⟨.GetPlaylistTracksOpt playlistID maxPlaylistTracks offset "", .playlistTracks page⟩],
          rfl, rfl, by simp⟩
        intro kv hkv
        exact mem_appendTracks _ _ _ _ hkv
      · obtain ⟨h1, h2, h3, new, h4, h5, h6⟩ := ih (wrapInt (offset + maxPlaylistTracks))
          { c := { currentUserID := w.c.currentUserID,
                   playlistTracks := appendTracks w.c.playlistTracks playlistID page.Tracks,
                   playlists := w.c.playlists },
            remote := (cl.GetPlaylistTracksOpt w.remote playlistID maxPlaylistTracks offset "").2,
            events := w.events ++
              [⟨.GetPlaylistTracksOpt playlistID maxPlaylistTracks offset "",
                .playlistTracks page⟩],
            stdout := w.stdout }
        refine ⟨h1, h2, ?_,
          ⟨.GetPlaylistTracksOpt playlistID maxPlaylistTracks offset "", .playlistTracks page⟩
            :: new, ?_, ?_, ?_⟩
        · intro kv hkv
          rcases h3 kv hkv with h | h
          · exact Or.inl h
          · exact mem_appendTracks _ _ _ _ h
        · simp only [World.record] at h4 ⊢
          rw [h4]; simp
        · have : listed (⟨.GetPlaylistTracksOpt playlistID maxPlaylistTracks offset "",
              .playlistTracks page⟩ :: new) = listed new := by
            simp [listed]
          rw [this, h5]
        · intro e he
          rcases List.mem_cons.1 he with h | h
          · exact ⟨_, _, _, by rw [h]⟩
          · exact h6 e h

theorem populateRange_trace {σ : Type} (cl : SpotifyClient σ) (fuel : Nat) :
    ∀ (ps : List SimplePlaylist) (w : World σ),
      (populateRange cl fuel ps w).2.c.currentUserID = w.c.currentUserID ∧
      ((populateRange cl fuel ps w).1 = .ok () →
        (populateRange cl fuel ps w).2.c.playlists = cacheOf w.c.playlists ps) ∧
      (∀ kv ∈ (populateRange cl fuel ps w).2.c.playlists,
        kv ∈ w.c.playlists ∨ ∃ p ∈ ps, managed p = true ∧ kv = (p.Name, p.ID)) ∧
      (∀ kv ∈ (populateRange cl fuel ps w).2.c.playlistTracks,
        kv ∈ w.c.playlistTracks ∨ ∃ p ∈ ps, managed p = true ∧ kv.1 = p.ID) ∧
      ∃ new, (populateRange cl fuel ps w).2.events = w.events ++ new ∧
        listed new = [] ∧
        ∀ e ∈ new, ∃ p ∈ ps, managed p = true ∧
          ∃ l o f, e.call = .GetPlaylistTracksOpt p.ID l o f := by
  intro ps
  induction ps with
  | nil =>
    intro w
    exact ⟨rfl, fun _ => rfl, fun kv h => Or.inl h, fun kv h => Or.inl h, [],
      by simp [populateRange], rfl, by simp⟩
  | cons p ps ih =>
    intro w
    by_cases hp : managed p = true
    · have ht := populateTracksLoop_trace cl p.ID fuel 0
        { w with c := { w.c with playlists := mapSet w.c.playlists p.Name p.ID } }
      simp only [populateRange, hp, Bool.not_true, Bool.false_eq_true, if_false]
      generalize populateTracksLoop cl p.ID fuel 0
        { w with c := { w.c with playlists := mapSet w.c.playlists p.Name p.ID } } = res at ht
      obtain ⟨o, w2⟩ := res
      obtain ⟨t1, t2, t3, tnew, t4, t5, t6⟩ := ht
      simp only [] at t1 t2 t3 t4
      cases o with
      | halt x =>
        simp only []
        refine ⟨t2, fun h => Outcome.noConfusion h, ?_, ?_, tnew, t4, t5, ?_⟩
        · intro kv hkv
          rw [t1] at hkv
          rcases mem_mapSet _ _ _ _ hkv with h | h
          · exact Or.inr ⟨p, List.mem_cons_self _ _, hp, h⟩
          · exact Or.inl h
        · intro kv hkv
          rcases t3 kv hkv with h | h
          · exact Or.inr ⟨p, List.mem_cons_self _ _, hp, h⟩
          · exact Or.inl h
        · intro e he
          exact ⟨p, List.mem_cons_self _ _, hp, t6 e he⟩
      | ok u =>
        cases u
        obtain ⟨r1, r2, r3, r4, rnew, r5, r6, r7⟩ := ih w2
        simp only []
        refine ⟨r1.trans t2, ?_, ?_, ?_, tnew ++ rnew, ?_, ?_, ?_⟩
        · intro hok
          rw [r2 hok, t1]
          simp [cacheOf, hp]
        · intro kv hkv
          rcases r3 kv hkv with h | ⟨q, hq, hm, h⟩
          · rw [t1] at h
            rcases mem_mapSet _ _ _ _ h with h | h
            · exact Or.inr ⟨p, List.mem_cons_self _ _, hp, h⟩
            · exact Or.inl h
          · exact Or.inr ⟨q, List.mem_cons_of_mem _ hq, hm, h⟩
        · intro kv hkv
          rcases r4 kv hkv with h | ⟨q, hq, hm, h⟩
          · rcases t3 kv h with h | h
            · exact Or.inr ⟨p, List.mem_cons_self _ _, hp, h⟩
            · exact Or.inl h
          · exact Or.inr ⟨q, List.mem_cons_of_mem _ hq, hm, h⟩
        · rw [r5, t4, List.append_assoc]
        · rw [listed_append, t5, r6]; rfl
        · intro e he
          rcases List.mem_append.1 he with h | h
          · exact ⟨p, List.mem_cons_self _ _, hp, t6 e h⟩
          · obtain ⟨q, hq, hm, h⟩ := r7 e h
            exact ⟨q, List.mem_cons_of_mem _ hq, hm, h⟩
    · have hp2 : managed p = false := by simpa using hp
      obtain ⟨r1, r2, r3, r4, rnew, r5, r6, r7⟩ := ih w
      simp only [populateRange, hp2, Bool.not_false, if_true]
      refine ⟨r1, ?_, ?_, ?_, rnew, r5, r6, ?_⟩
      · intro hok
        rw [r2 hok]
        simp [cacheOf, hp2]
      · intro kv hkv
        rcases r3 kv hkv with h | ⟨q, hq, hm, h⟩
        · exact Or.inl h
        · exact Or.inr ⟨q, List.mem_cons_of_mem _ hq, hm, h⟩
      · intro kv hkv
        rcases r4 kv hkv with h | ⟨q, hq, hm, h⟩
        · exact Or.inl h
        · exact Or.inr ⟨q, List.mem_cons_of_mem _ hq, hm, h⟩
      · intro e he
        obtain ⟨q, hq, hm, h⟩ := r7 e he
        exact ⟨q, List.mem_cons_of_mem _ hq, hm, h⟩

theorem cacheOf_append (m : List (String × SpotifyID)) (a b : List SimplePlaylist) :
    cacheOf m (a ++ b) = cacheOf (cacheOf m a) b := by
  simp [cacheOf, List.foldl_append]

theorem listed_cons_playlists (call : Call) (page : SimplePlaylistPage) (rest : List Event) :
    listed (⟨call, .playlists page⟩ :: rest) = page.Playlists ++ listed rest := by
  simp [listed]

theorem populatePagesLoop_trace {σ : Type} (cl : SpotifyClient σ) (fuel : Nat) :
    ∀ (n : Nat) (offset : Int) (w : World σ),
      (populatePagesLoop cl fuel n offset w).2.c.currentUserID = w.c.currentUserID ∧
      ∃ new, (populatePagesLoop cl fuel n offset w).2.events = w.events ++ new ∧
        ((populatePagesLoop cl fuel n offset w).1 = .ok () →
          (populatePagesLoop cl fuel n offset w).2.c.playlists
            = cacheOf w.c.playlists (listed new)) ∧
        (∀ kv ∈ (populatePagesLoop cl fuel n offset w).2.c.playlists,
          kv ∈ w.c.playlists ∨ ∃ p ∈ listed new, managed p = true ∧ kv = (p.Name, p.ID)) ∧
        (∀ kv ∈ (populatePagesLoop cl fuel n offset w).2.c.playlistTracks,
          kv ∈ w.c.playlistTracks ∨ ∃ p ∈ listed new, managed p = true ∧ kv.1 = p.ID) ∧
        (∀ e ∈ new, (∃ u l o, e.call = .GetPlaylistsForUserOpt u l o) ∨
          ∃ p ∈ listed new, managed p = true ∧
            ∃ l o f, e.call = .GetPlaylistTracksOpt p.ID l o f) := by
  intro n
  induction n with
  | zero =>
    intro offset w
    exact ⟨rfl, [], by simp [populatePagesLoop], fun h => Outcome.noConfusion h,
      fun kv h => Or.inl h, fun kv h => Or.inl h, by simp⟩
  | succ n ih =>
    intro offset w
    simp only [populatePagesLoop]
    cases h : (cl.GetPlaylistsForUserOpt w.remote w.c.currentUserID maxPlaylists offset).1 with
    | error e =>
      exact ⟨rfl, [⟨.GetPlaylistsForUserOpt w.c.currentUserID maxPlaylists offset, .failed e⟩],
        rfl, fun h => Outcome.noConfusion h, fun kv h => Or.inl h, fun kv h => Or.inl h,
        by simp⟩
    | ok page =>
      have hr := populateRange_trace cl fuel page.Playlists
        (w.record (.GetPlaylistsForUserOpt w.c.currentUserID maxPlaylists offset)
          (.playlists page)
          (cl.GetPlaylistsForUserOpt w.remote w.c.currentUserID maxPlaylists offset).2)
      simp only []
      generalize populateRange cl fuel page.Playlists
        (w.record (.GetPlaylistsForUserOpt w.c.currentUserID maxPlaylists offset)
          (.playlists page)
          (cl.GetPlaylistsForUserOpt w.remote w.c.currentUserID maxPlaylists offset).2)
        = res at hr
      obtain ⟨o, w1⟩ := res
      obtain ⟨r1, r2, r3, r4, rnew, r5, r6, r7⟩ := hr
      simp only [World.record] at r1 r2 r3 r4 r5
      have hl : listed (⟨.GetPlaylistsForUserOpt w.c.currentUserID maxPlaylists offset,
          .playlists page⟩ :: rnew) = page.Playlists := by
        rw [listed_cons_playlists, r6, List.append_nil]
      have hev : w1.events = w.events ++
          ⟨.GetPlaylistsForUserOpt w.c.currentUserID maxPlaylists offset, .playlists page⟩
            :: rnew := by
        rw [r5]; simp
      have hcalls : ∀ e ∈ (⟨.GetPlaylistsForUserOpt w.c.currentUserID maxPlaylists offset,
          .playlists page⟩ :: rnew : List Event),
          (∃ u l o, e.call = .GetPlaylistsForUserOpt u l o) ∨
          ∃ p ∈ page.Playlists, managed p = true ∧
            ∃ l o f, e.call = .GetPlaylistTracksOpt p.ID l o f := by
        intro e he
        rcases List.mem_cons.1 he with h1 | h1
        · exact Or.inl ⟨_, _, _, by rw [h1]⟩
        · exact Or.inr (r7 e h1)
      cases o with
      | halt x =>
        simp only []
        refine ⟨r1, _, hev, fun h => Outcome.noConfusion h, ?_, ?_, ?_⟩
        · rw [hl]; exact r3
        · rw [hl]; exact r4
        · rw [hl]; exact hcalls
      | ok u =>
        cases u
        simp only []
        split
        · refine ⟨r1, _, hev, ?_, ?_, ?_, ?_⟩
          · intro _
            rw [hl]; exact r2 rfl
          · rw [hl]; exact r3
          · rw [hl]; exact r4
          · rw [hl]; exact hcalls
        · obtain ⟨i1, inew, i2, i3, i4, i5, i6⟩ := ih (wrapInt (offset + maxPlaylists)) w1
          have hl2 : listed ((⟨.GetPlaylistsForUserOpt w.c.currentUserID maxPlaylists offset,
              .playlists page⟩ :: rnew) ++ inew) = page.Playlists ++ listed inew := by
            rw [listed_append, hl]
          refine ⟨i1.trans r1,
            (⟨.GetPlaylistsForUserOpt w.c.currentUserID maxPlaylists offset,
              .playlists page⟩ :: rnew) ++ inew, ?_, ?_, ?_, ?_, ?_⟩
          · rw [i2, hev, List.append_assoc]
          · intro hok
            rw [hl2, cacheOf_append, i3 hok, r2 rfl]
          · rw [hl2]
            intro kv hkv
            rcases i4 kv hkv with h1 | ⟨q, hq, hm, h1⟩
            · rcases r3 kv h1 with h2 | ⟨q, hq, hm, h2⟩
              · exact Or.inl h2
              · exact Or.inr ⟨q, List.mem_append_left _ hq, hm, h2⟩
            · exact Or.inr ⟨q, List.mem_append_right _ hq, hm, h1⟩
          · rw [hl2]
            intro kv hkv
            rcases i5 kv hkv with h1 | ⟨q, hq, hm, h1⟩
            · rcases r4 kv h1 with h2 | ⟨q, hq, hm, h2⟩
              · exact Or.inl h2
              · exact Or.inr ⟨q, List.mem_append_left _ hq, hm, h2⟩
            · exact Or.inr ⟨q, List.mem_append_right _ hq, hm, h1⟩
          · rw [hl2]
            intro e he
            rcases List.mem_append.1 he with h1 | h1
            · rcases hcalls e h1 with h2 | ⟨q, hq, hm, h2⟩
              · exact Or.inl h2
              · exact Or.inr ⟨q, List.mem_append_left _ hq, hm, h2⟩
            · rcases i6 e h1 with h2 | ⟨q, hq, hm, h2⟩
              · exact Or.inl h2
              · exact Or.inr ⟨q, List.mem_append_right _ hq, hm, h2⟩


/-! ## C8: playlists that share a name -/

theorem lastManaged_cons (p : SimplePlaylist) (ps : List SimplePlaylist) (name : String) :
    lastManaged (p :: ps) name
      = match lastManaged ps name with
        | some id => some id
        | none => if managed p = true ∧ p.Name = name then some p.ID else none := by
  unfold lastManaged
  by_cases hp : managed p = true ∧ p.Name = name
  · have hc : List.filter (fun p => managed p && decide (p.Name = name)) (p :: ps)
        = p :: List.filter (fun p => managed p && decide (p.Name = name)) ps := by
      simp [List.filter_cons, hp.1, hp.2]
    rw [hc]
    cases hf : ps.filter (fun p => managed p && decide (p.Name = name)) with
    | nil => simp [hp]
    | cons q qs =>
      simp only [List.getLast?_cons_cons]
      obtain ⟨x, hx⟩ : ∃ x, (q :: qs).getLast? = some x :=
        ⟨_, List.getLast?_eq_getLast _ (List.cons_ne_nil _ _)⟩
      rw [hx]; rfl
  · have hc : List.filter (fun p => managed p && decide (p.Name = name)) (p :: ps)
        = List.filter (fun p => managed p && decide (p.Name = name)) ps := by
      rw [List.filter_cons]
      have : ¬ (managed p && decide (p.Name = name)) = true := by simpa using hp
      simp [this]
    rw [hc]
    cases hf : (ps.filter (fun p => managed p && decide (p.Name = name))).getLast? with
    | none => simp [hp]
    | some q => simp

theorem mapGet_cacheOf (ps : List SimplePlaylist) (m : List (String × SpotifyID))
    (name : String) :
    mapGet (cacheOf m ps) name
      = match lastManaged ps name with
        | some id => some id
        | none => mapGet m name := by
  induction ps generalizing m with
  | nil => simp [cacheOf, lastManaged]
  | cons p ps ih =>
    have hstep : cacheOf m (p :: ps)
        = cacheOf (if managed p then mapSet m p.Name p.ID else m) ps := by
      simp [cacheOf]
    rw [hstep, ih, lastManaged_cons]
    cases hl : lastManaged ps name with
    | some id => rfl
    | none =>
      simp only []
      by_cases hm : managed p = true
      · by_cases hn : p.Name = name
        · simp [hm, hn, mapGet_mapSet_same]
        · simp [hm, hn, mapGet_mapSet_other _ _ _ _ hn]
      · simp [hm]

/-- C8 fails as stated: the client lists two managed playlists called st-foo,
first id1, then id2. After populatePlaylists the cache maps st-foo to id2, the
last of the two, and findOrCreatePlaylist returns id2, while the first playlist
of that name in discovery order is id1. -/
theorem C8_first_match_does_not_win :
    (populatePlaylists
      (memoryClient [{ ID := "id1", Name := "st-foo" }, { ID := "id2", Name := "st-foo" }]) 1
      (NewSpotifyWithClient "koenrh" [])).1 = .ok () ∧
    firstManaged (listed (populatePlaylists
      (memoryClient [{ ID := "id1", Name := "st-foo" }, { ID := "id2", Name := "st-foo" }]) 1
      (NewSpotifyWithClient "koenrh" [])).2.events) "st-foo" = some "id1" ∧
    mapGet (populatePlaylists
      (memoryClient [{ ID := "id1", Name := "st-foo" }, { ID := "id2", Name := "st-foo" }]) 1
      (NewSpotifyWithClient "koenrh" [])).2.c.playlists "st-foo" = some "id2" ∧
    (findOrCreatePlaylist
      (memoryClient [{ ID := "id1", Name := "st-foo" }, { ID := "id2", Name := "st-foo" }]) 1
      "st-foo" (NewSpotifyWithClient "koenrh" [])).1 = .ok "id2" := by
  decide

/-! ## One synchronisation, whatever the client answers -/

theorem updatePlaylist_trace {σ : Type} (cl : SpotifyClient σ) (playlistID : SpotifyID)
    (des : List String) (w : World σ) :
    (updatePlaylist cl playlistID des w).2.c = w.c ∧
    ∃ new, (updatePlaylist cl playlistID des w).2.events = w.events ++ new ∧
      ∀ e ∈ new, (∃ ch, e.call = .GetTracks ch) ∨
        (∃ ch, e.call = .RemoveTracksFromPlaylist playlistID ch) ∨
        (∃ ch, e.call = .AddTracksToPlaylist playlistID ch) := by
  have h1 := cleanTrackIDsLoop_trace cl des des (des.length + 1) 0 [] w
  unfold updatePlaylist cleanTrackIDs
  generalize cleanTrackIDsLoop cl des des (des.length + 1) 0 [] w = res1 at h1
  obtain ⟨o1, w1⟩ := res1
  obtain ⟨c1, new1, e1, k1⟩ := h1
  simp only [] at c1 e1
  cases o1 with
  | halt x =>
    exact ⟨c1, new1, e1, fun e he => Or.inl (k1 e he)⟩
  | ok trackIDs =>
    simp only []
    have f2 := getTrackIDsToRemoveLoop_frame playlistID trackIDs
      (mapGetD w1.c.playlistTracks playlistID []) [] w1
    have h2 := removeTracksFromPlaylistLoop_trace cl playlistID
      (getTrackIDsToRemove playlistID trackIDs w1).1
      ((getTrackIDsToRemove playlistID trackIDs w1).1.length + 1) 0
      (getTrackIDsToRemove playlistID trackIDs w1).2
    unfold removeTracksFromPlaylist
    generalize removeTracksFromPlaylistLoop cl playlistID
      (getTrackIDsToRemove playlistID trackIDs w1).1
      ((getTrackIDsToRemove playlistID trackIDs w1).1.length + 1) 0
      (getTrackIDsToRemove playlistID trackIDs w1).2 = res2 at h2
    obtain ⟨o2, w2⟩ := res2
    obtain ⟨c2, new2, e2, k2⟩ := h2
    simp only [] at c2 e2
    unfold getTrackIDsToRemove at c2 e2
    rw [f2.1] at c2
    rw [f2.2.2] at e2
    have hev2 : w2.events = w.events ++ (new1 ++ new2) := by
      rw [e2, e1, List.append_assoc]
    have hk2 : ∀ e ∈ new1 ++ new2, (∃ ch, e.call = .GetTracks ch) ∨
        (∃ ch, e.call = .RemoveTracksFromPlaylist playlistID ch) ∨
        (∃ ch, e.call = .AddTracksToPlaylist playlistID ch) := by
      intro e he
      rcases List.mem_append.1 he with h | h
      · exact Or.inl (k1 e h)
      · exact Or.inr (Or.inl (k2 e h))
    cases o2 with
    | halt x =>
      exact ⟨c2.trans c1, new1 ++ new2, hev2, hk2⟩
    | ok u =>
      cases u
      simp only []
      have f3 := getTrackIDsToAddLoop_frame playlistID trackIDs [] w2
      have h3 := addTracksToPlaylistLoop_trace cl playlistID
        (getTrackIDsToAdd playlistID trackIDs w2).1
        ((getTrackIDsToAdd playlistID trackIDs w2).1.length + 1) 0
        (getTrackIDsToAdd playlistID trackIDs w2).2
      unfold addTracksToPlaylist
      generalize addTracksToPlaylistLoop cl playlistID
        (getTrackIDsToAdd playlistID trackIDs w2).1
        ((getTrackIDsToAdd playlistID trackIDs w2).1.length + 1) 0
        (getTrackIDsToAdd playlistID trackIDs w2).2 = res3 at h3
      obtain ⟨o3, w3⟩ := res3
      obtain ⟨c3, new3, e3, k3⟩ := h3
      simp only [] at c3 e3
      unfold getTrackIDsToAdd at c3 e3
      rw [f3.1] at c3
      rw [f3.2.2] at e3
      have hev3 : w3.events = w.events ++ (new1 ++ new2 ++ new3) := by
        rw [e3, hev2, List.append_assoc]
      have hk3 : ∀ e ∈ new1 ++ new2 ++ new3, (∃ ch, e.call = .GetTracks ch) ∨
          (∃ ch, e.call = .RemoveTracksFromPlaylist playlistID ch) ∨
          (∃ ch, e.call = .AddTracksToPlaylist playlistID ch) := by
        intro e he
        rcases List.mem_append.1 he with h | h
        · exact hk2 e h
        · exact Or.inr (Or.inr (k3 e h))
      cases o3 with
      | halt x => exact ⟨(c3.trans c2).trans c1, _, hev3, hk3⟩
      | ok u => cases u; exact ⟨(c3.trans c2).trans c1, _, hev3, hk3⟩


/-! ## C6: prefix safety -/

theorem managed_eq (p : SimplePlaylist) : managed p = hasPrefix p.Name "st-" := rfl

theorem mapGet_some_mem {κ ν : Type} [DecidableEq κ] (m : List (κ × ν)) (k : κ) (v : ν)
    (h : mapGet m k = some v) : (k, v) ∈ m := by
  induction m with
  | nil => simp [mapGet] at h
  | cons x m ih =>
    obtain ⟨k', v'⟩ := x
    by_cases hk : k' = k
    · simp only [mapGet, hk, if_true, Option.some.injEq] at h
      rw [hk, h]
      exact List.mem_cons_self _ _
    · simp only [mapGet, hk, if_false] at h
      exact List.mem_cons_of_mem _ (ih h)

theorem listedManaged_mono (evs new : List Event) (pid : SpotifyID)
    (h : listedManaged evs pid) : listedManaged (evs ++ new) pid := by
  obtain ⟨p, hp, hm, hid⟩ := h
  exact ⟨p, by rw [listed_append]; exact List.mem_append_left _ hp, hm, hid⟩

theorem listedManaged_new (evs new : List Event) (pid : SpotifyID)
    (h : listedManaged new pid) : listedManaged (evs ++ new) pid := by
  obtain ⟨p, hp, hm, hid⟩ := h
  exact ⟨p, by rw [listed_append]; exact List.mem_append_right _ hp, hm, hid⟩

theorem createdID_mono (evs new : List Event) (pid : SpotifyID)
    (h : createdID evs pid) : createdID (evs ++ new) pid := by
  obtain ⟨e, he, hr⟩ := h
  exact ⟨e, List.mem_append_left _ he, hr⟩

theorem PrefixSafe_extend {σ : Type} (w w' : World σ) (new : List Event)
    (hc : w'.c = w.c) (hev : w'.events = w.events ++ new)
    (hnew : ∀ e ∈ new, (∀ pid l o f, e.call ≠ .GetPlaylistTracksOpt pid l o f) ∧
      ∀ pid ids,
        e.call = .AddTracksToPlaylist pid ids ∨ e.call = .RemoveTracksFromPlaylist pid ids →
        listedManaged w'.events pid ∨ createdID w'.events pid)
    (hw : PrefixSafe w) : PrefixSafe w' := by
  obtain ⟨s1, s2, s3, s4⟩ := hw
  refine ⟨?_, ?_, ?_, ?_⟩
  · intro kv hkv
    rw [hc] at hkv
    refine ⟨(s1 kv hkv).1, ?_⟩
    rw [hev, listed_append]
    exact List.mem_append_left _ (s1 kv hkv).2
  · intro kv hkv
    rw [hc] at hkv
    rw [hev]
    exact listedManaged_mono _ _ _ (s2 kv hkv)
  · intro e he pid l o f hcall
    rw [hev] at he
    rcases List.mem_append.1 he with h | h
    · rw [hev]
      exact listedManaged_mono _ _ _ (s3 e h pid l o f hcall)
    · exact absurd hcall ((hnew e h).1 pid l o f)
  · intro e he pid ids hcall
    rw [hev] at he
    rcases List.mem_append.1 he with h | h
    · rw [hev]
      rcases s4 e h pid ids hcall with h1 | h1
      · exact Or.inl (listedManaged_mono _ _ _ h1)
      · exact Or.inr (createdID_mono _ _ _ h1)
    · exact (hnew e h).2 pid ids hcall

theorem PrefixSafe_populatePlaylists {σ : Type} (cl : SpotifyClient σ) (fuel : Nat)
    (w : World σ) (hw : PrefixSafe w) : PrefixSafe (populatePlaylists cl fuel w).2 := by
  unfold populatePlaylists
  split
  · exact hw
  · obtain ⟨_, new, hev, _, hpl, htr, hcalls⟩ := populatePagesLoop_trace cl fuel fuel 0 w
    obtain ⟨s1, s2, s3, s4⟩ := hw
    refine ⟨?_, ?_, ?_, ?_⟩
    · intro kv hkv
      rw [hev, listed_append]
      rcases hpl kv hkv with h | ⟨p, hp, hm, h⟩
      · exact ⟨(s1 kv h).1, List.mem_append_left _ (s1 kv h).2⟩
      · rw [h]
        exact ⟨by rw [← managed_eq]; exact hm, List.mem_append_right _ hp⟩
    · intro kv hkv
      rw [hev]
      rcases htr kv hkv with h | ⟨p, hp, hm, h⟩
      · exact listedManaged_mono _ _ _ (s2 kv h)
      · exact listedManaged_new _ _ _ ⟨p, hp, hm, h.symm⟩
    · intro e he pid l o f hcall
      rw [hev] at he ⊢
      rcases List.mem_append.1 he with h | h
      · exact listedManaged_mono _ _ _ (s3 e h pid l o f hcall)
      · rcases hcalls e h with ⟨u, l2, o2, h2⟩ | ⟨p, hp, hm, l2, o2, f2, h2⟩
        · rw [h2] at hcall; exact Call.noConfusion hcall
        · rw [h2] at hcall
          injection hcall with hid
          exact listedManaged_new _ _ _ ⟨p, hp, hm, hid⟩
    · intro e he pid ids hcall
      rw [hev] at he ⊢
      rcases List.mem_append.1 he with h | h
      · rcases s4 e h pid ids hcall with h1 | h1
        · exact Or.inl (listedManaged_mono _ _ _ h1)
        · exact Or.inr (createdID_mono _ _ _ h1)
      · rcases hcalls e h with ⟨u, l2, o2, h2⟩ | ⟨p, hp, hm, l2, o2, f2, h2⟩
        · rw [h2] at hcall
          rcases hcall with hcall | hcall <;> exact Call.noConfusion hcall
        · rw [h2] at hcall
          rcases hcall with hcall | hcall <;> exact Call.noConfusion hcall

theorem PrefixSafe_findOrCreatePlaylist {σ : Type} (cl : SpotifyClient σ) (fuel : Nat)
    (name : String) (w : World σ) (hw : PrefixSafe w) :
    PrefixSafe (findOrCreatePlaylist cl fuel name w).2 ∧
    ∀ id, (findOrCreatePlaylist cl fuel name w).1 = .ok id →
      listedManaged (findOrCreatePlaylist cl fuel name w).2.events id ∨
      createdID (findOrCreatePlaylist cl fuel name w).2.events id := by
  have hp := PrefixSafe_populatePlaylists cl fuel w hw
  unfold findOrCreatePlaylist
  generalize populatePlaylists cl fuel w = res at hp
  obtain ⟨o, w1⟩ := res
  simp only [] at hp
  cases o with
  | halt x => exact ⟨hp, fun id h => Outcome.noConfusion h⟩
  | ok u =>
    cases u
    simp only []
    cases hg : mapGet w1.c.playlists name with
    | some pid =>
      simp only []
      refine ⟨hp, ?_⟩
      intro id hid
      injection hid with hid
      have hmem := mapGet_some_mem _ _ _ hg
      obtain ⟨h1, h2⟩ := hp.1 _ hmem
      exact Or.inl ⟨_, h2, by rw [managed_eq]; exact h1, hid⟩
    | none =>
      simp only []
      cases hc : (cl.CreatePlaylistForUser w1.remote w1.c.currentUserID name
          "Managed by Spotitable" false).1 with
      | error e =>
        simp only []
        refine ⟨?_, fun id h => Outcome.noConfusion h⟩
        refine PrefixSafe_extend w1 _ [⟨.CreatePlaylistForUser w1.c.currentUserID name
          "Managed by Spotitable" false, .failed e⟩] rfl rfl ?_ hp
        intro ev hev
        rw [List.mem_singleton] at hev
        rw [hev]
        exact ⟨fun _ _ _ _ h => Call.noConfusion h,
          fun _ _ h => by rcases h with h | h <;> exact Call.noConfusion h⟩
      | ok cid =>
        simp only []
        refine ⟨?_, ?_⟩
        · refine PrefixSafe_extend w1 _ [⟨.CreatePlaylistForUser w1.c.currentUserID name
            "Managed by Spotitable" false, .created cid⟩] rfl rfl ?_ hp
          intro ev hev
          rw [List.mem_singleton] at hev
          rw [hev]
          exact ⟨fun _ _ _ _ h => Call.noConfusion h,
            fun _ _ h => by rcases h with h | h <;> exact Call.noConfusion h⟩
        · intro id hid
          injection hid with hid
          refine Or.inr ⟨⟨.CreatePlaylistForUser w1.c.currentUserID name
            "Managed by Spotitable" false, .created cid⟩, ?_, by rw [hid]⟩
          simp [World.record, World.print]

theorem PrefixSafe_updatePlaylist {σ : Type} (cl : SpotifyClient σ) (playlistID : SpotifyID)
    (des : List String) (w : World σ) (hw : PrefixSafe w)
    (hid : listedManaged w.events playlistID ∨ createdID w.events playlistID) :
    PrefixSafe (updatePlaylist cl playlistID des w).2 := by
  obtain ⟨hc, new, hev, hk⟩ := updatePlaylist_trace cl playlistID des w
  refine PrefixSafe_extend w _ new hc hev ?_ hw
  intro e he
  have htarget : listedManaged (updatePlaylist cl playlistID des w).2.events playlistID ∨
      createdID (updatePlaylist cl playlistID des w).2.events playlistID := by
    rw [hev]
    rcases hid with h | h
    · exact Or.inl (listedManaged_mono _ _ _ h)
    · exact Or.inr (createdID_mono _ _ _ h)
  rcases hk e he with ⟨ch, h⟩ | ⟨ch, h⟩ | ⟨ch, h⟩
  · rw [h]
    exact ⟨fun _ _ _ _ h => Call.noConfusion h,
      fun _ _ h => by rcases h with h | h <;> exact Call.noConfusion h⟩
  · rw [h]
    refine ⟨fun _ _ _ _ h => Call.noConfusion h, ?_⟩
    intro pid ids h2
    rcases h2 with h2 | h2
    · exact Call.noConfusion h2
    · injection h2 with h3
      rw [← h3]; exact htarget
  · rw [h]
    refine ⟨fun _ _ _ _ h => Call.noConfusion h, ?_⟩
    intro pid ids h2
    rcases h2 with h2 | h2
    · injection h2 with h3
      rw [← h3]; exact htarget
    · exact Call.noConfusion h2

theorem PrefixSafe_AddTracksToNamedPlaylist {σ : Type} (cl : SpotifyClient σ) (fuel : Nat)
    (name : String) (des : List String) (w : World σ) (hw : PrefixSafe w) :
    PrefixSafe (AddTracksToNamedPlaylist cl fuel name des w).2 := by
  unfold AddTracksToNamedPlaylist
  split
  · have hf := PrefixSafe_findOrCreatePlaylist cl fuel name w hw
    generalize findOrCreatePlaylist cl fuel name w = res at hf
    obtain ⟨o, w1⟩ := res
    simp only [] at hf
    cases o with
    | halt x => exact hf.1
    | ok pid =>
      have hu := PrefixSafe_updatePlaylist cl pid des w1 hf.1 (hf.2 pid rfl)
      simp only []
      generalize updatePlaylist cl pid des w1 = res2 at hu
      obtain ⟨o2, w2⟩ := res2
      cases o2 with
      | halt x => exact hu
      | ok u => cases u; exact hu
  · exact hw

theorem NeverTouched_of_PrefixSafe {σ : Type} (w : World σ) (hw : PrefixSafe w)
    (q : SimplePlaylist) (hq : managed q = false) :
    (∀ kv ∈ w.c.playlists, kv.1 ≠ q.Name) ∧ (DistinctID w q → NeverTouched w q) := by
  obtain ⟨s1, s2, s3, s4⟩ := hw
  constructor
  · intro kv hkv hname
    have h1 := (s1 kv hkv).1
    rw [hname, ← managed_eq, hq] at h1
    exact Bool.noConfusion h1
  · intro hd
    have hnot : ¬ listedManaged w.events q.ID := by
      rintro ⟨p, hp, hm, hid⟩
      exact hd.1 p hp hm hid
    refine ⟨?_, ?_, ?_⟩
    · intro kv hkv hid
      exact hnot (hid ▸ s2 kv hkv)
    · intro e he l o f hcall
      exact hnot (s3 e he _ l o f hcall)
    · intro e he ids
      constructor
      · intro hcall
        rcases s4 e he q.ID ids (Or.inl hcall) with h | h
        · exact hnot h
        · exact hd.2 _ h rfl
      · intro hcall
        rcases s4 e he q.ID ids (Or.inr hcall) with h | h
        · exact hnot h
        · exact hd.2 _ h rfl

theorem PrefixSafe_new {σ : Type} (u : String) (s : σ) :
    PrefixSafe (NewSpotifyWithClient u s) := by
  simp [PrefixSafe, NewSpotifyWithClient]

/-- C6. The invariant PrefixSafe holds on a new instance and is kept by
populatePlaylists and by AddTracksToNamedPlaylist for every client, every fuel
and every outcome (also an error or a cut-off run). So after populatePlaylists
every name in the playlists cache starts with st- and every key of
playlistTracks is the ID of a listed playlist whose name starts with st-; and
after either call a listed playlist q whose name lacks the prefix has no entry
under its name in the cache and, when its ID is that of no listed managed
playlist and of no created playlist, is no key of playlistTracks, has never
had its tracks requested and has never been the target of an
AddTracksToPlaylist or RemoveTracksFromPlaylist call. -/
theorem C6_prefix_safety {σ : Type} (cl : SpotifyClient σ) (fuel : Nat) (name : String)
    (des : List String) (w : World σ) (hw : PrefixSafe w) :
    (∀ (u : String) (s : σ), PrefixSafe (NewSpotifyWithClient u s)) ∧
    (∀ o w', populatePlaylists cl fuel w = (o, w') →
      PrefixSafe w' ∧
      (∀ kv ∈ w'.c.playlists, hasPrefix kv.1 "st-" = true) ∧
      (∀ kv ∈ w'.c.playlistTracks,
        ∃ p ∈ listed w'.events, hasPrefix p.Name "st-" = true ∧ p.ID = kv.1) ∧
      ∀ q ∈ listed w'.events, hasPrefix q.Name "st-" = false →
        (∀ kv ∈ w'.c.playlists, kv.1 ≠ q.Name) ∧ (DistinctID w' q → NeverTouched w' q)) ∧
    (∀ o w', AddTracksToNamedPlaylist cl fuel name des w = (o, w') →
      PrefixSafe w' ∧
      ∀ q ∈ listed w'.events, hasPrefix q.Name "st-" = false →
        (∀ kv ∈ w'.c.playlists, kv.1 ≠ q.Name) ∧ (DistinctID w' q → NeverTouched w' q)) := by
  refine ⟨fun u s => PrefixSafe_new u s, ?_, ?_⟩
  · intro o w' hrun
    have hs := PrefixSafe_populatePlaylists cl fuel w hw
    rw [hrun] at hs
    simp only [] at hs
    refine ⟨hs, fun kv hkv => (hs.1 kv hkv).1, ?_, ?_⟩
    · intro kv hkv
      obtain ⟨p, hp, hm, hid⟩ := hs.2.1 kv hkv
      exact ⟨p, hp, by rw [← managed_eq]; exact hm, hid⟩
    · intro q _ hq
      exact NeverTouched_of_PrefixSafe w' hs q (by rw [managed_eq]; exact hq)
  · intro o w' hrun
    have hs := PrefixSafe_AddTracksToNamedPlaylist cl fuel name des w hw
    rw [hrun] at hs
    simp only [] at hs
    refine ⟨hs, ?_⟩
    intro q _ hq
    exact NeverTouched_of_PrefixSafe w' hs q (by rw [managed_eq]; exact hq)

/-- Witness of C6: a new instance over a client that lists the unmanaged
playlist my-list before the managed playlist st-foo. -/
theorem C6_prefix_safety_witness :
    (∀ (u : String) (s : List (String × List String)), PrefixSafe (NewSpotifyWithClient u s)) ∧
    (∀ o w', populatePlaylists
        (memoryClient [{ ID := "id0", Name := "my-list" },
          { ID := "spotify:playlist:foo1", Name := "st-foo" }]) 1
        (NewSpotifyWithClient "koenrh" [("id0", ["x"])]) = (o, w') →
      PrefixSafe w' ∧
      (∀ kv ∈ w'.c.playlists, hasPrefix kv.1 "st-" = true) ∧
      (∀ kv ∈ w'.c.playlistTracks,
        ∃ p ∈ listed w'.events, hasPrefix p.Name "st-" = true ∧ p.ID = kv.1) ∧
      ∀ q ∈ listed w'.events, hasPrefix q.Name "st-" = false →
        (∀ kv ∈ w'.c.playlists, kv.1 ≠ q.Name) ∧ (DistinctID w' q → NeverTouched w' q)) ∧
    (∀ o w', AddTracksToNamedPlaylist
        (memoryClient [{ ID := "id0", Name := "my-list" },
          { ID := "spotify:playlist:foo1", Name := "st-foo" }]) 1 "st-foo" ["t"]
        (NewSpotifyWithClient "koenrh" [("id0", ["x"])]) = (o, w') →
      PrefixSafe w' ∧
      ∀ q ∈ listed w'.events, hasPrefix q.Name "st-" = false →
        (∀ kv ∈ w'.c.playlists, kv.1 ≠ q.Name) ∧ (DistinctID w' q → NeverTouched w' q)) :=
  C6_prefix_safety
    (memoryClient [{ ID := "id0", Name := "my-list" },
      { ID := "spotify:playlist:foo1", Name := "st-foo" }]) 1 "st-foo" ["t"]
    (NewSpotifyWithClient "koenrh" [("id0", ["x"])])
    (by simp [PrefixSafe, NewSpotifyWithClient])


/-! ## The in-memory client: population and one synchronisation -/

theorem mapGetD_appendTracks_other (m : List (SpotifyID × List SpotifyID)) (id id2 : SpotifyID)
    (ts : List SpotifyID) (hne : id ≠ id2) :
    mapGetD (appendTracks m id ts) id2 [] = mapGetD m id2 [] := by
  induction ts generalizing m with
  | nil => simp [appendTracks]
  | cons t ts ih =>
    simp only [appendTracks]
    rw [ih]
    simp [mapGetD, mapGet_mapSet_other _ _ _ _ hne]

theorem memoryClient_getTracks (listing : List SimplePlaylist) (s : List (String × List String))
    (ids : List SpotifyID) :
    ((memoryClient listing).GetTracks s ids).1 = .ok (answerTracks (fun _ => true) ids) := by
  simp [memoryClient, answerTracks]

theorem populateTracksLoop_memoryClient (listing : List SimplePlaylist) (pid : SpotifyID)
    (fuel : Nat) (w : World (List (String × List String))) :
    populateTracksLoop (memoryClient listing) pid (fuel + 1) 0 w
      = (.ok (),
          { c := { currentUserID := w.c.currentUserID,
                   playlistTracks := appendTracks w.c.playlistTracks pid (mapGetD w.remote pid []),
                   playlists := w.c.playlists },
            remote := w.remote,
            events := w.events ++
              [⟨.GetPlaylistTracksOpt pid maxPlaylistTracks 0 "",
                .playlistTracks { Tracks := mapGetD w.remote pid [], Next := "", Total := 0 }⟩],
            stdout := w.stdout }) := by
  simp [populateTracksLoop, memoryClient, World.record]

theorem populateRange_memoryClient (listing : List SimplePlaylist) (fuel : Nat) :
    ∀ (ps : List SimplePlaylist) (w : World (List (String × List String))),
      ∃ w', populateRange (memoryClient listing) (fuel + 1) ps w = (.ok (), w') ∧
        w'.remote = w.remote ∧
        w'.c.currentUserID = w.c.currentUserID ∧
        w'.c.playlists = cacheOf w.c.playlists ps ∧
        (∀ pid t, t ∈ mapGetD w'.c.playlistTracks pid [] ↔
          (t ∈ mapGetD w.c.playlistTracks pid [] ∨
            ((∃ p ∈ ps, managed p = true ∧ p.ID = pid) ∧ t ∈ mapGetD w.remote pid []))) ∧
        w'.calls = w.calls ++ (ps.filter managed).map
          (fun p => Call.GetPlaylistTracksOpt p.ID maxPlaylistTracks 0 "") := by
  intro ps
  induction ps with
  | nil =>
    intro w
    exact ⟨w, rfl, rfl, rfl, rfl, by simp, by simp⟩
  | cons p ps ih =>
    intro w
    by_cases hp : managed p = true
    · obtain ⟨w', hrun, h1, h2, h3, h4, h5⟩ := ih
        { c := { currentUserID := w.c.currentUserID,
                 playlistTracks := appendTracks w.c.playlistTracks p.ID (mapGetD w.remote p.ID []),
                 playlists := mapSet w.c.playlists p.Name p.ID },
          remote := w.remote,
          events := w.events ++
            [⟨.GetPlaylistTracksOpt p.ID maxPlaylistTracks 0 "",
              .playlistTracks { Tracks := mapGetD w.remote p.ID [], Next := "", Total := 0 }⟩],
          stdout := w.stdout }
      refine ⟨w', ?_, h1, h2, ?_, ?_, ?_⟩
      · simp only [populateRange, hp, Bool.not_true, Bool.false_eq_true, if_false,
          populateTracksLoop_memoryClient]
        exact hrun
      · rw [h3]; simp [cacheOf, hp]
      · intro pid t
        rw [h4 pid t]
        simp only []
        by_cases hid : p.ID = pid
        · subst hid
          rw [mapGetD_appendTracks, List.mem_append]
          constructor
          · rintro ((h | h) | ⟨_, h⟩)
            · exact Or.inl h
            · exact Or.inr ⟨⟨p, List.mem_cons_self _ _, hp, rfl⟩, h⟩
            · exact Or.inr ⟨⟨p, List.mem_cons_self _ _, hp, rfl⟩, h⟩
          · rintro (h | ⟨_, h⟩)
            · exact Or.inl (Or.inl h)
            · exact Or.inl (Or.inr h)
        · rw [mapGetD_appendTracks_other _ _ _ _ hid]
          constructor
          · rintro (h | ⟨⟨q, hq, hm, hqid⟩, h⟩)
            · exact Or.inl h
            · exact Or.inr ⟨⟨q, List.mem_cons_of_mem _ hq, hm, hqid⟩, h⟩
          · rintro (h | ⟨⟨q, hq, hm, hqid⟩, h⟩)
            · exact Or.inl h
            · rcases List.mem_cons.1 hq with h1 | h1
              · exact absurd (h1 ▸ hqid) hid
              · exact Or.inr ⟨⟨q, h1, hm, hqid⟩, h⟩
      · rw [h5]
        simp [World.calls, List.filter_cons, hp]
    · have hp2 : managed p = false := by simpa using hp
      obtain ⟨w', hrun, h1, h2, h3, h4, h5⟩ := ih w
      refine ⟨w', ?_, h1, h2, ?_, ?_, ?_⟩
      · simp only [populateRange, hp2, Bool.not_false, if_true]
        exact hrun
      · rw [h3]; simp [cacheOf, hp2]
      · intro pid t
        rw [h4 pid t]
        constructor
        · rintro (h | ⟨⟨q, hq, hm, hqid⟩, h⟩)
          · exact Or.inl h
          · exact Or.inr ⟨⟨q, List.mem_cons_of_mem _ hq, hm, hqid⟩, h⟩
        · rintro (h | ⟨⟨q, hq, hm, hqid⟩, h⟩)
          · exact Or.inl h
          · rcases List.mem_cons.1 hq with h1 | h1
            · rw [h1, hp2] at hm; exact Bool.noConfusion hm
            · exact Or.inr ⟨⟨q, h1, hm, hqid⟩, h⟩
      · rw [h5]
        simp [List.filter_cons, hp2]

theorem populatePlaylists_memoryClient (listing : List SimplePlaylist) (fuel : Nat) (u : String)
    (m : List (String × List String)) :
    ∃ w', populatePlaylists (memoryClient listing) (fuel + 1) (NewSpotifyWithClient u m)
        = (.ok (), w') ∧
      w'.remote = m ∧
      w'.c.playlists = cacheOf [] listing ∧
      (∀ pid t, t ∈ mapGetD w'.c.playlistTracks pid [] ↔
        ((∃ p ∈ listing, managed p = true ∧ p.ID = pid) ∧ t ∈ mapGetD m pid [])) ∧
      w'.calls = Call.GetPlaylistsForUserOpt u maxPlaylists 0 ::
        (listing.filter managed).map
          (fun p => Call.GetPlaylistTracksOpt p.ID maxPlaylistTracks 0 "") := by
  obtain ⟨w', hrun, h1, _, h3, h4, h5⟩ := populateRange_memoryClient listing fuel listing
    { c := { currentUserID := u, playlistTracks := [], playlists := [] },
      remote := m,
      events := [⟨.GetPlaylistsForUserOpt u maxPlaylists 0,
        .playlists { Playlists := listing, Next := "", Total := 0 }⟩],
      stdout := [] }
  refine ⟨w', ?_, h1, h3, ?_, ?_⟩
  · simp only [populatePlaylists, NewSpotifyWithClient, List.length_nil, gt_iff_lt,
      Nat.lt_irrefl, and_self, if_false, populatePagesLoop, memoryClient, World.record,
      List.nil_append]
    simp only [memoryClient] at hrun
    rw [hrun]
    simp
  · intro pid t
    rw [h4 pid t]
    simp [mapGetD, mapGet]
  · rw [h5]
    simp [World.calls]

theorem lastManaged_some (ps : List SimplePlaylist) (name : String) (pid : SpotifyID)
    (h : lastManaged ps name = some pid) :
    ∃ p ∈ ps, managed p = true ∧ p.Name = name ∧ p.ID = pid := by
  unfold lastManaged at h
  cases hl : (ps.filter (fun p => managed p && decide (p.Name = name))).getLast? with
  | none => rw [hl] at h; exact Option.noConfusion h
  | some p =>
    rw [hl] at h
    have hmem := List.mem_of_getLast?_eq_some hl
    rw [List.mem_filter] at hmem
    simp only [Bool.and_eq_true, decide_eq_true_eq] at hmem
    exact ⟨p, hmem.1, hmem.2.1, hmem.2.2, Option.some.inj h⟩

theorem findOrCreatePlaylist_memoryClient (listing : List SimplePlaylist) (name : String)
    (pid : SpotifyID) (fuel : Nat) (u : String) (m : List (String × List String))
    (hP : lastManaged listing name = some pid) :
    ∃ w1 : World (List (String × List String)),
      findOrCreatePlaylist (memoryClient listing) (fuel + 1) name (NewSpotifyWithClient u m)
        = (.ok pid, w1) ∧
      (∀ t, t ∈ mapGetD w1.c.playlistTracks pid [] ↔ t ∈ mapGetD m pid []) ∧
      w1.remote = m ∧
      w1.calls = Call.GetPlaylistsForUserOpt u maxPlaylists 0 ::
        (listing.filter managed).map
          (fun p => Call.GetPlaylistTracksOpt p.ID maxPlaylistTracks 0 "") := by
  obtain ⟨w1, hrun, hrem, hpl, htr, hcalls⟩ := populatePlaylists_memoryClient listing fuel u m
  obtain ⟨p, hp, hm, _, hid⟩ := lastManaged_some listing name pid hP
  refine ⟨w1, ?_, ?_, hrem, hcalls⟩
  · unfold findOrCreatePlaylist
    rw [hrun]
    simp only []
    have hget : mapGet w1.c.playlists name = some pid := by
      rw [hpl, mapGet_cacheOf, hP]
    rw [hget]
  · intro t
    rw [htr pid t]
    constructor
    · exact fun h => h.2
    · exact fun h => ⟨⟨p, hp, hm, hid⟩, h⟩

theorem filter_not_mem_filter (cur cache des : List SpotifyID)
    (hsub : ∀ t, t ∈ cur → t ∈ cache) :
    cur.filter (fun t => decide (t ∉ cache.filter (fun t => decide (t ∉ des))))
      = cur.filter (fun t => decide (t ∈ des)) := by
  apply List.filter_congr
  intro t ht
  by_cases h : t ∈ des <;> simp [List.mem_filter, hsub t ht, h]

theorem filter_not_mem_congr (des a b : List SpotifyID) (h : ∀ t, t ∈ a ↔ t ∈ b) :
    des.filter (fun t => decide (t ∉ a)) = des.filter (fun t => decide (t ∉ b)) := by
  apply List.filter_congr
  intro t _
  simp [h t]

theorem filter_not_mem_des_congr (des a b : List SpotifyID) (h : ∀ t, t ∈ a ↔ t ∈ b) :
    ∀ t, t ∈ a.filter (fun t => decide (t ∉ des)) ↔ t ∈ b.filter (fun t => decide (t ∉ des)) := by
  intro t
  simp [List.mem_filter, h t]

theorem flatten_eq_nil_of_nonempty (chunks : List (List SpotifyID))
    (hne : ∀ ch ∈ chunks, 1 ≤ ch.length ∧ ch.length ≤ maxPlaylistTracks)
    (hflat : chunks.flatten = []) : chunks = [] := by
  cases chunks with
  | nil => rfl
  | cons ch chunks =>
    have h1 := (hne ch (by simp)).1
    have h2 : (ch :: chunks).flatten.length = 0 := by rw [hflat]; rfl
    simp only [List.flatten_cons, List.length_append] at h2
    omega

theorem sync_memoryClient (listing : List SimplePlaylist) (name : String) (pid : SpotifyID)
    (fuel : Nat) (u : String) (m : List (String × List String)) (des : List String)
    (hP : lastManaged listing name = some pid) (hdes : des ≠ []) :
    ∃ (w' : World (List (String × List String))) (gs rs as : List (List SpotifyID)),
      AddTracksToNamedPlaylist (memoryClient listing) (fuel + 1) name des
          (NewSpotifyWithClient u m) = (.ok (), w') ∧
      mapGetD w'.remote pid []
        = (mapGetD m pid []).filter (fun t => decide (t ∈ des))
          ++ des.filter (fun t => decide (t ∉ mapGetD m pid [])) ∧
      w'.calls = Call.GetPlaylistsForUserOpt u maxPlaylists 0 ::
          (listing.filter managed).map
            (fun p => Call.GetPlaylistTracksOpt p.ID maxPlaylistTracks 0 "")
        ++ gs.map Call.GetTracks
        ++ rs.map (Call.RemoveTracksFromPlaylist pid)
        ++ as.map (Call.AddTracksToPlaylist pid) ∧
      (∀ t, t ∈ rs.flatten ↔ t ∈ (mapGetD m pid []).filter (fun t => decide (t ∉ des))) ∧
      as.flatten = des.filter (fun t => decide (t ∉ mapGetD m pid [])) ∧
      (∀ ch ∈ rs, 1 ≤ ch.length ∧ ch.length ≤ maxPlaylistTracks) ∧
      (∀ ch ∈ as, 1 ≤ ch.length ∧ ch.length ≤ maxPlaylistTracks) ∧
      w'.remote =
        remoteAfter (fun s ch => ((memoryClient listing).AddTracksToPlaylist s pid ch).2)
          (remoteAfter
            (fun s ch => ((memoryClient listing).RemoveTracksFromPlaylist s pid ch).2)
            m rs) as := by
  obtain ⟨w1, hfind, hcur, hrem1, hcalls1⟩ :=
    findOrCreatePlaylist_memoryClient listing name pid fuel u m hP
  obtain ⟨w', gs, rs, as, hrun, _, hcalls, _, hlr, hla, hrs, has, hrem⟩ :=
    updatePlaylist_ok (memoryClient listing) (fun _ => true) pid des w1
      (memoryClient_getTracks _) (fun _ _ => ⟨"", rfl⟩) (fun _ _ => ⟨"", rfl⟩)
  have hall : des.filter (fun _ => true) = des := by simp
  rw [hall] at hrs has
  have hget : remoteAfter (fun s ch => ((memoryClient listing).GetTracks s ch).2) w1.remote gs
      = m := by
    rw [remoteAfter_getTracks, hrem1]
  rw [hget] at hrem
  have has2 : as.flatten = des.filter (fun t => decide (t ∉ mapGetD m pid [])) := by
    rw [has]
    exact filter_not_mem_congr des _ _ hcur
  refine ⟨w', gs, rs, as, ?_, ?_, ?_, ?_, has2, hlr, hla, hrem⟩
  · have hpos : des.length > 0 := List.length_pos.2 hdes
    unfold AddTracksToNamedPlaylist
    rw [if_pos hpos, hfind]
    simp only []
    rw [hrun]
  · rw [hrem, remoteAfter_add, remoteAfter_remove, hrs, has2,
      filter_not_mem_filter _ _ _ (fun t ht => (hcur t).2 ht)]
  · rw [hcalls, hcalls1]
  · rw [hrs]
    exact filter_not_mem_des_congr des _ _ hcur

/-! ## C2: the result of one synchronisation -/

/-- C2. A Spotify instance with empty caches runs over the in-memory client of
the tests, for any playlists it lists and any tracks it stores; name is the
name of a listed managed playlist and pid the ID the name resolves to (the
client of the tests lists st-foo with ID spotify:playlist:foo1), cur the
tracks the client stores for pid. The client confirms every track. For every
non-empty desired list des and every positive fuel, AddTracksToNamedPlaylist
returns without error, and afterwards the client holds for the playlist the
tracks of cur that occur in des, in the order of cur, followed by the tracks
of des that do not occur in cur, in the order of des; a track is in the
playlist exactly when it is in des. -/
theorem C2_end_to_end_sync (listing : List SimplePlaylist) (name : String) (pid : SpotifyID)
    (fuel : Nat) (u : String) (m : List (String × List String)) (des : List String)
    (hP : lastManaged listing name = some pid) (hdes : des ≠ []) :
    ∃ w' : World (List (String × List String)),
      AddTracksToNamedPlaylist (memoryClient listing) (fuel + 1) name des
          (NewSpotifyWithClient u m) = (.ok (), w') ∧
      mapGetD w'.remote pid []
        = (mapGetD m pid []).filter (fun t => decide (t ∈ des))
          ++ des.filter (fun t => decide (t ∉ mapGetD m pid [])) ∧
      (∀ t, t ∈ mapGetD w'.remote pid [] ↔ t ∈ des) := by
  obtain ⟨w', _, _, _, hrun, hmem, _⟩ := sync_memoryClient listing name pid fuel u m des hP hdes
  refine ⟨w', hrun, hmem, ?_⟩
  intro t
  rw [hmem]
  by_cases h1 : t ∈ des <;> by_cases h2 : t ∈ mapGetD m pid [] <;>
    simp [List.mem_append, List.mem_filter, h1, h2]

/-- Witness of C2: the two tests of spotify_test.go. The playlist with rofl,
foo2 synchronised to foo1, foo2 holds foo2, foo1; the empty playlist
synchronised to baz1, baz2 holds baz1, baz2. -/
theorem C2_end_to_end_sync_witness :
    (∃ w' : World (List (String × List String)),
      AddTracksToNamedPlaylist TestSpotify 1 "st-foo"
          ["spotify:track:foo1", "spotify:track:foo2"]
          (NewSpotifyWithClient "koenrh"
            [("spotify:playlist:foo1", ["spotify:track:rofl", "spotify:track:foo2"])])
        = (.ok (), w') ∧
      mapGetD w'.remote "spotify:playlist:foo1" []
        = ["spotify:track:foo2", "spotify:track:foo1"]) ∧
    (∃ w' : World (List (String × List String)),
      AddTracksToNamedPlaylist TestSpotify 1 "st-foo"
          ["spotify:track:baz1", "spotify:track:baz2"] (NewSpotifyWithClient "koenrh" [])
        = (.ok (), w') ∧
      mapGetD w'.remote "spotify:playlist:foo1" []
        = ["spotify:track:baz1", "spotify:track:baz2"]) := by
  constructor
  · obtain ⟨w', hrun, hmem, _⟩ := C2_end_to_end_sync
      [{ ID := "spotify:playlist:foo1", Name := "st-foo" }] "st-foo" "spotify:playlist:foo1"
      0 "koenrh" [("spotify:playlist:foo1", ["spotify:track:rofl", "spotify:track:foo2"])]
      ["spotify:track:foo1", "spotify:track:foo2"] (by decide) (by decide)
    exact ⟨w', hrun, hmem.trans (by decide)⟩
  · obtain ⟨w', hrun, hmem, _⟩ := C2_end_to_end_sync
      [{ ID := "spotify:playlist:foo1", Name := "st-foo" }] "st-foo" "spotify:playlist:foo1"
      0 "koenrh" [] ["spotify:track:baz1", "spotify:track:baz2"] (by decide) (by decide)
    exact ⟨w', hrun, hmem.trans (by decide)⟩

/-! ## C3: idempotence across instances -/

/-- C3, amended. Over the in-memory client of the tests, for every listed
managed playlist name and every non-empty desired list, when
AddTracksToNamedPlaylist has run on one instance and is then called with the
same name and desired list on an instance with empty caches over the
resulting client state (a second run of the program), the second call returns
without error, the removal list and the addition list it computes from its
cache are empty, it issues listing calls and existence checks and no
AddTracksToPlaylist or RemoveTracksFromPlaylist call, and it leaves the client
state as the first call left it. -/
theorem C3_idempotence_across_instances (listing : List SimplePlaylist) (name : String)
    (pid : SpotifyID) (fuel fuel2 : Nat) (u u2 : String)
    (m : List (String × List String)) (des : List String)
    (hP : lastManaged listing name = some pid) (hdes : des ≠ []) :
    ∃ (w1 w2 : World (List (String × List String))) (gs : List (List SpotifyID)),
      AddTracksToNamedPlaylist (memoryClient listing) (fuel + 1) name des
          (NewSpotifyWithClient u m) = (.ok (), w1) ∧
      AddTracksToNamedPlaylist (memoryClient listing) (fuel2 + 1) name des
          (NewSpotifyWithClient u2 w1.remote) = (.ok (), w2) ∧
      (findOrCreatePlaylist (memoryClient listing) (fuel2 + 1) name
          (NewSpotifyWithClient u2 w1.remote)).1 = .ok pid ∧
      (getTrackIDsToRemove pid des
        (findOrCreatePlaylist (memoryClient listing) (fuel2 + 1) name
          (NewSpotifyWithClient u2 w1.remote)).2).1 = [] ∧
      (getTrackIDsToAdd pid des
        (findOrCreatePlaylist (memoryClient listing) (fuel2 + 1) name
          (NewSpotifyWithClient u2 w1.remote)).2).1 = [] ∧
      w2.calls = Call.GetPlaylistsForUserOpt u2 maxPlaylists 0 ::
          (listing.filter managed).map
            (fun p => Call.GetPlaylistTracksOpt p.ID maxPlaylistTracks 0 "")
        ++ gs.map Call.GetTracks ∧
      (∀ p ids, Call.AddTracksToPlaylist p ids ∉ w2.calls ∧
        Call.RemoveTracksFromPlaylist p ids ∉ w2.calls) ∧
      w2.remote = w1.remote := by
  obtain ⟨w1, _, _, _, hrun1, hmem1, _⟩ := sync_memoryClient listing name pid fuel u m des hP hdes
  obtain ⟨w2, gs, rs, as, hrun2, _, hcalls2, hrs, has, hlr, hla, hrem2⟩ :=
    sync_memoryClient listing name pid fuel2 u2 w1.remote des hP hdes
  have hset : ∀ t, t ∈ mapGetD w1.remote pid [] ↔ t ∈ des := by
    intro t
    rw [hmem1]
    by_cases h1 : t ∈ des <;> by_cases h2 : t ∈ mapGetD m pid [] <;>
      simp [List.mem_append, List.mem_filter, h1, h2]
  have hrm : (mapGetD w1.remote pid []).filter (fun t => decide (t ∉ des)) = [] := by
    rw [List.filter_eq_nil_iff]
    intro t ht
    simp [(hset t).1 ht]
  have had : des.filter (fun t => decide (t ∉ mapGetD w1.remote pid [])) = [] := by
    rw [List.filter_eq_nil_iff]
    intro t ht
    simp [(hset t).2 ht]
  rw [had] at has
  have hrs0 : rs = [] := by
    apply flatten_eq_nil_of_nonempty rs hlr
    apply List.eq_nil_iff_forall_not_mem.2
    intro t ht
    rw [hrs t, hrm] at ht
    exact List.not_mem_nil _ ht
  have has0 := flatten_eq_nil_of_nonempty as hla has
  subst hrs0 has0
  obtain ⟨wp, hfind, hcur, _, _⟩ :=
    findOrCreatePlaylist_memoryClient listing name pid fuel2 u2 w1.remote hP
  have hcalls : w2.calls = Call.GetPlaylistsForUserOpt u2 maxPlaylists 0 ::
      (listing.filter managed).map
        (fun p => Call.GetPlaylistTracksOpt p.ID maxPlaylistTracks 0 "")
      ++ gs.map Call.GetTracks := by
    simpa using hcalls2
  have hcset : ∀ t, t ∈ mapGetD wp.c.playlistTracks pid [] ↔ t ∈ des :=
    fun t => (hcur t).trans (hset t)
  refine ⟨w1, w2, gs, hrun1, hrun2, by rw [hfind], ?_, ?_, hcalls, ?_, ?_⟩
  · rw [hfind, getTrackIDsToRemove_fst]
    simp only []
    rw [List.filter_eq_nil_iff]
    intro t ht
    simp [(hcset t).1 ht]
  · rw [hfind, getTrackIDsToAdd_fst]
    simp only []
    rw [List.filter_eq_nil_iff]
    intro t ht
    simp [(hcset t).2 ht]
  · intro p ids
    rw [hcalls]
    simp
  · simpa [remoteAfter] using hrem2

/-- Witness of C3 as amended: the playlist with rofl, foo2 and the desired
list foo1, foo2 of the tests. -/
theorem C3_idempotence_across_instances_witness :
    ∃ (w1 w2 : World (List (String × List String))) (gs : List (List SpotifyID)),
      AddTracksToNamedPlaylist TestSpotify 1 "st-foo"
          ["spotify:track:foo1", "spotify:track:foo2"]
          (NewSpotifyWithClient "koenrh"
            [("spotify:playlist:foo1", ["spotify:track:rofl", "spotify:track:foo2"])])
        = (.ok (), w1) ∧
      AddTracksToNamedPlaylist TestSpotify 1 "st-foo"
          ["spotify:track:foo1", "spotify:track:foo2"]
          (NewSpotifyWithClient "koenrh" w1.remote) = (.ok (), w2) ∧
      (findOrCreatePlaylist TestSpotify 1 "st-foo"
          (NewSpotifyWithClient "koenrh" w1.remote)).1 = .ok "spotify:playlist:foo1" ∧
      (getTrackIDsToRemove "spotify:playlist:foo1" ["spotify:track:foo1", "spotify:track:foo2"]
        (findOrCreatePlaylist TestSpotify 1 "st-foo"
          (NewSpotifyWithClient "koenrh" w1.remote)).2).1 = [] ∧
      (getTrackIDsToAdd "spotify:playlist:foo1" ["spotify:track:foo1", "spotify:track:foo2"]
        (findOrCreatePlaylist TestSpotify 1 "st-foo"
          (NewSpotifyWithClient "koenrh" w1.remote)).2).1 = [] ∧
      w2.calls = Call.GetPlaylistsForUserOpt "koenrh" maxPlaylists 0 ::
          ([{ ID := "spotify:playlist:foo1", Name := "st-foo" }].filter managed).map
            (fun p => Call.GetPlaylistTracksOpt p.ID maxPlaylistTracks 0 "")
        ++ gs.map Call.GetTracks ∧
      (∀ p ids, Call.AddTracksToPlaylist p ids ∉ w2.calls ∧
        Call.RemoveTracksFromPlaylist p ids ∉ w2.calls) ∧
      w2.remote = w1.remote :=
  C3_idempotence_across_instances
    [{ ID := "spotify:playlist:foo1", Name := "st-foo" }] "st-foo" "spotify:playlist:foo1"
    0 0 "koenrh" "koenrh"
    [("spotify:playlist:foo1", ["spotify:track:rofl", "spotify:track:foo2"])]
    ["spotify:track:foo1", "spotify:track:foo2"] (by decide) (by decide)

/-! ## C16: a synchronisation does not touch the caches -/

/-- C16. For every client, whatever its calls return, every state, playlist
ID and desired list, updatePlaylist leaves the Spotify struct as it was: the
playlists map and the playlistTracks map are unchanged, so the cached
membership of the synced playlist is the same after the call as before. The
same holds for each step: cleanTrackIDs, getTrackIDsToRemove,
removeTracksFromPlaylist, getTrackIDsToAdd and addTracksToPlaylist. -/
theorem C16_cache_not_refreshed {σ : Type} (cl : SpotifyClient σ) (playlistID : SpotifyID)
    (des : List String) (ids : List SpotifyID) (w : World σ) :
    (updatePlaylist cl playlistID des w).2.c.playlists = w.c.playlists ∧
    (updatePlaylist cl playlistID des w).2.c.playlistTracks = w.c.playlistTracks ∧
    mapGetD (updatePlaylist cl playlistID des w).2.c.playlistTracks playlistID []
      = mapGetD w.c.playlistTracks playlistID [] ∧
    (cleanTrackIDs cl des w).2.c = w.c ∧
    (getTrackIDsToRemove playlistID ids w).2.c = w.c ∧
    (removeTracksFromPlaylist cl playlistID ids w).2.c = w.c ∧
    (getTrackIDsToAdd playlistID ids w).2.c = w.c ∧
    (addTracksToPlaylist cl playlistID ids w).2.c = w.c := by
  have h := (updatePlaylist_trace cl playlistID des w).1
  refine ⟨by rw [h], by rw [h], by rw [h], ?_, ?_, ?_, ?_, ?_⟩
  · exact (cleanTrackIDsLoop_trace cl des des (des.length + 1) 0 [] w).1
  · exact (getTrackIDsToRemoveLoop_frame playlistID ids _ [] w).1
  · exact (removeTracksFromPlaylistLoop_trace cl playlistID ids (ids.length + 1) 0 w).1
  · exact (getTrackIDsToAddLoop_frame playlistID ids [] w).1
  · exact (addTracksToPlaylistLoop_trace cl playlistID ids (ids.length + 1) 0 w).1

/-! ## C18: the buckets of the driver -/

theorem yearLoop_eq (y : Nat) :
    ∀ (fuel i : Nat), y + 1 - i ≤ fuel → yearLoop y fuel i = List.range' i (y + 1 - i) := by
  intro fuel
  induction fuel with
  | zero =>
    intro i h
    have h0 : y + 1 - i = 0 := by omega
    simp [yearLoop, h0]
  | succ fuel ih =>
    intro i h
    by_cases hi : i ≤ y
    · have h1 : y + 1 - i = (y + 1 - (i + 1)) + 1 := by omega
      simp only [yearLoop, hi, if_true]
      rw [ih (i + 1) (by omega), h1, List.range'_succ]
    · have h0 : y + 1 - i = 0 := by omega
      simp [yearLoop, hi, h0]

theorem mem_decadeLoop (y : Nat) :
    ∀ (fuel i d : Nat), y + decadeYears - i ≤ fuel →
      (d ∈ decadeLoop y fuel i ↔ ∃ k, d = i + decadeYears * k ∧ d < y + decadeYears) := by
  intro fuel
  induction fuel with
  | zero =>
    intro i d h
    simp only [decadeLoop, List.not_mem_nil, false_iff]
    rintro ⟨k, hk, hd⟩
    omega
  | succ fuel ih =>
    intro i d h
    by_cases hi : i < y + decadeYears
    · simp only [decadeLoop, hi, if_true, List.mem_cons]
      rw [ih (i + decadeYears) d (by simp only [decadeYears] at hi h ⊢; omega)]
      constructor
      · rintro (h1 | ⟨k, hk, hd⟩)
        · exact ⟨0, by simp [h1], by rw [h1]; exact hi⟩
        · exact ⟨k + 1, by rw [hk]; simp only [decadeYears]; omega, hd⟩
      · rintro ⟨k, hk, hd⟩
        cases k with
        | zero => exact Or.inl (by simpa using hk)
        | succ k => exact Or.inr ⟨k, by rw [hk]; simp only [decadeYears]; omega, hd⟩
    · simp only [decadeLoop, hi, if_false, List.not_mem_nil, false_iff]
      rintro ⟨k, hk, hd⟩
      omega

/-- C18, the code at failing inputs. In 1975 the year buckets are the years
1970 to 1975, but the decade buckets are 1970 and 1980: the decade loop runs
while i < currentYear + decadeYears, so it also visits the decade that starts
after the current year. For every current year y from 1970 on the year
buckets are exactly 1970, ..., y and the decade buckets are exactly the
values 1970 + 10 k below y + 10; unless y is the first year of a decade, one
of them is greater than y. Every year from 1970 to y lies in exactly one
decade bucket. -/
theorem C18_decade_bucket_after_current_year :
    yearBuckets 1975 = [1970, 1971, 1972, 1973, 1974, 1975] ∧
    decadeBuckets 1975 = [1970, 1980] ∧
    decadeBuckets 2026 = [1970, 1980, 1990, 2000, 2010, 2020, 2030] ∧
    (∀ y, 1970 ≤ y → yearBuckets y = List.range' 1970 (y - 1969)) ∧
    (∀ y d, 1970 ≤ y → (d ∈ decadeBuckets y ↔ ∃ k, d = 1970 + 10 * k ∧ d < y + 10)) ∧
    (∀ y, 1970 ≤ y → y % 10 ≠ 0 → ∃ d ∈ decadeBuckets y, y < d) ∧
    (∀ y x, 1970 ≤ x → x ≤ y →
      ∃ d ∈ decadeBuckets y, (d ≤ x ∧ x < d + 10) ∧
        ∀ d2 ∈ decadeBuckets y, d2 ≤ x ∧ x < d2 + 10 → d2 = d) := by
  have hmem : ∀ y d, 1970 ≤ y →
      (d ∈ decadeBuckets y ↔ ∃ k, d = 1970 + 10 * k ∧ d < y + 10) := by
    intro y d _
    exact mem_decadeLoop y (y + decadeYears) epoch d (by simp [epoch])
  refine ⟨by set_option maxRecDepth 100000 in decide,
    by set_option maxRecDepth 100000 in decide,
    by set_option maxRecDepth 100000 in decide, ?_, hmem, ?_, ?_⟩
  · intro y hy
    have h := yearLoop_eq y (y + 1) epoch (by omega)
    simp only [epoch] at h
    unfold yearBuckets
    simp only [epoch]
    have hn : y + 1 - 1970 = y - 1969 := by omega
    rw [h, hn]
  · intro y hy hmod
    refine ⟨1970 + 10 * (y / 10 - 196), (hmem y _ hy).2 ⟨y / 10 - 196, rfl, by omega⟩, by omega⟩
  · intro y x hx hxy
    refine ⟨1970 + 10 * ((x - 1970) / 10),
      (hmem y _ (by omega)).2 ⟨(x - 1970) / 10, rfl, by omega⟩, by omega, ?_⟩
    intro d2 hd2 hin
    obtain ⟨k, hk, _⟩ := (hmem y d2 (by omega)).1 hd2
    omega

/-! ## C11: the base64 helper -/

theorem encodeChar_ne_pad : ∀ v, v < 64 → encodeChar v ≠ '=' := by
  decide

theorem decodeChar_encodeChar : ∀ v, v < 64 → decodeChar (encodeChar v) = some v := by
  decide

theorem splitFirst_append_pad (body : List Char) (k : Nat) (h : ∀ c ∈ body, c ≠ '=') :
    splitFirst (body ++ List.replicate k '=') '=' = body := by
  unfold splitFirst
  rw [List.takeWhile_append_of_pos (fun c hc => by simpa using h c hc)]
  cases k with
  | zero => simp
  | succ k => simp [List.replicate_succ]

theorem encodeToString_body :
    ∀ input : List Nat, (∀ b ∈ input, b < 256) →
      ∃ body k, k ≤ 2 ∧ EncodeToString input = body ++ List.replicate k '=' ∧
        (∀ c ∈ body, c ≠ '=') ∧ DecodeString body = some input := by
  intro input
  induction input using EncodeToString.induct with
  | case1 => intro _; exact ⟨[], 0, by omega, rfl, by simp, rfl⟩
  | case2 a =>
    intro h
    have ha : a < 256 := h a (by simp)
    refine ⟨[encodeChar (a * 65536 / 262144 % 64), encodeChar (a * 65536 / 4096 % 64)], 2,
      by omega, rfl, ?_, ?_⟩
    · intro c hc
      simp only [List.mem_cons, List.mem_singleton, List.not_mem_nil, or_false] at hc
      rcases hc with hc | hc <;> rw [hc] <;> exact encodeChar_ne_pad _ (by omega)
    · simp only [DecodeString, decodeChar_encodeChar _ (Nat.mod_lt _ (by decide : 0 < 64))]
      congr 2
      omega
  | case3 a b =>
    intro h
    have ha : a < 256 := h a (by simp)
    have hb : b < 256 := h b (by simp)
    refine ⟨[encodeChar ((a * 65536 + b * 256) / 262144 % 64),
      encodeChar ((a * 65536 + b * 256) / 4096 % 64),
      encodeChar ((a * 65536 + b * 256) / 64 % 64)], 1, by omega, rfl, ?_, ?_⟩
    · intro c hc
      simp only [List.mem_cons, List.mem_singleton, List.not_mem_nil, or_false] at hc
      rcases hc with hc | hc | hc <;> rw [hc] <;> exact encodeChar_ne_pad _ (by omega)
    · simp only [DecodeString, decodeChar_encodeChar _ (Nat.mod_lt _ (by decide : 0 < 64))]
      congr 2
      · omega
      · congr 1
        omega
  | case4 a b c rest ih =>
    intro h
    have ha : a < 256 := h a (by simp)
    have hb : b < 256 := h b (by simp)
    have hc : c < 256 := h c (by simp)
    obtain ⟨body, k, hk, henc, hne, hdec⟩ := ih (fun x hx => h x (by simp [hx]))
    refine ⟨encodeChar ((a * 65536 + b * 256 + c) / 262144 % 64) ::
      encodeChar ((a * 65536 + b * 256 + c) / 4096 % 64) ::
      encodeChar ((a * 65536 + b * 256 + c) / 64 % 64) ::
      encodeChar ((a * 65536 + b * 256 + c) % 64) :: body, k, hk, ?_, ?_, ?_⟩
    · simp only [EncodeToString, henc, List.cons_append]
    · intro x hx
      simp only [List.mem_cons] at hx
      rcases hx with hx | hx | hx | hx | hx
      · rw [hx]; exact encodeChar_ne_pad _ (by omega)
      · rw [hx]; exact encodeChar_ne_pad _ (by omega)
      · rw [hx]; exact encodeChar_ne_pad _ (by omega)
      · rw [hx]; exact encodeChar_ne_pad _ (by omega)
      · exact hne x hx
    · simp only [DecodeString, decodeChar_encodeChar _ (Nat.mod_lt _ (by decide : 0 < 64)), hdec]
      congr 2
      · omega
      · congr 1
        · omega
        · congr 1
          omega

/-- C11. For every byte sequence (every element below 256, the empty one
included), EncodeBase64WithoutPadding is the URL-safe base64 encoding with its
padding stripped: the padded encoding is the result followed by at most two
= characters, the result contains no = character, and decoding the result as
unpadded URL-safe base64 gives the bytes back. -/
theorem C11_base64_without_padding (input : List Nat) (h : ∀ b ∈ input, b < 256) :
    '=' ∉ (EncodeBase64WithoutPadding input).toList ∧
    DecodeString (EncodeBase64WithoutPadding input).toList = some input ∧
    ∃ k, k ≤ 2 ∧
      EncodeToString input = (EncodeBase64WithoutPadding input).toList ++ List.replicate k '=' := by
  obtain ⟨body, k, hk, henc, hne, hdec⟩ := encodeToString_body input h
  have hres : (EncodeBase64WithoutPadding input).toList = body := by
    unfold EncodeBase64WithoutPadding
    rw [henc, splitFirst_append_pad body k hne]
    rfl
  rw [hres]
  exact ⟨fun hmem => hne _ hmem rfl, hdec, k, hk, henc⟩

/-- Witness of C11: the bytes of the test, 112, 105, 122, 122, 97, encode to
cGl6emE. -/
theorem C11_base64_without_padding_witness :
    EncodeBase64WithoutPadding [112, 105, 122, 122, 97] = "cGl6emE" ∧
    ('=' ∉ (EncodeBase64WithoutPadding [112, 105, 122, 122, 97]).toList ∧
    DecodeString (EncodeBase64WithoutPadding [112, 105, 122, 122, 97]).toList
      = some [112, 105, 122, 122, 97] ∧
    ∃ k, k ≤ 2 ∧
      EncodeToString [112, 105, 122, 122, 97]
        = (EncodeBase64WithoutPadding [112, 105, 122, 122, 97]).toList
          ++ List.replicate k '=') :=
  ⟨by decide, C11_base64_without_padding [112, 105, 122, 122, 97] (by decide)⟩

/-! ## C14: a mutation call that fails -/

theorem chunkAt_length_le (trackIDs : List SpotifyID) (j : Nat) :
    (chunkAt trackIDs j).length ≤ maxPlaylistTracks := by
  unfold chunkAt slice
  split <;> simp only [List.length_take, List.length_drop] <;> omega

theorem chunkAt_flatten_from (trackIDs : List SpotifyID) :
    ∀ (n j : Nat), ((List.range' j n).map (chunkAt trackIDs)).flatten
        ++ trackIDs.drop ((j + n) * maxPlaylistTracks)
      = trackIDs.drop (j * maxPlaylistTracks) := by
  intro n
  induction n with
  | zero => intro j; simp
  | succ n ih =>
    intro j
    have h1 : (j + (n + 1)) * maxPlaylistTracks = (j + 1 + n) * maxPlaylistTracks := by
      congr 1; omega
    have h2 : (j + 1) * maxPlaylistTracks = j * maxPlaylistTracks + maxPlaylistTracks :=
      Nat.succ_mul j maxPlaylistTracks
    rw [List.range'_succ, List.map_cons, List.flatten_cons, List.append_assoc, h1, ih (j + 1),
      h2]
    exact slice_chunk_append trackIDs (j * maxPlaylistTracks) maxPlaylistTracks

theorem chunkAt_flatten (trackIDs : List SpotifyID) :
    ((List.range (chunkCount trackIDs)).map (chunkAt trackIDs)).flatten = trackIDs := by
  have h := chunkAt_flatten_from trackIDs (chunkCount trackIDs) 0
  have hd : trackIDs.drop ((0 + chunkCount trackIDs) * maxPlaylistTracks) = [] := by
    apply List.drop_of_length_le
    simp only [chunkCount, maxPlaylistTracks]
    omega
  rw [hd, List.append_nil, Nat.zero_mul, List.drop_zero, ← List.range_eq_range'] at h
  exact h

theorem addTracksToPlaylistLoop_step {σ : Type} (cl : SpotifyClient σ) (playlistID : SpotifyID)
    (trackIDs : List SpotifyID) (fuel j0 : Nat) (w : World σ)
    (hi : j0 * maxPlaylistTracks < trackIDs.length) :
    addTracksToPlaylistLoop cl playlistID trackIDs (fuel + 1) (j0 * maxPlaylistTracks) w
      = match (cl.AddTracksToPlaylist w.remote playlistID (chunkAt trackIDs j0)).1 with
        | .error e =>
          (.halt (.returned e),
            w.record (.AddTracksToPlaylist playlistID (chunkAt trackIDs j0)) (.failed e)
              (cl.AddTracksToPlaylist w.remote playlistID (chunkAt trackIDs j0)).2)
        | .ok snap =>
          addTracksToPlaylistLoop cl playlistID trackIDs fuel ((j0 + 1) * maxPlaylistTracks)
            (w.record (.AddTracksToPlaylist playlistID (chunkAt trackIDs j0)) (.snapshot snap)
              (cl.AddTracksToPlaylist w.remote playlistID (chunkAt trackIDs j0)).2) := by
  rw [show (j0 + 1) * maxPlaylistTracks = j0 * maxPlaylistTracks + maxPlaylistTracks from
    Nat.succ_mul _ _]
  simp only [addTracksToPlaylistLoop, hi, if_true, chunkAt]

theorem addTracksToPlaylistLoop_fail {σ : Type} (cl : SpotifyClient σ) (playlistID : SpotifyID)
    (trackIDs : List SpotifyID) (e : Err) :
    ∀ (k j0 fuel : Nat) (w : World σ),
      trackIDs.length - j0 * maxPlaylistTracks < fuel →
      j0 + k < chunkCount trackIDs →
      (∀ j, j < k → ∃ snap,
        (cl.AddTracksToPlaylist
          (remoteAfter (fun s ch => (cl.AddTracksToPlaylist s playlistID ch).2) w.remote
            ((List.range' j0 j).map (chunkAt trackIDs)))
          playlistID (chunkAt trackIDs (j0 + j))).1 = .ok snap) →
      (cl.AddTracksToPlaylist
          (remoteAfter (fun s ch => (cl.AddTracksToPlaylist s playlistID ch).2) w.remote
            ((List.range' j0 k).map (chunkAt trackIDs)))
          playlistID (chunkAt trackIDs (j0 + k))).1 = .error e →
      (addTracksToPlaylistLoop cl playlistID trackIDs fuel (j0 * maxPlaylistTracks) w).1
        = .halt (.returned e) ∧
      (addTracksToPlaylistLoop cl playlistID trackIDs fuel (j0 * maxPlaylistTracks) w).2.calls
        = w.calls ++ (List.range' j0 (k + 1)).map
            (fun j => Call.AddTracksToPlaylist playlistID (chunkAt trackIDs j)) ∧
      (addTracksToPlaylistLoop cl playlistID trackIDs fuel (j0 * maxPlaylistTracks) w).2.remote
        = remoteAfter (fun s ch => (cl.AddTracksToPlaylist s playlistID ch).2) w.remote
            ((List.range' j0 (k + 1)).map (chunkAt trackIDs)) ∧
      (addTracksToPlaylistLoop cl playlistID trackIDs fuel (j0 * maxPlaylistTracks) w).2.c
        = w.c := by
  intro k
  induction k with
  | zero =>
    intro j0 fuel w hfuel hk _ hfail
    have hi : j0 * maxPlaylistTracks < trackIDs.length := by
      simp only [chunkCount, maxPlaylistTracks] at hk ⊢; omega
    cases fuel with
    | zero => omega
    | succ fuel =>
      simp only [List.range'_zero, List.map_nil, remoteAfter, List.foldl_nil,
        Nat.add_zero] at hfail
      rw [addTracksToPlaylistLoop_step cl playlistID trackIDs fuel j0 w hi, hfail]
      simp [World.calls, World.record, remoteAfter, List.range'_succ]
  | succ k ih =>
    intro j0 fuel w hfuel hk hok hfail
    have hi : j0 * maxPlaylistTracks < trackIDs.length := by
      simp only [chunkCount, maxPlaylistTracks] at hk ⊢; omega
    cases fuel with
    | zero => omega
    | succ fuel =>
      obtain ⟨snap, hsnap⟩ := hok 0 (by omega)
      simp only [List.range'_zero, List.map_nil, remoteAfter, List.foldl_nil,
        Nat.add_zero] at hsnap
      have hrec := ih (j0 + 1) fuel
        (w.record (.AddTracksToPlaylist playlistID (chunkAt trackIDs j0)) (.snapshot snap)
          (cl.AddTracksToPlaylist w.remote playlistID (chunkAt trackIDs j0)).2)
        (by simp only [maxPlaylistTracks] at hfuel hi ⊢; omega) (by omega)
        (by
          intro j hj
          obtain ⟨s2, hs2⟩ := hok (j + 1) (by omega)
          refine ⟨s2, ?_⟩
          have hidx : j0 + 1 + j = j0 + (j + 1) := by omega
          rw [hidx]
          simpa [World.record, remoteAfter, List.range'_succ] using hs2)
        (by
          have hidx : j0 + 1 + k = j0 + (k + 1) := by omega
          rw [hidx]
          simpa [World.record, remoteAfter, List.range'_succ] using hfail)
      rw [addTracksToPlaylistLoop_step cl playlistID trackIDs fuel j0 w hi, hsnap]
      obtain ⟨r1, r2, r3, r4⟩ := hrec
      refine ⟨r1, ?_, ?_, ?_⟩
      · simp only []
        rw [r2]
        simp [World.calls, World.record, List.range'_succ j0 (k + 1)]
      · simp only []
        rw [r3]
        simp [World.record, remoteAfter, List.range'_succ j0 (k + 1)]
      · simp only []
        rw [r4]; rfl

theorem removeTracksFromPlaylistLoop_step {σ : Type} (cl : SpotifyClient σ) (playlistID : SpotifyID)
    (trackIDs : List SpotifyID) (fuel j0 : Nat) (w : World σ)
    (hi : j0 * maxPlaylistTracks < trackIDs.length) :
    removeTracksFromPlaylistLoop cl playlistID trackIDs (fuel + 1) (j0 * maxPlaylistTracks) w
      = match (cl.RemoveTracksFromPlaylist w.remote playlistID (chunkAt trackIDs j0)).1 with
        | .error e =>
          (.halt (.returned e),
            w.record (.RemoveTracksFromPlaylist playlistID (chunkAt trackIDs j0)) (.failed e)
              (cl.RemoveTracksFromPlaylist w.remote playlistID (chunkAt trackIDs j0)).2)
        | .ok snap =>
          removeTracksFromPlaylistLoop cl playlistID trackIDs fuel ((j0 + 1) * maxPlaylistTracks)
            (w.record (.RemoveTracksFromPlaylist playlistID (chunkAt trackIDs j0)) (.snapshot snap)
              (cl.RemoveTracksFromPlaylist w.remote playlistID (chunkAt trackIDs j0)).2) := by
  rw [show (j0 + 1) * maxPlaylistTracks = j0 * maxPlaylistTracks + maxPlaylistTracks from
    Nat.succ_mul _ _]
  simp only [removeTracksFromPlaylistLoop, hi, if_true, chunkAt]

theorem removeTracksFromPlaylistLoop_fail {σ : Type} (cl : SpotifyClient σ) (playlistID : SpotifyID)
    (trackIDs : List SpotifyID) (e : Err) :
    ∀ (k j0 fuel : Nat) (w : World σ),
      trackIDs.length - j0 * maxPlaylistTracks < fuel →
      j0 + k < chunkCount trackIDs →
      (∀ j, j < k → ∃ snap,
        (cl.RemoveTracksFromPlaylist
          (remoteAfter (fun s ch => (cl.RemoveTracksFromPlaylist s playlistID ch).2) w.remote
            ((List.range' j0 j).map (chunkAt trackIDs)))
          playlistID (chunkAt trackIDs (j0 + j))).1 = .ok snap) →
      (cl.RemoveTracksFromPlaylist
          (remoteAfter (fun s ch => (cl.RemoveTracksFromPlaylist s playlistID ch).2) w.remote
            ((List.range' j0 k).map (chunkAt trackIDs)))
          playlistID (chunkAt trackIDs (j0 + k))).1 = .error e →
      (removeTracksFromPlaylistLoop cl playlistID trackIDs fuel (j0 * maxPlaylistTracks) w).1
        = .halt (.returned e) ∧
      (removeTracksFromPlaylistLoop cl playlistID trackIDs fuel (j0 * maxPlaylistTracks) w).2.calls
        = w.calls ++ (List.range' j0 (k + 1)).map
            (fun j => Call.RemoveTracksFromPlaylist playlistID (chunkAt trackIDs j)) ∧
      (removeTracksFromPlaylistLoop cl playlistID trackIDs fuel (j0 * maxPlaylistTracks) w).2.remote
        = remoteAfter (fun s ch => (cl.RemoveTracksFromPlaylist s playlistID ch).2) w.remote
            ((List.range' j0 (k + 1)).map (chunkAt trackIDs)) ∧
      (removeTracksFromPlaylistLoop cl playlistID trackIDs fuel (j0 * maxPlaylistTracks) w).2.c
        = w.c := by
  intro k
  induction k with
  | zero =>
    intro j0 fuel w hfuel hk _ hfail
    have hi : j0 * maxPlaylistTracks < trackIDs.length := by
      simp only [chunkCount, maxPlaylistTracks] at hk ⊢; omega
    cases fuel with
    | zero => omega
    | succ fuel =>
      simp only [List.range'_zero, List.map_nil, remoteAfter, List.foldl_nil,
        Nat.add_zero] at hfail
      rw [removeTracksFromPlaylistLoop_step cl playlistID trackIDs fuel j0 w hi, hfail]
      simp [World.calls, World.record, remoteAfter, List.range'_succ]
  | succ k ih =>
    intro j0 fuel w hfuel hk hok hfail
    have hi : j0 * maxPlaylistTracks < trackIDs.length := by
      simp only [chunkCount, maxPlaylistTracks] at hk ⊢; omega
    cases fuel with
    | zero => omega
    | succ fuel =>
      obtain ⟨snap, hsnap⟩ := hok 0 (by omega)
      simp only [List.range'_zero, List.map_nil, remoteAfter, List.foldl_nil,
        Nat.add_zero] at hsnap
      have hrec := ih (j0 + 1) fuel
        (w.record (.RemoveTracksFromPlaylist playlistID (chunkAt trackIDs j0)) (.snapshot snap)
          (cl.RemoveTracksFromPlaylist w.remote playlistID (chunkAt trackIDs j0)).2)
        (by simp only [maxPlaylistTracks] at hfuel hi ⊢; omega) (by omega)
        (by
          intro j hj
          obtain ⟨s2, hs2⟩ := hok (j + 1) (by omega)
          refine ⟨s2, ?_⟩
          have hidx : j0 + 1 + j = j0 + (j + 1) := by omega
          rw [hidx]
          simpa [World.record, remoteAfter, List.range'_succ] using hs2)
        (by
          have hidx : j0 + 1 + k = j0 + (k + 1) := by omega
          rw [hidx]
          simpa [World.record, remoteAfter, List.range'_succ] using hfail)
      rw [removeTracksFromPlaylistLoop_step cl playlistID trackIDs fuel j0 w hi, hsnap]
      obtain ⟨r1, r2, r3, r4⟩ := hrec
      refine ⟨r1, ?_, ?_, ?_⟩
      · simp only []
        rw [r2]
        simp [World.calls, World.record, List.range'_succ j0 (k + 1)]
      · simp only []
        rw [r3]
        simp [World.record, remoteAfter, List.range'_succ j0 (k + 1)]
      · simp only []
        rw [r4]; rfl

/-! ## C12: the page loops terminate -/

theorem wrapInt_eq_self (x : Int) (h0 : 0 ≤ x) (h1 : x ≤ maxInt) : wrapInt x = x := by
  unfold wrapInt
  unfold maxInt at h1
  omega

theorem populateTracksLoop_paging {σ : Type} (cl : SpotifyClient σ) (total : Int)
    (playlistID : SpotifyID)
    (htr : ∀ s l o f, ∃ page, (cl.GetPlaylistTracksOpt s playlistID l o f).1 = .ok page ∧
      page.Total = total)
    (hint : ((pageBound total maxPlaylistTracks * maxPlaylistTracks : Nat) : Int) ≤ maxInt) :
    ∀ (fuel i : Nat) (w : World σ),
      i < pageBound total maxPlaylistTracks →
      pageBound total maxPlaylistTracks - i ≤ fuel →
      ∃ pages,
        (populateTracksLoop cl playlistID fuel ((i * maxPlaylistTracks : Nat) : Int) w).1
          = .ok () ∧
        (populateTracksLoop cl playlistID fuel ((i * maxPlaylistTracks : Nat) : Int) w).2.events
          = w.events ++ trackRequests playlistID ((i * maxPlaylistTracks : Nat) : Int) pages ∧
        pagingStops maxPlaylistTracks total ((i * maxPlaylistTracks : Nat) : Int)
          (pages.map PlaylistTrackPage.Next) ∧
        pages.length ≤ pageBound total maxPlaylistTracks - i := by
  intro fuel
  induction fuel with
  | zero => intro i w h1 h2; omega
  | succ fuel ih =>
    intro i w hi hfuel
    obtain ⟨page, hpage, htot⟩ :=
      htr w.remote maxPlaylistTracks ((i * maxPlaylistTracks : Nat) : Int) ""
    have hsum : ((i * maxPlaylistTracks : Nat) : Int) + ((maxPlaylistTracks : Nat) : Int)
        = (((i + 1) * maxPlaylistTracks : Nat) : Int) := by
      simp only [maxPlaylistTracks]; omega
    have hnext : wrapInt (((i * maxPlaylistTracks : Nat) : Int) + ((maxPlaylistTracks : Nat) : Int))
        = (((i + 1) * maxPlaylistTracks : Nat) : Int) := by
      rw [hsum]
      apply wrapInt_eq_self
      · omega
      · simp only [maxPlaylistTracks] at hint hi ⊢; omega
    simp only [populateTracksLoop, hpage, hnext]
    by_cases hstop : page.Next = "" ∨ (((i + 1) * maxPlaylistTracks : Nat) : Int) ≥ page.Total
    · simp only [hstop, if_true]
      refine ⟨[page], by trivial, by simp [trackRequests, World.record], ?_, ?_⟩
      · simp only [List.map_cons, List.map_nil, pagingStops]
        rw [hsum, ← htot]; exact hstop
      · simp only [List.length_singleton]; omega
    · simp only [hstop, if_false]
      have hlt : ¬ (((i + 1) * maxPlaylistTracks : Nat) : Int) ≥ total := by
        rw [← htot]
        intro hge
        exact hstop (Or.inr hge)
      have hi2 : i + 1 < pageBound total maxPlaylistTracks := by
        simp only [pageBound, maxPlaylistTracks] at hlt ⊢; omega
      obtain ⟨pages, h1, h2, h3, h4⟩ := ih (i + 1)
        { c := { currentUserID := w.c.currentUserID,
                 playlistTracks := appendTracks w.c.playlistTracks playlistID page.Tracks,
                 playlists := w.c.playlists },
          remote := (cl.GetPlaylistTracksOpt w.remote playlistID maxPlaylistTracks
            ((i * maxPlaylistTracks : Nat) : Int) "").2,
          events := w.events ++
            [⟨.GetPlaylistTracksOpt playlistID maxPlaylistTracks
              ((i * maxPlaylistTracks : Nat) : Int) "", .playlistTracks page⟩],
          stdout := w.stdout }
        hi2 (by omega)
      refine ⟨page :: pages, h1, ?_, ?_, ?_⟩
      · simp only [World.record] at h2 ⊢
        rw [h2, List.append_assoc, ← hsum]
        rfl
      · cases pages with
        | nil => simp [pagingStops] at h3
        | cons q qs =>
          simp only [List.map_cons, pagingStops] at h3 ⊢
          rw [hsum]
          refine ⟨?_, h3⟩
          rw [← htot]; exact hstop
      · simp only [List.length_cons]
        omega

theorem populateTracksLoop_paging_zero {σ : Type} (cl : SpotifyClient σ) (total : Int)
    (playlistID : SpotifyID) (fuel : Nat) (w : World σ)
    (htr : ∀ s l o f, ∃ page, (cl.GetPlaylistTracksOpt s playlistID l o f).1 = .ok page ∧
      page.Total = total)
    (hfit : LoopFits fuel total maxPlaylistTracks) :
    ∃ pages,
      (populateTracksLoop cl playlistID fuel 0 w).1 = .ok () ∧
      (populateTracksLoop cl playlistID fuel 0 w).2.events
        = w.events ++ trackRequests playlistID 0 pages ∧
      pagingStops maxPlaylistTracks total 0 (pages.map PlaylistTrackPage.Next) ∧
      pages.length ≤ pageBound total maxPlaylistTracks := by
  have h := populateTracksLoop_paging cl total playlistID htr hfit.1 fuel 0 w
    (by simp only [pageBound]; omega) (by have := hfit.2; omega)
  have h0 : ((0 * maxPlaylistTracks : Nat) : Int) = 0 := by simp
  rw [h0] at h
  simpa using h

theorem populateRange_paging {σ : Type} (cl : SpotifyClient σ) (totalT : SpotifyID → Int)
    (htr : ∀ s p l o f, ∃ page, (cl.GetPlaylistTracksOpt s p l o f).1 = .ok page ∧
      page.Total = totalT p)
    (fuel : Nat) :
    ∀ (ps : List SimplePlaylist) (w : World σ),
      (∀ p ∈ ps, managed p = true → LoopFits fuel (totalT p.ID) maxPlaylistTracks) →
      (populateRange cl fuel ps w).1 = .ok () := by
  intro ps
  induction ps with
  | nil => intro w _; rfl
  | cons p ps ih =>
    intro w hfit
    by_cases hp : managed p = true
    · obtain ⟨_, h1, _⟩ := populateTracksLoop_paging_zero cl (totalT p.ID) p.ID fuel
        { w with c := { w.c with playlists := mapSet w.c.playlists p.Name p.ID } }
        (fun s l o f => htr s p.ID l o f) (hfit p (List.mem_cons_self _ _) hp)
      simp only [populateRange, hp, Bool.not_true, Bool.false_eq_true, if_false]
      generalize populateTracksLoop cl p.ID fuel 0
        { w with c := { w.c with playlists := mapSet w.c.playlists p.Name p.ID } } = res at h1
      obtain ⟨o, w2⟩ := res
      simp only [] at h1
      subst h1
      exact ih w2 (fun q hq => hfit q (List.mem_cons_of_mem _ hq))
    · have hp2 : managed p = false := by simpa using hp
      simp only [populateRange, hp2, Bool.not_false, if_true]
      exact ih w (fun q hq => hfit q (List.mem_cons_of_mem _ hq))

theorem filter_isListPlaylists_tracks (new : List Event)
    (h : ∀ e ∈ new, ∃ p l o f, e.call = .GetPlaylistTracksOpt p l o f) :
    new.filter (fun e => isListPlaylists e.call) = [] := by
  rw [List.filter_eq_nil_iff]
  intro e he
  obtain ⟨p, l, o, f, hc⟩ := h e he
  simp [hc, isListPlaylists]

theorem filter_isListPlaylists_cons (u : String) (l : Nat) (o : Int) (r : Reply)
    (rest : List Event) :
    (⟨.GetPlaylistsForUserOpt u l o, r⟩ :: rest : List Event).filter
        (fun e => isListPlaylists e.call)
      = ⟨.GetPlaylistsForUserOpt u l o, r⟩ :: rest.filter (fun e => isListPlaylists e.call) :=
  rfl

theorem populatePagesLoop_paging {σ : Type} (cl : SpotifyClient σ) (totalP : Int)
    (totalT : SpotifyID → Int)
    (hpl : ∀ s u l o, ∃ page, (cl.GetPlaylistsForUserOpt s u l o).1 = .ok page ∧
      page.Total = totalP)
    (htr : ∀ s p l o f, ∃ page, (cl.GetPlaylistTracksOpt s p l o f).1 = .ok page ∧
      page.Total = totalT p)
    (fuel : Nat)
    (hlisted : ∀ s u l o page p, (cl.GetPlaylistsForUserOpt s u l o).1 = .ok page →
      p ∈ page.Playlists → managed p = true → LoopFits fuel (totalT p.ID) maxPlaylistTracks)
    (hint : ((pageBound totalP maxPlaylists * maxPlaylists : Nat) : Int) ≤ maxInt) :
    ∀ (n i : Nat) (w : World σ),
      i < pageBound totalP maxPlaylists →
      pageBound totalP maxPlaylists - i ≤ n →
      ∃ pages new,
        (populatePagesLoop cl fuel n ((i * maxPlaylists : Nat) : Int) w).1 = .ok () ∧
        (populatePagesLoop cl fuel n ((i * maxPlaylists : Nat) : Int) w).2.events
          = w.events ++ new ∧
        new.filter (fun e => isListPlaylists e.call)
          = playlistRequests w.c.currentUserID ((i * maxPlaylists : Nat) : Int) pages ∧
        pagingStops maxPlaylists totalP ((i * maxPlaylists : Nat) : Int)
          (pages.map SimplePlaylistPage.Next) ∧
        pages.length ≤ pageBound totalP maxPlaylists - i := by
  intro n
  induction n with
  | zero => intro i w h1 h2; omega
  | succ n ih =>
    intro i w hi hfuel
    obtain ⟨page, hpage, htot⟩ :=
      hpl w.remote w.c.currentUserID maxPlaylists ((i * maxPlaylists : Nat) : Int)
    have hsum : ((i * maxPlaylists : Nat) : Int) + ((maxPlaylists : Nat) : Int)
        = (((i + 1) * maxPlaylists : Nat) : Int) := by
      simp only [maxPlaylists]; omega
    have hnext : wrapInt (((i * maxPlaylists : Nat) : Int) + ((maxPlaylists : Nat) : Int))
        = (((i + 1) * maxPlaylists : Nat) : Int) := by
      rw [hsum]
      apply wrapInt_eq_self
      · omega
      · simp only [maxPlaylists] at hint hi ⊢; omega
    have hr := populateRange_trace cl fuel page.Playlists
      (w.record (.GetPlaylistsForUserOpt w.c.currentUserID maxPlaylists
          ((i * maxPlaylists : Nat) : Int))
        (.playlists page)
        (cl.GetPlaylistsForUserOpt w.remote w.c.currentUserID maxPlaylists
          ((i * maxPlaylists : Nat) : Int)).2)
    have hok := populateRange_paging cl totalT htr fuel page.Playlists
      (w.record (.GetPlaylistsForUserOpt w.c.currentUserID maxPlaylists
          ((i * maxPlaylists : Nat) : Int))
        (.playlists page)
        (cl.GetPlaylistsForUserOpt w.remote w.c.currentUserID maxPlaylists
          ((i * maxPlaylists : Nat) : Int)).2)
      (fun p hp hm => hlisted _ _ _ _ page p hpage hp hm)
    simp only [populatePagesLoop, hpage, hnext]
    generalize populateRange cl fuel page.Playlists
      (w.record (.GetPlaylistsForUserOpt w.c.currentUserID maxPlaylists
          ((i * maxPlaylists : Nat) : Int))
        (.playlists page)
        (cl.GetPlaylistsForUserOpt w.remote w.c.currentUserID maxPlaylists
          ((i * maxPlaylists : Nat) : Int)).2)
      = res at hr hok
    obtain ⟨o, w1⟩ := res
    simp only [] at hok
    subst hok
    obtain ⟨r1, _, _, _, rnew, r5, _, r7⟩ := hr
    simp only [World.record] at r1 r5
    have hfil : rnew.filter (fun e => isListPlaylists e.call) = [] :=
      filter_isListPlaylists_tracks rnew (fun e he => by
        obtain ⟨p, _, _, hc⟩ := r7 e he
        exact ⟨p.ID, hc⟩)
    simp only []
    by_cases hstop : page.Next = "" ∨ (((i + 1) * maxPlaylists : Nat) : Int) ≥ page.Total
    · simp only [hstop, if_true]
      refine ⟨[page],
        ⟨.GetPlaylistsForUserOpt w.c.currentUserID maxPlaylists
          ((i * maxPlaylists : Nat) : Int), .playlists page⟩ :: rnew,
        by trivial, by rw [r5]; simp, ?_, ?_, ?_⟩
      · rw [filter_isListPlaylists_cons, hfil]
        rfl
      · simp only [List.map_cons, List.map_nil, pagingStops]
        rw [hsum, ← htot]; exact hstop
      · simp only [List.length_singleton]; omega
    · simp only [hstop, if_false]
      have hlt : ¬ (((i + 1) * maxPlaylists : Nat) : Int) ≥ totalP := by
        rw [← htot]
        intro hge
        exact hstop (Or.inr hge)
      have hi2 : i + 1 < pageBound totalP maxPlaylists := by
        simp only [pageBound, maxPlaylists] at hlt ⊢; omega
      obtain ⟨pages, inew, h1, h2, h3, h4, h5⟩ := ih (i + 1) w1 hi2 (by omega)
      refine ⟨page :: pages,
        (⟨.GetPlaylistsForUserOpt w.c.currentUserID maxPlaylists
          ((i * maxPlaylists : Nat) : Int), .playlists page⟩ :: rnew) ++ inew, h1, ?_, ?_, ?_, ?_⟩
      · rw [h2, r5]; simp
      · rw [List.filter_append, h3, r1, filter_isListPlaylists_cons, hfil, ← hsum]
        rfl
      · cases pages with
        | nil => simp [pagingStops] at h4
        | cons q qs =>
          simp only [List.map_cons, pagingStops] at h4 ⊢
          rw [hsum]
          refine ⟨?_, h4⟩
          rw [← htot]; exact hstop
      · simp only [List.length_cons]
        omega

theorem populateTracksLoop_endless {σ : Type} (cl : SpotifyClient σ) (playlistID : SpotifyID)
    (htr : ∀ s l o f, ∃ page, (cl.GetPlaylistTracksOpt s playlistID l o f).1 = .ok page ∧
      page.Next ≠ "" ∧ page.Total = maxInt) :
    ∀ (fuel : Nat) (offset : Int) (w : World σ), offset % 2 = 0 →
      (populateTracksLoop cl playlistID fuel offset w).1 = .halt .outOfFuel := by
  intro fuel
  induction fuel with
  | zero => intro offset w _; rfl
  | succ fuel ih =>
    intro offset w heven
    obtain ⟨page, hpage, hne, htot⟩ := htr w.remote maxPlaylistTracks offset ""
    have hno : ¬ (page.Next = "" ∨ wrapInt (offset + ((maxPlaylistTracks : Nat) : Int))
        ≥ page.Total) := by
      rw [htot]
      intro h
      rcases h with h | h
      · exact hne h
      · unfold wrapInt maxInt maxPlaylistTracks at h
        omega
    simp only [populateTracksLoop, hpage, hno, if_false]
    exact ih _ _ (by unfold wrapInt maxPlaylistTracks; omega)

theorem populatePagesLoop_endless {σ : Type} (cl : SpotifyClient σ) (fuel : Nat)
    (hpl : ∀ s u l o, ∃ page, (cl.GetPlaylistsForUserOpt s u l o).1 = .ok page ∧
      page.Playlists = [] ∧ page.Next ≠ "" ∧ page.Total = maxInt) :
    ∀ (n : Nat) (offset : Int) (w : World σ), offset % 2 = 0 →
      (populatePagesLoop cl fuel n offset w).1 = .halt .outOfFuel := by
  intro n
  induction n with
  | zero => intro offset w _; rfl
  | succ n ih =>
    intro offset w heven
    obtain ⟨page, hpage, hnil, hne, htot⟩ :=
      hpl w.remote w.c.currentUserID maxPlaylists offset
    have hno : ¬ (page.Next = "" ∨ wrapInt (offset + ((maxPlaylists : Nat) : Int))
        ≥ page.Total) := by
      rw [htot]
      intro h
      rcases h with h | h
      · exact hne h
      · unfold wrapInt maxInt maxPlaylists at h
        omega
    simp only [populatePagesLoop, hpage, hnil, populateRange, hno, if_false]
    exact ih _ _ (by unfold wrapInt maxPlaylists; omega)

/-- C12 fails as stated: a Go int is 64 bits wide and the running offset wraps
around. Over a service that reports the largest int as the constant total and
never answers an empty cursor, the running offset is always even, so it never
reaches the total, which is odd: the track loop and the playlist loop of
populatePlaylists go on for ever, that is, they exhaust every fuel. -/
theorem C12_offset_overflow_never_stops :
    (∀ fuel, (populateTracksLoop endlessTracksClient "spotify:playlist:foo1" fuel 0
      (NewSpotifyWithClient "koenrh" [])).1 = .halt .outOfFuel) ∧
    (∀ fuel, (populatePlaylists endlessPlaylistsClient fuel
      (NewSpotifyWithClient "koenrh" [])).1 = .halt .outOfFuel) := by
  constructor
  · intro fuel
    exact populateTracksLoop_endless endlessTracksClient "spotify:playlist:foo1"
      (fun _ _ _ _ => ⟨_, rfl, by simp, rfl⟩) fuel 0 _ (by decide)
  · intro fuel
    have h := populatePagesLoop_endless endlessPlaylistsClient fuel
      (fun _ _ _ _ => ⟨_, rfl, rfl, by simp, rfl⟩) fuel 0
      (NewSpotifyWithClient "koenrh" []) (by decide)
    simpa [populatePlaylists, NewSpotifyWithClient] using h

/-- C12, amended: the page loops terminate as long as the running offset stays
within a Go int. The listing calls of the client succeed and report a constant
total: totalP for the playlists and totalT p for the tracks of the playlist p,
which may differ from playlist to playlist. A loop over the total T with page
size L fits when max(1, ceil(T / L)) * L is at most the largest int and the
fuel is at least max(1, ceil(T / L)). When the track loop of a playlist fits,
it ends without error, from every state, after requests at the offsets 0, 100,
200, ...; it went on after every page but the last, and it stopped after the
first page whose cursor was empty or after which the running offset had
reached the total; it issued at most max(1, ceil(T / 100)) requests. When the
playlist loop fits and so does the track loop of every managed playlist the
service lists, the playlist loop does the same at the offsets 0, 50, 100, ...
with at most max(1, ceil(totalP / 50)) listing requests, and populatePlaylists
returns without error. -/
theorem C12_pagination_terminates {σ : Type} (cl : SpotifyClient σ) (totalP : Int)
    (totalT : SpotifyID → Int) (fuel : Nat) (playlistID : SpotifyID) (w : World σ)
    (hpl : ∀ s u l o, ∃ page, (cl.GetPlaylistsForUserOpt s u l o).1 = .ok page ∧
      page.Total = totalP)
    (htr : ∀ s p l o f, ∃ page, (cl.GetPlaylistTracksOpt s p l o f).1 = .ok page ∧
      page.Total = totalT p) :
    (LoopFits fuel (totalT playlistID) maxPlaylistTracks →
      ∃ pages,
        (populateTracksLoop cl playlistID fuel 0 w).1 = .ok () ∧
        (populateTracksLoop cl playlistID fuel 0 w).2.events
          = w.events ++ trackRequests playlistID 0 pages ∧
        pagingStops 100 (totalT playlistID) 0 (pages.map PlaylistTrackPage.Next) ∧
        pages.length ≤ pageBound (totalT playlistID) 100) ∧
    (LoopFits fuel totalP maxPlaylists →
      (∀ s u l o page p, (cl.GetPlaylistsForUserOpt s u l o).1 = .ok page →
        p ∈ page.Playlists → managed p = true →
        LoopFits fuel (totalT p.ID) maxPlaylistTracks) →
      (∃ pages new,
        (populatePagesLoop cl fuel fuel 0 w).1 = .ok () ∧
        (populatePagesLoop cl fuel fuel 0 w).2.events = w.events ++ new ∧
        new.filter (fun e => isListPlaylists e.call)
          = playlistRequests w.c.currentUserID 0 pages ∧
        pagingStops 50 totalP 0 (pages.map SimplePlaylistPage.Next) ∧
        pages.length ≤ pageBound totalP 50) ∧
      (populatePlaylists cl fuel w).1 = .ok ()) := by
  constructor
  · intro hfit
    exact populateTracksLoop_paging_zero cl (totalT playlistID) playlistID fuel w
      (fun s l o f => htr s playlistID l o f) hfit
  · intro hfit hlisted
    have hP := populatePagesLoop_paging cl totalP totalT hpl htr fuel hlisted hfit.1 fuel 0 w
      (by simp only [pageBound]; omega) (by have := hfit.2; omega)
    have h0 : ((0 * maxPlaylists : Nat) : Int) = 0 := by simp
    rw [h0] at hP
    obtain ⟨pages, new, h1, h2, h3, h4, h5⟩ := hP
    refine ⟨⟨pages, new, h1, h2, h3, h4, by simpa using h5⟩, ?_⟩
    unfold populatePlaylists
    split
    · rfl
    · exact h1

/-- Witness of C12 as amended: the in-memory client listing st-a and st-b with
cursors that are never empty, 120 playlists in total, 250 tracks in st-a and
90 in st-b, run with fuel 3. populatePlaylists returns without error after
three playlist requests at the offsets 0, 50 and 100, each followed by three
track requests for st-a at the offsets 0, 100 and 200 and one for st-b. -/
theorem C12_pagination_terminates_witness :
    LoopFits 3 120 maxPlaylists ∧
    LoopFits 3 (exampleTotals "idA") maxPlaylistTracks ∧
    (populatePlaylists pagedClient 3 (NewSpotifyWithClient "koenrh" [])).1 = .ok () ∧
    (populatePlaylists pagedClient 3 (NewSpotifyWithClient "koenrh" [])).2.calls
      = [.GetPlaylistsForUserOpt "koenrh" 50 0,
         .GetPlaylistTracksOpt "idA" 100 0 "", .GetPlaylistTracksOpt "idA" 100 100 "",
         .GetPlaylistTracksOpt "idA" 100 200 "", .GetPlaylistTracksOpt "idB" 100 0 "",
         .GetPlaylistsForUserOpt "koenrh" 50 50,
         .GetPlaylistTracksOpt "idA" 100 0 "", .GetPlaylistTracksOpt "idA" 100 100 "",
         .GetPlaylistTracksOpt "idA" 100 200 "", .GetPlaylistTracksOpt "idB" 100 0 "",
         .GetPlaylistsForUserOpt "koenrh" 50 100,
         .GetPlaylistTracksOpt "idA" 100 0 "", .GetPlaylistTracksOpt "idA" 100 100 "",
         .GetPlaylistTracksOpt "idA" 100 200 "", .GetPlaylistTracksOpt "idB" 100 0 ""] ∧
    ∃ pages,
      (populateTracksLoop pagedClient "idA" 3 0 (NewSpotifyWithClient "koenrh" [])).1 = .ok () ∧
      (populateTracksLoop pagedClient "idA" 3 0 (NewSpotifyWithClient "koenrh" [])).2.events
        = (NewSpotifyWithClient "koenrh" ([] : List (String × List String))).events
          ++ trackRequests "idA" 0 pages ∧
      pagingStops 100 (exampleTotals "idA") 0 (pages.map PlaylistTrackPage.Next) ∧
      pages.length ≤ pageBound (exampleTotals "idA") 100 :=
  have hP : LoopFits 3 120 maxPlaylists := by unfold LoopFits; decide
  have hA : LoopFits 3 (exampleTotals "idA") maxPlaylistTracks := by unfold LoopFits; decide
  have h := C12_pagination_terminates pagedClient 120 exampleTotals 3 "idA"
    (NewSpotifyWithClient "koenrh" [])
    (fun _ _ _ _ => ⟨_, rfl, rfl⟩) (fun _ _ _ _ _ => ⟨_, rfl, rfl⟩)
  ⟨hP, hA,
    (h.2 hP (fun s u l o page p hpage hp _ => by
      have hpg : page.Playlists
          = [{ ID := "idA", Name := "st-a" }, { ID := "idB", Name := "st-b" }] := by
        have h2 : (Except.ok { Playlists := [{ ID := "idA", Name := "st-a" },
              { ID := "idB", Name := "st-b" }], Next := "next", Total := 120 } :
            Except Err SimplePlaylistPage) = .ok page := hpage
        injection h2 with h3
        rw [← h3]
      rw [hpg] at hp
      simp only [List.mem_cons, List.mem_singleton, List.not_mem_nil, or_false] at hp
      rcases hp with rfl | rfl <;> (unfold LoopFits; decide))).2,
    by decide, h.1 hA⟩

/-! ## A failed call is the last call -/

theorem NoFailure_nil : NoFailure [] := by
  intro ev hev; simp at hev

theorem NoFailure_append (a b : List Event) (ha : NoFailure a) (hb : NoFailure b) :
    NoFailure (a ++ b) := by
  intro ev hev
  rcases List.mem_append.1 hev with h | h
  · exact ha ev h
  · exact hb ev h

theorem NoFailure_cons (ev : Event) (l : List Event) (hev : ∀ e, ev.reply ≠ .failed e)
    (hl : NoFailure l) : NoFailure (ev :: l) := by
  intro x hx
  rcases List.mem_cons.1 hx with h | h
  · rw [h]; exact hev
  · exact hl x h

theorem FailsLast_append (mk : Err → Halt) (a b : List Event) (h : Option Halt)
    (ha : NoFailure a) (hb : FailsLast mk b h) : FailsLast mk (a ++ b) h := by
  rcases hb with ⟨hn, hh⟩ | ⟨pre, call, e, hnew, hpre, hh⟩
  · exact Or.inl ⟨NoFailure_append a b ha hn, hh⟩
  · exact Or.inr ⟨a ++ pre, call, e, by rw [hnew, List.append_assoc],
      NoFailure_append a pre ha hpre, hh⟩

theorem FailsLast_cons (mk : Err → Halt) (ev : Event) (b : List Event) (h : Option Halt)
    (hev : ∀ e, ev.reply ≠ .failed e) (hb : FailsLast mk b h) : FailsLast mk (ev :: b) h :=
  FailsLast_append mk [ev] b h (NoFailure_cons ev [] hev NoFailure_nil) hb

theorem FailsLast_failed (mk : Err → Halt) (call : Call) (e : Err) :
    FailsLast mk [⟨call, .failed e⟩] (some (mk e)) :=
  Or.inr ⟨[], call, e, rfl, NoFailure_nil, rfl⟩

theorem FailsLast_noFailure (mk : Err → Halt) (new : List Event) (hnew : FailsLast mk new none) :
    NoFailure new := by
  rcases hnew with ⟨hn, _⟩ | ⟨_, _, _, _, _, hh⟩
  · exact hn
  · exact Option.noConfusion hh

theorem addTracksToPlaylistLoop_fails {σ : Type} (cl : SpotifyClient σ) (playlistID : SpotifyID)
    (trackIDs : List SpotifyID) :
    ∀ (fuel i : Nat) (w : World σ),
      ∃ new, (addTracksToPlaylistLoop cl playlistID trackIDs fuel i w).2.events
          = w.events ++ new ∧
        FailsLast .returned new
          (addTracksToPlaylistLoop cl playlistID trackIDs fuel i w).1.halted := by
  intro fuel
  induction fuel with
  | zero =>
    intro i w
    exact ⟨[], by simp [addTracksToPlaylistLoop],
      Or.inl ⟨NoFailure_nil, Or.inr (Or.inr rfl)⟩⟩
  | succ fuel ih =>
    intro i w
    by_cases hi : i < trackIDs.length
    · simp only [addTracksToPlaylistLoop, hi, if_true]
      generalize slice trackIDs i (if i + maxPlaylistTracks > trackIDs.length
        then trackIDs.length else i + maxPlaylistTracks) = chunk
      cases h : (cl.AddTracksToPlaylist w.remote playlistID chunk).1 with
      | error e =>
        exact ⟨[⟨.AddTracksToPlaylist playlistID chunk, .failed e⟩], rfl,
          FailsLast_failed _ _ _⟩
      | ok snap =>
        obtain ⟨new, hev, hnew⟩ := ih (i + maxPlaylistTracks)
          (w.record (.AddTracksToPlaylist playlistID chunk) (.snapshot snap)
            (cl.AddTracksToPlaylist w.remote playlistID chunk).2)
        refine ⟨⟨.AddTracksToPlaylist playlistID chunk, .snapshot snap⟩ :: new, ?_, ?_⟩
        · simp only []
          rw [hev]; simp [World.record]
        · exact FailsLast_cons _ _ _ _ (fun e h => Reply.noConfusion h) hnew
    · simp only [addTracksToPlaylistLoop, hi, if_false]
      exact ⟨[], by simp, Or.inl ⟨NoFailure_nil, Or.inl rfl⟩⟩

theorem removeTracksFromPlaylistLoop_fails {σ : Type} (cl : SpotifyClient σ)
    (playlistID : SpotifyID) (trackIDs : List SpotifyID) :
    ∀ (fuel i : Nat) (w : World σ),
      ∃ new, (removeTracksFromPlaylistLoop cl playlistID trackIDs fuel i w).2.events
          = w.events ++ new ∧
        FailsLast .returned new
          (removeTracksFromPlaylistLoop cl playlistID trackIDs fuel i w).1.halted := by
  intro fuel
  induction fuel with
  | zero =>
    intro i w
    exact ⟨[], by simp [removeTracksFromPlaylistLoop],
      Or.inl ⟨NoFailure_nil, Or.inr (Or.inr rfl)⟩⟩
  | succ fuel ih =>
    intro i w
    by_cases hi : i < trackIDs.length
    · simp only [removeTracksFromPlaylistLoop, hi, if_true]
      generalize slice trackIDs i (if i + maxPlaylistTracks > trackIDs.length
        then trackIDs.length else i + maxPlaylistTracks) = chunk
      cases h : (cl.RemoveTracksFromPlaylist w.remote playlistID chunk).1 with
      | error e =>
        exact ⟨[⟨.RemoveTracksFromPlaylist playlistID chunk, .failed e⟩], rfl,
          FailsLast_failed _ _ _⟩
      | ok snap =>
        obtain ⟨new, hev, hnew⟩ := ih (i + maxPlaylistTracks)
          (w.record (.RemoveTracksFromPlaylist playlistID chunk) (.snapshot snap)
            (cl.RemoveTracksFromPlaylist w.remote playlistID chunk).2)
        refine ⟨⟨.RemoveTracksFromPlaylist playlistID chunk, .snapshot snap⟩ :: new, ?_, ?_⟩
        · simp only []
          rw [hev]; simp [World.record]
        · exact FailsLast_cons _ _ _ _ (fun e h => Reply.noConfusion h) hnew
    · simp only [removeTracksFromPlaylistLoop, hi, if_false]
      exact ⟨[], by simp, Or.inl ⟨NoFailure_nil, Or.inl rfl⟩⟩

theorem cleanTrackIDsRange_halted {σ : Type} (input : List String) :
    ∀ (tracks : List (Option SpotifyID)) (k : Nat) (acc : List SpotifyID) (w : World σ),
      (cleanTrackIDsRange input tracks k acc w).1.halted = none ∨
      (cleanTrackIDsRange input tracks k acc w).1.halted = some .panic := by
  intro tracks
  induction tracks with
  | nil => intro k acc w; exact Or.inl rfl
  | cons t ts ih =>
    intro k acc w
    cases t with
    | some id => simpa [cleanTrackIDsRange] using ih (k + 1) (acc ++ [id]) w
    | none =>
      cases h : input[k]? with
      | none => simp [cleanTrackIDsRange, h, Outcome.halted]
      | some s => simpa [cleanTrackIDsRange, h] using ih (k + 1) acc (w.print (doesNotExist s))

theorem cleanTrackIDsLoop_fails {σ : Type} (cl : SpotifyClient σ) (input check : List String) :
    ∀ (fuel i : Nat) (acc : List SpotifyID) (w : World σ),
      ∃ new, (cleanTrackIDsLoop cl input check fuel i acc w).2.events = w.events ++ new ∧
        FailsLast .returned new (cleanTrackIDsLoop cl input check fuel i acc w).1.halted := by
  intro fuel
  induction fuel with
  | zero =>
    intro i acc w
    exact ⟨[], by simp [cleanTrackIDsLoop], Or.inl ⟨NoFailure_nil, Or.inr (Or.inr rfl)⟩⟩
  | succ fuel ih =>
    intro i acc w
    by_cases hi : i < check.length
    · simp only [cleanTrackIDsLoop, hi, if_true]
      generalize slice check i (if i + maxTracks > check.length then check.length
        else i + maxTracks) = chunk
      cases h : (cl.GetTracks w.remote chunk).1 with
      | error e =>
        exact ⟨[⟨.GetTracks chunk, .failed e⟩], rfl, FailsLast_failed _ _ _⟩
      | ok tracks =>
        have hr := cleanTrackIDsRange_trace input tracks 0 acc
          (w.record (.GetTracks chunk) (.tracks tracks) (cl.GetTracks w.remote chunk).2)
        have hh := cleanTrackIDsRange_halted input tracks 0 acc
          (w.record (.GetTracks chunk) (.tracks tracks) (cl.GetTracks w.remote chunk).2)
        simp only []
        generalize cleanTrackIDsRange input tracks 0 acc
          (w.record (.GetTracks chunk) (.tracks tracks) (cl.GetTracks w.remote chunk).2)
          = res at hr hh
        obtain ⟨o, w1⟩ := res
        cases o with
        | halt x =>
          refine ⟨[⟨.GetTracks chunk, .tracks tracks⟩], hr.2.1, Or.inl ⟨?_, ?_⟩⟩
          · exact NoFailure_cons _ _ (fun e h => Reply.noConfusion h) NoFailure_nil
          · rcases hh with hh | hh
            · exact Or.inl hh
            · exact Or.inr (Or.inl hh)
        | ok acc1 =>
          obtain ⟨new, hev, hnew⟩ := ih (i + maxTracks) acc1 w1
          refine ⟨⟨.GetTracks chunk, .tracks tracks⟩ :: new, ?_, ?_⟩
          · simp only []
            rw [hev, hr.2.1]; simp [World.record]
          · exact FailsLast_cons _ _ _ _ (fun e h => Reply.noConfusion h) hnew
    · simp only [cleanTrackIDsLoop, hi, if_false]
      exact ⟨[], by simp, Or.inl ⟨NoFailure_nil, Or.inl rfl⟩⟩
theorem mapGetD_appendTracks_mono (m : List (SpotifyID × List SpotifyID)) (id pid : SpotifyID)
    (ts : List SpotifyID) (t : SpotifyID) (h : t ∈ mapGetD m pid []) :
    t ∈ mapGetD (appendTracks m id ts) pid [] := by
  by_cases hid : id = pid
  · subst hid
    rw [mapGetD_appendTracks]
    exact List.mem_append_left _ h
  · rw [mapGetD_appendTracks_other _ _ _ _ hid]
    exact h

theorem mapGet_mapSet_isSome {κ ν : Type} [DecidableEq κ] (m : List (κ × ν)) (k k2 : κ) (v : ν)
    (h : (mapGet m k2).isSome = true) : (mapGet (mapSet m k v) k2).isSome = true := by
  by_cases hk : k = k2
  · subst hk
    rw [mapGet_mapSet_same]; rfl
  · rw [mapGet_mapSet_other _ _ _ _ hk]; exact h

theorem TracksKept_mono (new : List Event) (c c2 : Spotify) (h : TracksKept new c)
    (hmono : ∀ p t, t ∈ mapGetD c.playlistTracks p [] → t ∈ mapGetD c2.playlistTracks p []) :
    TracksKept new c2 :=
  fun ev hev pid l o f page hc hr t ht => hmono pid t (h ev hev pid l o f page hc hr t ht)

theorem TracksKept_append (a b : List Event) (c : Spotify) (ha : TracksKept a c)
    (hb : TracksKept b c) : TracksKept (a ++ b) c := by
  intro ev hev
  rcases List.mem_append.1 hev with h | h
  · exact ha ev h
  · exact hb ev h

theorem PlaylistsKept_append (ps : List SimplePlaylist) (a b : List Event) (c : Spotify)
    (ha : PlaylistsKept ps a c) (hb : PlaylistsKept ps b c) : PlaylistsKept ps (a ++ b) c := by
  intro ev hev
  rcases List.mem_append.1 hev with h | h
  · exact ha ev h
  · exact hb ev h

theorem PlaylistsKept_mono (ps ps2 : List SimplePlaylist) (new : List Event) (c c2 : Spotify)
    (h : PlaylistsKept ps new c) (hps : ∀ p ∈ ps, p ∈ ps2)
    (hmono : ∀ name, (mapGet c.playlists name).isSome = true →
      (mapGet c2.playlists name).isSome = true) :
    PlaylistsKept ps2 new c2 := by
  intro ev hev pid l o f hc
  obtain ⟨p, hp, hm, hid, hsome⟩ := h ev hev pid l o f hc
  exact ⟨p, hps p hp, hm, hid, hmono _ hsome⟩

theorem populateTracksLoop_fails {σ : Type} (cl : SpotifyClient σ) (playlistID : SpotifyID) :
    ∀ (fuel : Nat) (offset : Int) (w : World σ),
      (∀ p t, t ∈ mapGetD w.c.playlistTracks p [] →
        t ∈ mapGetD (populateTracksLoop cl playlistID fuel offset w).2.c.playlistTracks p []) ∧
      ∃ new, (populateTracksLoop cl playlistID fuel offset w).2.events = w.events ++ new ∧
        FailsLast .returned new (populateTracksLoop cl playlistID fuel offset w).1.halted ∧
        TracksKept new (populateTracksLoop cl playlistID fuel offset w).2.c ∧
        ∀ ev ∈ new, ∃ l o f, ev.call = .GetPlaylistTracksOpt playlistID l o f := by
  intro fuel
  induction fuel with
  | zero =>
    intro offset w
    refine ⟨fun p t h => h, [], by simp [populateTracksLoop],
      Or.inl ⟨NoFailure_nil, Or.inr (Or.inr rfl)⟩, ?_, by simp⟩
    intro ev hev; simp at hev
  | succ fuel ih =>
    intro offset w
    simp only [populateTracksLoop]
    cases h : (cl.GetPlaylistTracksOpt w.remote playlistID maxPlaylistTracks offset "").1 with
    | error e =>
      refine ⟨fun p t h => h,
        [⟨.GetPlaylistTracksOpt playlistID maxPlaylistTracks offset "", .failed e⟩], rfl,
        FailsLast_failed _ _ _, ?_, ?_⟩
      · intro ev hev pid l o f page _ hr
        rw [List.mem_singleton] at hev
        rw [hev] at hr
        exact Reply.noConfusion hr
      · intro ev hev
        rw [List.mem_singleton] at hev
        exact ⟨_, _, _, by rw [hev]⟩
    | ok page =>
      simp only []
      have hkept1 : TracksKept
          [⟨.GetPlaylistTracksOpt playlistID maxPlaylistTracks offset "", .playlistTracks page⟩]
          { currentUserID := w.c.currentUserID,
            playlistTracks := appendTracks w.c.playlistTracks playlistID page.Tracks,
            playlists := w.c.playlists } := by
        intro ev hev pid l o f pg hc hr t ht
        rw [List.mem_singleton] at hev
        rw [hev] at hc hr
        injection hc with h1
        injection hr with h2
        subst h1 h2
        rw [mapGetD_appendTracks]
        exact List.mem_append_right _ ht
      split
      · refine ⟨fun p t h => mapGetD_appendTracks_mono _ _ _ _ _ h,
          [⟨.GetPlaylistTracksOpt playlistID maxPlaylistTracks offset "", .playlistTracks page⟩],
          rfl, Or.inl ⟨NoFailure_cons _ _ (fun e h => Reply.noConfusion h) NoFailure_nil,
            Or.inl rfl⟩, hkept1, ?_⟩
        intro ev hev
        rw [List.mem_singleton] at hev
        exact ⟨_, _, _, by rw [hev]⟩
      · obtain ⟨h1, new, h2, h3, h4, h5⟩ := ih (wrapInt (offset + maxPlaylistTracks))
          { c := { currentUserID := w.c.currentUserID,
                   playlistTracks := appendTracks w.c.playlistTracks playlistID page.Tracks,
                   playlists := w.c.playlists },
            remote := (cl.GetPlaylistTracksOpt w.remote playlistID maxPlaylistTracks offset "").2,
            events := w.events ++
              [⟨.GetPlaylistTracksOpt playlistID maxPlaylistTracks offset "",
                .playlistTracks page⟩],
            stdout := w.stdout }
        refine ⟨fun p t h => h1 p t (mapGetD_appendTracks_mono _ _ _ _ _ h),
          [⟨.GetPlaylistTracksOpt playlistID maxPlaylistTracks offset "", .playlistTracks page⟩]
            ++ new, ?_, ?_, ?_, ?_⟩
        · simp only [World.record] at h2 ⊢
          rw [h2]; simp
        · exact FailsLast_append _ _ _ _
            (NoFailure_cons _ _ (fun e h => Reply.noConfusion h) NoFailure_nil) h3
        · exact TracksKept_append _ _ _ (TracksKept_mono _ _ _ hkept1 h1) h4
        · intro ev hev
          rcases List.mem_append.1 hev with h | h
          · rw [List.mem_singleton] at h
            exact ⟨_, _, _, by rw [h]⟩
          · exact h5 ev h
theorem populateRange_fails {σ : Type} (cl : SpotifyClient σ) (fuel : Nat) :
    ∀ (ps : List SimplePlaylist) (w : World σ),
      (∀ p t, t ∈ mapGetD w.c.playlistTracks p [] →
        t ∈ mapGetD (populateRange cl fuel ps w).2.c.playlistTracks p []) ∧
      (∀ name, (mapGet w.c.playlists name).isSome = true →
        (mapGet (populateRange cl fuel ps w).2.c.playlists name).isSome = true) ∧
      ∃ new, (populateRange cl fuel ps w).2.events = w.events ++ new ∧
        FailsLast .returned new (populateRange cl fuel ps w).1.halted ∧
        TracksKept new (populateRange cl fuel ps w).2.c ∧
        PlaylistsKept ps new (populateRange cl fuel ps w).2.c := by
  intro ps
  induction ps with
  | nil =>
    intro w
    refine ⟨fun p t h => h, fun name h => h, [], by simp [populateRange],
      Or.inl ⟨NoFailure_nil, Or.inl rfl⟩, ?_, ?_⟩
    · intro ev hev; simp at hev
    · intro ev hev; simp at hev
  | cons p ps ih =>
    intro w
    by_cases hp : managed p = true
    · have ht := populateTracksLoop_fails cl p.ID fuel 0
        { w with c := { w.c with playlists := mapSet w.c.playlists p.Name p.ID } }
      have htr := (populateTracksLoop_trace cl p.ID fuel 0
        { w with c := { w.c with playlists := mapSet w.c.playlists p.Name p.ID } }).1
      simp only [populateRange, hp, Bool.not_true, Bool.false_eq_true, if_false]
      generalize populateTracksLoop cl p.ID fuel 0
        { w with c := { w.c with playlists := mapSet w.c.playlists p.Name p.ID } } = res
        at ht htr
      obtain ⟨o, w2⟩ := res
      obtain ⟨tmono, tnew, tev, tfail, tkept, tkind⟩ := ht
      simp only [] at tmono tev tfail tkept htr
      have hkeys2 : ∀ name, (mapGet w.c.playlists name).isSome = true →
          (mapGet w2.c.playlists name).isSome = true := by
        intro name h
        rw [htr]
        exact mapGet_mapSet_isSome _ _ _ _ h
      have hpk2 : PlaylistsKept (p :: ps) tnew w2.c := by
        intro ev hev pid l o f hc
        obtain ⟨l2, o2, f2, hc2⟩ := tkind ev hev
        rw [hc2] at hc
        injection hc with hid
        refine ⟨p, List.mem_cons_self _ _, hp, hid, ?_⟩
        rw [htr, mapGet_mapSet_same]; rfl
      cases o with
      | halt x =>
        exact ⟨tmono, hkeys2, tnew, tev, tfail, tkept, hpk2⟩
      | ok u =>
        cases u
        obtain ⟨rmono, rkeys, rnew, rev, rfail, rkept, rpk⟩ := ih w2
        simp only []
        refine ⟨fun q t h => rmono q t (tmono q t h), fun name h => rkeys name (hkeys2 name h),
          tnew ++ rnew, by rw [rev, tev, List.append_assoc], ?_, ?_, ?_⟩
        · exact FailsLast_append _ _ _ _ (FailsLast_noFailure _ _ tfail) rfail
        · exact TracksKept_append _ _ _ (TracksKept_mono _ _ _ tkept rmono) rkept
        · exact PlaylistsKept_append _ _ _ _
            (PlaylistsKept_mono _ _ _ _ _ hpk2 (fun q hq => hq) rkeys)
            (PlaylistsKept_mono _ _ _ _ _ rpk (fun q hq => List.mem_cons_of_mem _ hq)
              (fun name h => h))
    · have hp2 : managed p = false := by simpa using hp
      obtain ⟨rmono, rkeys, rnew, rev, rfail, rkept, rpk⟩ := ih w
      simp only [populateRange, hp2, Bool.not_false, if_true]
      exact ⟨rmono, rkeys, rnew, rev, rfail, rkept,
        PlaylistsKept_mono _ _ _ _ _ rpk (fun q hq => List.mem_cons_of_mem _ hq)
          (fun name h => h)⟩

theorem populatePagesLoop_fails {σ : Type} (cl : SpotifyClient σ) (fuel : Nat) :
    ∀ (n : Nat) (offset : Int) (w : World σ),
      (∀ p t, t ∈ mapGetD w.c.playlistTracks p [] →
        t ∈ mapGetD (populatePagesLoop cl fuel n offset w).2.c.playlistTracks p []) ∧
      (∀ name, (mapGet w.c.playlists name).isSome = true →
        (mapGet (populatePagesLoop cl fuel n offset w).2.c.playlists name).isSome = true) ∧
      ∃ new, (populatePagesLoop cl fuel n offset w).2.events = w.events ++ new ∧
        FailsLast .returned new (populatePagesLoop cl fuel n offset w).1.halted ∧
        TracksKept new (populatePagesLoop cl fuel n offset w).2.c ∧
        PlaylistsKept (listed new) new (populatePagesLoop cl fuel n offset w).2.c := by
  intro n
  induction n with
  | zero =>
    intro offset w
    refine ⟨fun p t h => h, fun name h => h, [], by simp [populatePagesLoop],
      Or.inl ⟨NoFailure_nil, Or.inr (Or.inr rfl)⟩, ?_, ?_⟩
    · intro ev hev; simp at hev
    · intro ev hev; simp at hev
  | succ n ih =>
    intro offset w
    simp only [populatePagesLoop]
    cases h : (cl.GetPlaylistsForUserOpt w.remote w.c.currentUserID maxPlaylists offset).1 with
    | error e =>
      refine ⟨fun p t h => h, fun name h => h,
        [⟨.GetPlaylistsForUserOpt w.c.currentUserID maxPlaylists offset, .failed e⟩], rfl,
        FailsLast_failed _ _ _, ?_, ?_⟩
      · intro ev hev pid l o f page _ hr
        rw [List.mem_singleton] at hev
        rw [hev] at hr
        exact Reply.noConfusion hr
      · intro ev hev pid l o f hc
        rw [List.mem_singleton] at hev
        rw [hev] at hc
        exact Call.noConfusion hc
    | ok page =>
      have hr := populateRange_fails cl fuel page.Playlists
        (w.record (.GetPlaylistsForUserOpt w.c.currentUserID maxPlaylists offset)
          (.playlists page)
          (cl.GetPlaylistsForUserOpt w.remote w.c.currentUserID maxPlaylists offset).2)
      have hl := populateRange_trace cl fuel page.Playlists
        (w.record (.GetPlaylistsForUserOpt w.c.currentUserID maxPlaylists offset)
          (.playlists page)
          (cl.GetPlaylistsForUserOpt w.remote w.c.currentUserID maxPlaylists offset).2)
      simp only []
      generalize populateRange cl fuel page.Playlists
        (w.record (.GetPlaylistsForUserOpt w.c.currentUserID maxPlaylists offset)
          (.playlists page)
          (cl.GetPlaylistsForUserOpt w.remote w.c.currentUserID maxPlaylists offset).2)
        = res at hr hl
      obtain ⟨o, w1⟩ := res
      obtain ⟨rmono, rkeys, rnew, rev, rfail, rkept, rpk⟩ := hr
      obtain ⟨_, _, _, _, lnew, lev, llisted, _⟩ := hl
      simp only [World.record] at rmono rkeys rev rfail rkept rpk lev
      have hsame : lnew = rnew := List.append_cancel_left (lev.symm.trans rev)
      subst hsame
      have hlisted : listed (⟨.GetPlaylistsForUserOpt w.c.currentUserID maxPlaylists offset,
          .playlists page⟩ :: lnew) = page.Playlists := by
        rw [listed_cons_playlists, llisted, List.append_nil]
      have hev : w1.events = w.events ++
          ⟨.GetPlaylistsForUserOpt w.c.currentUserID maxPlaylists offset, .playlists page⟩
            :: lnew := by
        rw [rev]; simp
      have hfail1 : FailsLast .returned
          (⟨.GetPlaylistsForUserOpt w.c.currentUserID maxPlaylists offset, .playlists page⟩
            :: lnew) (Outcome.halted o) :=
        FailsLast_cons _ _ _ _ (fun e h => Reply.noConfusion h) rfail
      have hkept1 : TracksKept
          (⟨.GetPlaylistsForUserOpt w.c.currentUserID maxPlaylists offset, .playlists page⟩
            :: lnew) w1.c := by
        intro ev hev
        rcases List.mem_cons.1 hev with h1 | h1
        · intro pid l o f pg hc
          rw [h1] at hc
          exact Call.noConfusion hc
        · exact rkept ev h1
      have hpk1 : PlaylistsKept page.Playlists
          (⟨.GetPlaylistsForUserOpt w.c.currentUserID maxPlaylists offset, .playlists page⟩
            :: lnew) w1.c := by
        intro ev hev
        rcases List.mem_cons.1 hev with h1 | h1
        · intro pid l o f hc
          rw [h1] at hc
          exact Call.noConfusion hc
        · exact rpk ev h1
      cases o with
      | halt x =>
        simp only []
        exact ⟨rmono, rkeys, _, hev, hfail1, hkept1, by rw [hlisted]; exact hpk1⟩
      | ok u =>
        cases u
        simp only []
        split
        · exact ⟨rmono, rkeys, _, hev, hfail1, hkept1, by rw [hlisted]; exact hpk1⟩
        · obtain ⟨imono, ikeys, inew, iev, ifail, ikept, ipk⟩ := ih (wrapInt (offset + maxPlaylists)) w1
          refine ⟨fun q t h => imono q t (rmono q t h), fun name h => ikeys name (rkeys name h),
            (⟨.GetPlaylistsForUserOpt w.c.currentUserID maxPlaylists offset, .playlists page⟩
              :: lnew) ++ inew, by rw [iev, hev, List.append_assoc], ?_, ?_, ?_⟩
          · exact FailsLast_append _ _ _ _ (FailsLast_noFailure _ _ hfail1) ifail
          · exact TracksKept_append _ _ _ (TracksKept_mono _ _ _ hkept1 imono) ikept
          · rw [listed_append, hlisted]
            exact PlaylistsKept_append _ _ _ _
              (PlaylistsKept_mono _ _ _ _ _ hpk1 (fun q hq => List.mem_append_left _ hq) ikeys)
              (PlaylistsKept_mono _ _ _ _ _ ipk (fun q hq => List.mem_append_right _ hq)
                (fun name h => h))

/-! ## C15: a population that fails -/

/-- C15 fails as stated: the client lists st-a, st-b and st-c, and the track
listing of st-b fails. populatePlaylists returns the error, but st-a with its
track and st-b stay in the caches. Both caches are then non-empty, so a later
populatePlaylists returns at once without a request, findOrCreatePlaylist
answers st-b from the partial state, and for st-c, which the service lists but
the failed population never reached, it creates a second playlist. -/
theorem C15_partial_cache_is_used :
    (populatePlaylists brokenListingClient 1
      (NewSpotifyWithClient "koenrh" [("idA", ["t1"])])).1 = .halt (.returned "boom") ∧
    (populatePlaylists brokenListingClient 1
      (NewSpotifyWithClient "koenrh" [("idA", ["t1"])])).2.c.playlists
      = [("st-a", "idA"), ("st-b", "idB")] ∧
    (populatePlaylists brokenListingClient 1
      (NewSpotifyWithClient "koenrh" [("idA", ["t1"])])).2.c.playlistTracks
      = [("idA", ["t1"])] ∧
    (populatePlaylists brokenListingClient 1
      (populatePlaylists brokenListingClient 1
        (NewSpotifyWithClient "koenrh" [("idA", ["t1"])])).2).1 = .ok () ∧
    (populatePlaylists brokenListingClient 1
      (populatePlaylists brokenListingClient 1
        (NewSpotifyWithClient "koenrh" [("idA", ["t1"])])).2).2.calls
      = (populatePlaylists brokenListingClient 1
        (NewSpotifyWithClient "koenrh" [("idA", ["t1"])])).2.calls ∧
    (findOrCreatePlaylist brokenListingClient 1 "st-b"
      (populatePlaylists brokenListingClient 1
        (NewSpotifyWithClient "koenrh" [("idA", ["t1"])])).2).1 = .ok "idB" ∧
    (findOrCreatePlaylist brokenListingClient 1 "st-b"
      (populatePlaylists brokenListingClient 1
        (NewSpotifyWithClient "koenrh" [("idA", ["t1"])])).2).2.calls
      = (populatePlaylists brokenListingClient 1
        (NewSpotifyWithClient "koenrh" [("idA", ["t1"])])).2.calls ∧
    (findOrCreatePlaylist brokenListingClient 1 "st-c"
      (populatePlaylists brokenListingClient 1
        (NewSpotifyWithClient "koenrh" [("idA", ["t1"])])).2).2.calls
      = [.GetPlaylistsForUserOpt "koenrh" 50 0,
         .GetPlaylistTracksOpt "idA" 100 0 "",
         .GetPlaylistTracksOpt "idB" 100 0 "",
         .CreatePlaylistForUser "koenrh" "st-c" "Managed by Spotitable" false] := by
  decide

theorem TracksKept_left (a b : List Event) (c : Spotify) (h : TracksKept (a ++ b) c) :
    TracksKept a c :=
  fun ev hev => h ev (List.mem_append_left _ hev)

/-- C15, amended. For every client, when populatePlaylists returns an error,
that error is the one of the last client call, no call before it failed and no
request follows it. The entries cached before the failure are kept: every
track of a page fetched before the failure is in playlistTracks, and every
playlist whose tracks were requested is a key of playlists. When both caches
are non-empty after the failure, a later populatePlaylists call, over any
client, returns at once as already populated and leaves the world as it is,
and findOrCreatePlaylist answers a cached name from the partial state. -/
theorem C15_failed_population_keeps_partial_cache {σ : Type} (cl : SpotifyClient σ)
    (fuel : Nat) (w w' : World σ) (e : Err)
    (hrun : populatePlaylists cl fuel w = (.halt (.returned e), w')) :
    (∃ pre call,
      w'.events = w.events ++ pre ++ [⟨call, .failed e⟩] ∧
      NoFailure pre ∧
      TracksKept pre w'.c ∧
      PlaylistsKept (listed pre) (pre ++ [⟨call, .failed e⟩]) w'.c) ∧
    (w'.c.playlistTracks.length > 0 ∧ w'.c.playlists.length > 0 →
      ∀ (cl2 : SpotifyClient σ) (fuel2 : Nat),
        populatePlaylists cl2 fuel2 w' = (.ok (), w') ∧
        ∀ name id, mapGet w'.c.playlists name = some id →
          findOrCreatePlaylist cl2 fuel2 name w' = (.ok id, w')) := by
  constructor
  · unfold populatePlaylists at hrun
    split at hrun
    · injection hrun with h1 _
      exact Outcome.noConfusion h1
    · obtain ⟨_, _, new, hev, hfail, hkept, hpk⟩ := populatePagesLoop_fails cl fuel fuel 0 w
      rw [hrun] at hev hfail hkept hpk
      simp only [Outcome.halted] at hfail
      rcases hfail with ⟨_, h | h | h⟩ | ⟨pre, call, e2, hnew, hpre, hh⟩
      · exact Option.noConfusion h
      · injection h with h; exact Halt.noConfusion h
      · injection h with h; exact Halt.noConfusion h
      · injection hh with hh
        injection hh with hh
        subst hh
        subst hnew
        have hl : listed (pre ++ [(⟨call, .failed e⟩ : Event)]) = listed pre := by
          rw [listed_append]
          simp [listed]
        rw [hl] at hpk
        exact ⟨pre, call, by rw [hev, List.append_assoc], hpre, TracksKept_left _ _ _ hkept, hpk⟩
  · intro hguard cl2 fuel2
    have hp : populatePlaylists cl2 fuel2 w' = (.ok (), w') := by
      simp [populatePlaylists, hguard]
    refine ⟨hp, ?_⟩
    intro name id hid
    simp [findOrCreatePlaylist, hp, hid]

/-- Witness of C15 as amended: the client whose track listing fails for st-b. -/
theorem C15_failed_population_keeps_partial_cache_witness :
    (∃ pre call,
      (populatePlaylists brokenListingClient 1
        (NewSpotifyWithClient "koenrh" [("idA", ["t1"])])).2.events
        = (NewSpotifyWithClient "koenrh" [("idA", ["t1"])]).events ++ pre
          ++ [⟨call, .failed "boom"⟩] ∧
      NoFailure pre ∧
      TracksKept pre (populatePlaylists brokenListingClient 1
        (NewSpotifyWithClient "koenrh" [("idA", ["t1"])])).2.c ∧
      PlaylistsKept (listed pre) (pre ++ [⟨call, .failed "boom"⟩])
        (populatePlaylists brokenListingClient 1
          (NewSpotifyWithClient "koenrh" [("idA", ["t1"])])).2.c) ∧
    ((populatePlaylists brokenListingClient 1
        (NewSpotifyWithClient "koenrh" [("idA", ["t1"])])).2.c.playlistTracks.length > 0 ∧
      (populatePlaylists brokenListingClient 1
        (NewSpotifyWithClient "koenrh" [("idA", ["t1"])])).2.c.playlists.length > 0 →
      ∀ (cl2 : SpotifyClient (List (String × List String))) (fuel2 : Nat),
        populatePlaylists cl2 fuel2 (populatePlaylists brokenListingClient 1
            (NewSpotifyWithClient "koenrh" [("idA", ["t1"])])).2
          = (.ok (), (populatePlaylists brokenListingClient 1
            (NewSpotifyWithClient "koenrh" [("idA", ["t1"])])).2) ∧
        ∀ name id, mapGet (populatePlaylists brokenListingClient 1
            (NewSpotifyWithClient "koenrh" [("idA", ["t1"])])).2.c.playlists name = some id →
          findOrCreatePlaylist cl2 fuel2 name (populatePlaylists brokenListingClient 1
              (NewSpotifyWithClient "koenrh" [("idA", ["t1"])])).2
            = (.ok id, (populatePlaylists brokenListingClient 1
              (NewSpotifyWithClient "koenrh" [("idA", ["t1"])])).2)) :=
  C15_failed_population_keeps_partial_cache brokenListingClient 1
    (NewSpotifyWithClient "koenrh" [("idA", ["t1"])])
    (populatePlaylists brokenListingClient 1
      (NewSpotifyWithClient "koenrh" [("idA", ["t1"])])).2 "boom"
    (Prod.ext (by decide) rfl)

/-! ## C17: the order of the calls of one synchronisation -/

theorem populatePlaylists_fails {σ : Type} (cl : SpotifyClient σ) (fuel : Nat) (w : World σ) :
    ∃ new, (populatePlaylists cl fuel w).2.events = w.events ++ new ∧
      FailsLast .returned new (populatePlaylists cl fuel w).1.halted ∧
      ∀ ev ∈ new, isListing ev.call = true := by
  unfold populatePlaylists
  split
  · exact ⟨[], by simp, Or.inl ⟨NoFailure_nil, Or.inl rfl⟩, by simp⟩
  · obtain ⟨_, _, new, hev, hfail, _, _⟩ := populatePagesLoop_fails cl fuel fuel 0 w
    obtain ⟨_, new2, hev2, _, _, _, hkind⟩ := populatePagesLoop_trace cl fuel fuel 0 w
    have hsame : new2 = new := List.append_cancel_left (hev2.symm.trans hev)
    subst hsame
    refine ⟨new2, hev, hfail, ?_⟩
    intro ev hmem
    rcases hkind ev hmem with ⟨u, l, o, h⟩ | ⟨p, _, _, l, o, f, h⟩
    · rw [h]; rfl
    · rw [h]; rfl

theorem findOrCreatePlaylist_fails {σ : Type} (cl : SpotifyClient σ) (fuel : Nat)
    (name : String) (w : World σ) :
    ∃ ls cs, (findOrCreatePlaylist cl fuel name w).2.events = w.events ++ ls ++ cs ∧
      (∀ ev ∈ ls, isListing ev.call = true) ∧
      cs.length ≤ 1 ∧
      (∀ ev ∈ cs, isCreate ev.call = true) ∧
      FailsLast .returned (ls ++ cs) (findOrCreatePlaylist cl fuel name w).1.halted := by
  have hp := populatePlaylists_fails cl fuel w
  unfold findOrCreatePlaylist
  generalize populatePlaylists cl fuel w = res at hp
  obtain ⟨o, w1⟩ := res
  obtain ⟨ls, hev, hfail, hkind⟩ := hp
  simp only [] at hev hfail
  cases o with
  | halt x =>
    exact ⟨ls, [], by simpa using hev, hkind, by simp, by simp, by simpa using hfail⟩
  | ok u =>
    cases u
    have hclean := FailsLast_noFailure _ _ hfail
    simp only []
    cases hg : mapGet w1.c.playlists name with
    | some pid =>
      exact ⟨ls, [], by simpa using hev, hkind, by simp, by simp, by simpa using hfail⟩
    | none =>
      simp only []
      cases hc : (cl.CreatePlaylistForUser w1.remote w1.c.currentUserID name
          "Managed by Spotitable" false).1 with
      | error e =>
        refine ⟨ls, [⟨.CreatePlaylistForUser w1.c.currentUserID name
          "Managed by Spotitable" false, .failed e⟩], ?_, hkind, by simp, ?_, ?_⟩
        · simp [World.record, World.print, hev]
        · intro ev hmem
          rw [List.mem_singleton] at hmem
          rw [hmem]; rfl
        · exact FailsLast_append _ _ _ _ hclean (FailsLast_failed _ _ _)
      | ok cid =>
        refine ⟨ls, [⟨.CreatePlaylistForUser w1.c.currentUserID name
          "Managed by Spotitable" false, .created cid⟩], ?_, hkind, by simp, ?_, ?_⟩
        · simp [World.record, World.print, hev]
        · intro ev hmem
          rw [List.mem_singleton] at hmem
          rw [hmem]; rfl
        · exact Or.inl ⟨NoFailure_append _ _ hclean
            (NoFailure_cons _ _ (fun e h => Reply.noConfusion h) NoFailure_nil), Or.inl rfl⟩

theorem FailsLast_toFatal (new : List Event) (h : Halt)
    (hf : FailsLast .returned new (some h)) : FailsLast .fatal new (some h.toFatal) := by
  rcases hf with ⟨hn, h1 | h1 | h1⟩ | ⟨pre, call, e, hnew, hpre, hh⟩
  · exact Option.noConfusion h1
  · injection h1 with h1
    subst h1
    exact Or.inl ⟨hn, Or.inr (Or.inl rfl)⟩
  · injection h1 with h1
    subst h1
    exact Or.inl ⟨hn, Or.inr (Or.inr rfl)⟩
  · injection hh with hh
    subst hh
    exact Or.inr ⟨pre, call, e, hnew, hpre, rfl⟩

theorem updatePlaylist_fails {σ : Type} (cl : SpotifyClient σ) (playlistID : SpotifyID)
    (des : List String) (w : World σ) :
    ∃ gs rs as, (updatePlaylist cl playlistID des w).2.events = w.events ++ gs ++ rs ++ as ∧
      (∀ ev ∈ gs, isGetTracks ev.call = true) ∧
      (∀ ev ∈ rs, isRemoveFrom playlistID ev.call = true) ∧
      (∀ ev ∈ as, isAddTo playlistID ev.call = true) ∧
      FailsLast .fatal (gs ++ rs ++ as) (updatePlaylist cl playlistID des w).1.halted := by
  have h1 := cleanTrackIDsLoop_fails cl des des (des.length + 1) 0 [] w
  have k1 := (cleanTrackIDsLoop_trace cl des des (des.length + 1) 0 [] w).2
  unfold updatePlaylist cleanTrackIDs
  generalize cleanTrackIDsLoop cl des des (des.length + 1) 0 [] w = res1 at h1 k1
  obtain ⟨o1, w1⟩ := res1
  obtain ⟨gs, e1, f1⟩ := h1
  obtain ⟨gs2, e1b, kind1⟩ := k1
  simp only [] at e1 f1 e1b
  have hs1 : gs2 = gs := List.append_cancel_left (e1b.symm.trans e1)
  subst hs1
  have hk1 : ∀ ev ∈ gs2, isGetTracks ev.call = true := by
    intro ev hmem
    obtain ⟨ch, hc⟩ := kind1 ev hmem
    rw [hc]; rfl
  cases o1 with
  | halt x =>
    exact ⟨gs2, [], [], by simpa using e1, hk1, by simp, by simp,
      by simpa using FailsLast_toFatal _ _ f1⟩
  | ok trackIDs =>
    have hclean1 := FailsLast_noFailure _ _ f1
    simp only []
    have fr2 := getTrackIDsToRemoveLoop_frame playlistID trackIDs
      (mapGetD w1.c.playlistTracks playlistID []) [] w1
    have h2 := removeTracksFromPlaylistLoop_fails cl playlistID
      (getTrackIDsToRemove playlistID trackIDs w1).1
      ((getTrackIDsToRemove playlistID trackIDs w1).1.length + 1) 0
      (getTrackIDsToRemove playlistID trackIDs w1).2
    have k2 := (removeTracksFromPlaylistLoop_trace cl playlistID
      (getTrackIDsToRemove playlistID trackIDs w1).1
      ((getTrackIDsToRemove playlistID trackIDs w1).1.length + 1) 0
      (getTrackIDsToRemove playlistID trackIDs w1).2).2
    unfold removeTracksFromPlaylist
    generalize removeTracksFromPlaylistLoop cl playlistID
      (getTrackIDsToRemove playlistID trackIDs w1).1
      ((getTrackIDsToRemove playlistID trackIDs w1).1.length + 1) 0
      (getTrackIDsToRemove playlistID trackIDs w1).2 = res2 at h2 k2
    obtain ⟨o2, w2⟩ := res2
    obtain ⟨rs, e2, f2⟩ := h2
    obtain ⟨rs2, e2b, kind2⟩ := k2
    simp only [] at e2 f2 e2b
    have hs2 : rs2 = rs := List.append_cancel_left (e2b.symm.trans e2)
    subst hs2
    unfold getTrackIDsToRemove at e2
    rw [fr2.2.2, e1] at e2
    have hk2 : ∀ ev ∈ rs2, isRemoveFrom playlistID ev.call = true := by
      intro ev hmem
      obtain ⟨ch, hc⟩ := kind2 ev hmem
      rw [hc]; simp [isRemoveFrom]
    cases o2 with
    | halt x =>
      refine ⟨gs2, rs2, [], by simpa using e2, hk1, hk2, by simp, ?_⟩
      simp only [List.append_nil]
      exact FailsLast_append _ _ _ _ hclean1 (FailsLast_toFatal _ _ f2)
    | ok u =>
      cases u
      have hclean2 := FailsLast_noFailure _ _ f2
      simp only []
      have fr3 := getTrackIDsToAddLoop_frame playlistID trackIDs [] w2
      have h3 := addTracksToPlaylistLoop_fails cl playlistID
        (getTrackIDsToAdd playlistID trackIDs w2).1
        ((getTrackIDsToAdd playlistID trackIDs w2).1.length + 1) 0
        (getTrackIDsToAdd playlistID trackIDs w2).2
      have k3 := (addTracksToPlaylistLoop_trace cl playlistID
        (getTrackIDsToAdd playlistID trackIDs w2).1
        ((getTrackIDsToAdd playlistID trackIDs w2).1.length + 1) 0
        (getTrackIDsToAdd playlistID trackIDs w2).2).2
      unfold addTracksToPlaylist
      generalize addTracksToPlaylistLoop cl playlistID
        (getTrackIDsToAdd playlistID trackIDs w2).1
        ((getTrackIDsToAdd playlistID trackIDs w2).1.length + 1) 0
        (getTrackIDsToAdd playlistID trackIDs w2).2 = res3 at h3 k3
      obtain ⟨o3, w3⟩ := res3
      obtain ⟨as, e3, f3⟩ := h3
      obtain ⟨as2, e3b, kind3⟩ := k3
      simp only [] at e3 f3 e3b
      have hs3 : as2 = as := List.append_cancel_left (e3b.symm.trans e3)
      subst hs3
      unfold getTrackIDsToAdd at e3
      rw [fr3.2.2, e2] at e3
      have hk3 : ∀ ev ∈ as2, isAddTo playlistID ev.call = true := by
        intro ev hmem
        obtain ⟨ch, hc⟩ := kind3 ev hmem
        rw [hc]; simp [isAddTo]
      have hcl12 : NoFailure (gs2 ++ rs2) := NoFailure_append _ _ hclean1 hclean2
      cases o3 with
      | halt x =>
        exact ⟨gs2, rs2, as2, e3, hk1, hk2, hk3,
          FailsLast_append _ _ _ _ hcl12 (FailsLast_toFatal _ _ f3)⟩
      | ok u =>
        cases u
        exact ⟨gs2, rs2, as2, e3, hk1, hk2, hk3,
          Or.inl ⟨NoFailure_append _ _ hcl12 (FailsLast_noFailure _ _ f3), Or.inl rfl⟩⟩

theorem halted_eq_some {α : Type} (o : Outcome α) (h : Halt) (ho : o.halted = some h) :
    o = .halt h := by
  cases o with
  | ok a => exact Option.noConfusion ho
  | halt x =>
    injection ho with ho
    rw [ho]

theorem kind_of_last (l pre : List Event) (call : Call) (e : Err) (P : Call → Bool)
    (hl : ∀ ev ∈ l, P ev.call = true) (heq : l = pre ++ [⟨call, .failed e⟩]) :
    P call = true := by
  have hmem : (⟨call, .failed e⟩ : Event) ∈ l := by
    rw [heq]; simp
  exact hl _ hmem

/-- C17. For every client, state, name and desired list, the client calls of
one AddTracksToNamedPlaylist call are, in this order: listing calls, then at
most one creation (the resolution of the playlist), then existence checks,
then removal calls for one playlist, then addition calls for the same
playlist. If no call fails the run returns normally (or panics or runs out of
fuel). If a call fails, it is the last call of the run and no call before it
failed; when it is a listing or creation call its error is returned to the
caller, when it is an existence check or a mutation call its error ends the
process. -/
theorem C17_step_order_and_short_circuit {σ : Type} (cl : SpotifyClient σ) (fuel : Nat)
    (name : String) (des : List String) (w : World σ) :
    ∃ (ls cs gs rs as : List Event) (pid : SpotifyID),
      (AddTracksToNamedPlaylist cl fuel name des w).2.events
        = w.events ++ ls ++ cs ++ gs ++ rs ++ as ∧
      (∀ ev ∈ ls, isListing ev.call = true) ∧
      cs.length ≤ 1 ∧
      (∀ ev ∈ cs, isCreate ev.call = true) ∧
      (∀ ev ∈ gs, isGetTracks ev.call = true) ∧
      (∀ ev ∈ rs, isRemoveFrom pid ev.call = true) ∧
      (∀ ev ∈ as, isAddTo pid ev.call = true) ∧
      ((NoFailure (ls ++ cs ++ gs ++ rs ++ as) ∧
          ((AddTracksToNamedPlaylist cl fuel name des w).1 = .ok () ∨
           (AddTracksToNamedPlaylist cl fuel name des w).1 = .halt .panic ∨
           (AddTracksToNamedPlaylist cl fuel name des w).1 = .halt .outOfFuel)) ∨
        ∃ pre call e,
          ls ++ cs ++ gs ++ rs ++ as = pre ++ [⟨call, .failed e⟩] ∧
          NoFailure pre ∧
          (((isListing call || isCreate call) = true ∧
              (AddTracksToNamedPlaylist cl fuel name des w).1 = .halt (.returned e)) ∨
           ((isGetTracks call || isRemoveFrom pid call || isAddTo pid call) = true ∧
              (AddTracksToNamedPlaylist cl fuel name des w).1 = .halt (.fatal e)))) := by
  unfold AddTracksToNamedPlaylist
  split
  · have hf := findOrCreatePlaylist_fails cl fuel name w
    generalize findOrCreatePlaylist cl fuel name w = res at hf
    obtain ⟨o, w1⟩ := res
    obtain ⟨ls, cs, hev, hkl, hlen, hkc, hfail⟩ := hf
    simp only [] at hev hfail
    have hkind : ∀ ev ∈ ls ++ cs, (isListing ev.call || isCreate ev.call) = true := by
      intro ev hmem
      rcases List.mem_append.1 hmem with h | h
      · simp [hkl ev h]
      · simp [hkc ev h]
    cases o with
    | halt x =>
      refine ⟨ls, cs, [], [], [], "", by simpa using hev, hkl, hlen, hkc, by simp, by simp,
        by simp, ?_⟩
      simp only [List.append_nil]
      rcases hfail with ⟨hn, h1 | h1 | h1⟩ | ⟨pre, call, e, hnew, hpre, hh⟩
      · exact Option.noConfusion h1
      · exact Or.inl ⟨hn, Or.inr (Or.inl (halted_eq_some _ _ h1))⟩
      · exact Or.inl ⟨hn, Or.inr (Or.inr (halted_eq_some _ _ h1))⟩
      · exact Or.inr ⟨pre, call, e, hnew, hpre,
          Or.inl ⟨kind_of_last _ _ _ _ (fun c => isListing c || isCreate c) hkind hnew,
            halted_eq_some _ _ hh⟩⟩
    | ok pid =>
      have hclean := FailsLast_noFailure _ _ hfail
      have hu := updatePlaylist_fails cl pid des w1
      simp only []
      generalize updatePlaylist cl pid des w1 = res2 at hu
      obtain ⟨o2, w2⟩ := res2
      obtain ⟨gs, rs, as, hev2, hkg, hkr, hka, hfail2⟩ := hu
      simp only [] at hev2 hfail2
      have hkind2 : ∀ ev ∈ gs ++ rs ++ as,
          (isGetTracks ev.call || isRemoveFrom pid ev.call || isAddTo pid ev.call) = true := by
        intro ev hmem
        rcases List.mem_append.1 hmem with h | h
        · rcases List.mem_append.1 h with h | h
          · simp [hkg ev h]
          · simp [hkr ev h]
        · simp [hka ev h]
      have hevs : w2.events = w.events ++ ls ++ cs ++ gs ++ rs ++ as := by
        rw [hev2, hev]
      have hshape : (NoFailure (ls ++ cs ++ gs ++ rs ++ as) ∧
            (o2.halted = none ∨ o2.halted = some .panic ∨ o2.halted = some .outOfFuel)) ∨
          ∃ pre call e,
            ls ++ cs ++ gs ++ rs ++ as = pre ++ [⟨call, .failed e⟩] ∧
            NoFailure pre ∧
            (isGetTracks call || isRemoveFrom pid call || isAddTo pid call) = true ∧
            o2.halted = some (.fatal e) := by
        rcases hfail2 with ⟨hn, hh⟩ | ⟨pre, call, e, hnew, hpre, hh⟩
        · refine Or.inl ⟨?_, hh⟩
          have := NoFailure_append _ _ hclean hn
          simpa [List.append_assoc] using this
        · refine Or.inr ⟨ls ++ cs ++ pre, call, e, ?_, NoFailure_append _ _ hclean hpre,
            kind_of_last _ _ _ _
              (fun c => isGetTracks c || isRemoveFrom pid c || isAddTo pid c) hkind2 hnew, hh⟩
          have h3 : ls ++ cs ++ gs ++ rs ++ as = (ls ++ cs) ++ (gs ++ rs ++ as) := by
            simp [List.append_assoc]
          rw [h3, hnew]
          simp [List.append_assoc]
      cases o2 with
      | halt x =>
        refine ⟨ls, cs, gs, rs, as, pid, hevs, hkl, hlen, hkc, hkg, hkr, hka, ?_⟩
        rcases hshape with ⟨hn, h1 | h1 | h1⟩ | ⟨pre, call, e, hnew, hpre, hk, hh⟩
        · exact Option.noConfusion h1
        · exact Or.inl ⟨hn, Or.inr (Or.inl (halted_eq_some _ _ h1))⟩
        · exact Or.inl ⟨hn, Or.inr (Or.inr (halted_eq_some _ _ h1))⟩
        · exact Or.inr ⟨pre, call, e, hnew, hpre, Or.inr ⟨hk, halted_eq_some _ _ hh⟩⟩
      | ok u =>
        cases u
        refine ⟨ls, cs, gs, rs, as, pid, hevs, hkl, hlen, hkc, hkg, hkr, hka, ?_⟩
        rcases hshape with ⟨hn, _⟩ | ⟨pre, call, e, hnew, hpre, hk, hh⟩
        · exact Or.inl ⟨hn, Or.inl rfl⟩
        · exact Option.noConfusion hh
  · exact ⟨[], [], [], [], [], "", by simp, by simp, by simp, by simp, by simp, by simp,
      by simp, Or.inl ⟨NoFailure_nil, Or.inl rfl⟩⟩

/-! ## C8: the last match wins -/

theorem populatePagesLoop_first {σ : Type} (cl : SpotifyClient σ) (fuel n : Nat) (offset : Int)
    (w w' : World σ) (hrun : populatePagesLoop cl fuel n offset w = (.ok (), w')) :
    ∃ page rest,
      (cl.GetPlaylistsForUserOpt w.remote w.c.currentUserID maxPlaylists offset).1 = .ok page ∧
      w'.events = w.events ++
        ⟨.GetPlaylistsForUserOpt w.c.currentUserID maxPlaylists offset, .playlists page⟩
          :: rest ∧
      (page.Next = "" → listed rest = []) := by
  cases n with
  | zero => simp [populatePagesLoop] at hrun
  | succ n =>
    simp only [populatePagesLoop] at hrun
    cases h : (cl.GetPlaylistsForUserOpt w.remote w.c.currentUserID maxPlaylists offset).1 with
    | error e =>
      rw [h] at hrun
      simp at hrun
    | ok page =>
      rw [h] at hrun
      simp only [] at hrun
      have hr := populateRange_trace cl fuel page.Playlists
        (w.record (.GetPlaylistsForUserOpt w.c.currentUserID maxPlaylists offset)
          (.playlists page)
          (cl.GetPlaylistsForUserOpt w.remote w.c.currentUserID maxPlaylists offset).2)
      generalize populateRange cl fuel page.Playlists
        (w.record (.GetPlaylistsForUserOpt w.c.currentUserID maxPlaylists offset)
          (.playlists page)
          (cl.GetPlaylistsForUserOpt w.remote w.c.currentUserID maxPlaylists offset).2)
        = res at hr hrun
      obtain ⟨o, w1⟩ := res
      obtain ⟨_, _, _, _, rnew, r5, r6, _⟩ := hr
      simp only [World.record] at r5
      cases o with
      | halt x => simp at hrun
      | ok u =>
        cases u
        simp only [] at hrun
        by_cases hstop : page.Next = "" ∨ wrapInt (offset + maxPlaylists) ≥ page.Total
        · rw [if_pos hstop] at hrun
          simp only [Prod.mk.injEq, true_and] at hrun
          subst hrun
          exact ⟨page, rnew, rfl, by rw [r5]; simp, fun _ => r6⟩
        · rw [if_neg hstop] at hrun
          obtain ⟨_, inew, i2, _⟩ :=
            populatePagesLoop_trace cl fuel n (wrapInt (offset + maxPlaylists)) w1
          rw [hrun] at i2
          refine ⟨page, rnew ++ inew, rfl, by rw [i2, r5]; simp, ?_⟩
          intro hnext
          exact absurd (Or.inl hnext) hstop

/-- C8, amended: the last match wins. For every client, when populatePlaylists
runs on an instance whose playlists cache is empty and returns without error,
the log it added starts with the request for the first page of playlists and
the page the client answered to it, and holds exactly the playlists of that
page when the page is the last one (its cursor is empty). The cache then maps
every name to the ID of the last managed playlist of that name in the order
the listing replies discovered them, and holds no entry for a name no listed
managed playlist has; and for every name that a listed managed playlist has,
findOrCreatePlaylist returns the ID of the last such playlist, in the state
populatePlaylists left. -/
theorem C8_last_match_wins {σ : Type} (cl : SpotifyClient σ) (fuel : Nat) (w w' : World σ)
    (hempty : w.c.playlists = [])
    (hrun : populatePlaylists cl fuel w = (.ok (), w')) :
    ∃ page rest new,
      (cl.GetPlaylistsForUserOpt w.remote w.c.currentUserID maxPlaylists 0).1 = .ok page ∧
      new = ⟨.GetPlaylistsForUserOpt w.c.currentUserID maxPlaylists 0, .playlists page⟩
        :: rest ∧
      w'.events = w.events ++ new ∧
      (page.Next = "" → listed new = page.Playlists) ∧
      (∀ name, mapGet w'.c.playlists name = lastManaged (listed new) name) ∧
      (∀ name pid, lastManaged (listed new) name = some pid →
        findOrCreatePlaylist cl fuel name w = (.ok pid, w')) := by
  have hguard : ¬ (w.c.playlistTracks.length > 0 ∧ w.c.playlists.length > 0) := by
    rw [hempty]; simp
  have hloop : populatePagesLoop cl fuel fuel 0 w = (.ok (), w') := by
    unfold populatePlaylists at hrun
    rw [if_neg hguard] at hrun
    exact hrun
  obtain ⟨page, rest, hreply, hev, hsingle⟩ := populatePagesLoop_first cl fuel fuel 0 w w' hloop
  obtain ⟨_, new, hev2, hcache, _⟩ := populatePagesLoop_trace cl fuel fuel 0 w
  rw [hloop] at hev2 hcache
  have hsame : new = ⟨.GetPlaylistsForUserOpt w.c.currentUserID maxPlaylists 0,
      .playlists page⟩ :: rest := List.append_cancel_left (hev2.symm.trans hev)
  subst hsame
  have hc : ∀ name, mapGet w'.c.playlists name
      = lastManaged (listed (⟨.GetPlaylistsForUserOpt w.c.currentUserID maxPlaylists 0,
          .playlists page⟩ :: rest)) name := by
    intro name
    have h2 := hcache rfl
    simp only [] at h2
    rw [h2, mapGet_cacheOf, hempty]
    cases lastManaged (listed (⟨.GetPlaylistsForUserOpt w.c.currentUserID maxPlaylists 0,
      .playlists page⟩ :: rest)) name <;> rfl
  refine ⟨page, rest, _, hreply, rfl, hev, ?_, hc, ?_⟩
  · intro hn
    rw [listed_cons_playlists, hsingle hn, List.append_nil]
  · intro name pid hl
    have hget : mapGet w'.c.playlists name = some pid := by rw [hc name, hl]
    unfold findOrCreatePlaylist
    rw [hrun]
    simp only []
    rw [hget]

/-- Witness of C8 as amended: the client that lists, on one page, two
playlists called st-foo, first id1, then id2, run with fuel 1 on a new
instance. The last managed playlist called st-foo among the listed ones is
id2, the cache maps st-foo to id2, and findOrCreatePlaylist returns id2. -/
theorem C8_last_match_wins_witness :
    lastManaged [{ ID := "id1", Name := "st-foo" }, { ID := "id2", Name := "st-foo" }] "st-foo"
      = some "id2" ∧
    mapGet (populatePlaylists
      (memoryClient [{ ID := "id1", Name := "st-foo" }, { ID := "id2", Name := "st-foo" }]) 1
      (NewSpotifyWithClient "koenrh" [])).2.c.playlists "st-foo" = some "id2" ∧
    findOrCreatePlaylist
      (memoryClient [{ ID := "id1", Name := "st-foo" }, { ID := "id2", Name := "st-foo" }]) 1
      "st-foo" (NewSpotifyWithClient "koenrh" [])
      = (.ok "id2", (populatePlaylists
        (memoryClient [{ ID := "id1", Name := "st-foo" }, { ID := "id2", Name := "st-foo" }]) 1
        (NewSpotifyWithClient "koenrh" [])).2) := by
  obtain ⟨page, rest, new, hreply, _, _, hsingle, hcache, hfind⟩ :=
    C8_last_match_wins
      (memoryClient [{ ID := "id1", Name := "st-foo" }, { ID := "id2", Name := "st-foo" }]) 1
      (NewSpotifyWithClient "koenrh" [])
      (populatePlaylists
        (memoryClient [{ ID := "id1", Name := "st-foo" }, { ID := "id2", Name := "st-foo" }]) 1
        (NewSpotifyWithClient "koenrh" [])).2
      rfl (Prod.ext (by decide) rfl)
  have hpage : page = { Playlists := [{ ID := "id1", Name := "st-foo" },
      { ID := "id2", Name := "st-foo" }], Next := "", Total := 0 } := by
    have h2 : (Except.ok { Playlists := [{ ID := "id1", Name := "st-foo" },
          { ID := "id2", Name := "st-foo" }], Next := "", Total := 0 } :
        Except Err SimplePlaylistPage) = .ok page := hreply
    injection h2 with h3
    exact h3.symm
  have hl : listed new
      = [{ ID := "id1", Name := "st-foo" }, { ID := "id2", Name := "st-foo" }] := by
    rw [hsingle (by rw [hpage]), hpage]
  have hlast : lastManaged (listed new) "st-foo" = some "id2" := by
    rw [hl]; decide
  exact ⟨by decide, by rw [hcache "st-foo", hlast], hfind "st-foo" "id2" hlast⟩

/-! ## C13: find or create -/

/-- C13. When populatePlaylists returns without error and leaves the state w1
(the state it found when both caches were populated already, so that it issued
no call; otherwise the state after its listing calls, none of which is a create
call), findOrCreatePlaylist answers from the playlists cache of w1. For a name
that is a key of the cache it returns the cached ID in the state w1, so it
issues no create call. For a name that is no key it issues exactly one more
call, CreatePlaylistForUser with the current user ID, the name as given, the
description Managed by Spotitable and public = false; it returns the ID the
service answers (or the error of the call) and leaves both caches as they were,
so the new playlist is not added to the cache. -/
theorem C13_find_or_create {σ : Type} (cl : SpotifyClient σ) (fuel : Nat) (name : String)
    (w w1 : World σ) (hpop : populatePlaylists cl fuel w = (.ok (), w1)) :
    (w.c.playlistTracks.length > 0 ∧ w.c.playlists.length > 0 → w1 = w) ∧
    w1.c.currentUserID = w.c.currentUserID ∧
    (∃ new, w1.events = w.events ++ new ∧ ∀ ev ∈ new, isCreate ev.call = false) ∧
    (∀ id, mapGet w1.c.playlists name = some id →
      findOrCreatePlaylist cl fuel name w = (.ok id, w1)) ∧
    (mapGet w1.c.playlists name = none →
      (findOrCreatePlaylist cl fuel name w).2.calls
        = w1.calls ++ [.CreatePlaylistForUser w.c.currentUserID name
            "Managed by Spotitable" false] ∧
      (findOrCreatePlaylist cl fuel name w).2.c = w1.c ∧
      mapGet (findOrCreatePlaylist cl fuel name w).2.c.playlists name = none ∧
      (∀ id, (cl.CreatePlaylistForUser w1.remote w.c.currentUserID name
            "Managed by Spotitable" false).1 = .ok id →
        (findOrCreatePlaylist cl fuel name w).1 = .ok id) ∧
      (∀ e, (cl.CreatePlaylistForUser w1.remote w.c.currentUserID name
            "Managed by Spotitable" false).1 = .error e →
        (findOrCreatePlaylist cl fuel name w).1 = .halt (.returned e))) := by
  have hguard : w.c.playlistTracks.length > 0 ∧ w.c.playlists.length > 0 → w1 = w := by
    intro hg
    have h : populatePlaylists cl fuel w = (.ok (), w) := by simp [populatePlaylists, hg]
    rw [h] at hpop
    exact (Prod.mk.inj hpop).2.symm
  have huser : w1.c.currentUserID = w.c.currentUserID := by
    by_cases hg : w.c.playlistTracks.length > 0 ∧ w.c.playlists.length > 0
    · rw [hguard hg]
    · have h := (populatePagesLoop_trace cl fuel fuel 0 w).1
      have hloop : populatePagesLoop cl fuel fuel 0 w = (.ok (), w1) := by
        unfold populatePlaylists at hpop
        rw [if_neg hg] at hpop
        exact hpop
      rw [hloop] at h
      exact h
  have hevents : ∃ new, w1.events = w.events ++ new ∧ ∀ ev ∈ new, isCreate ev.call = false := by
    obtain ⟨new, hev, _, hkind⟩ := populatePlaylists_fails cl fuel w
    rw [hpop] at hev
    refine ⟨new, hev, ?_⟩
    intro ev hmem
    have hk := hkind ev hmem
    cases hcall : ev.call <;> rw [hcall] at hk <;> first | rfl | simp [isListing] at hk
  refine ⟨hguard, huser, hevents, ?_, ?_⟩
  · intro id hid
    simp [findOrCreatePlaylist, hpop, hid]
  · intro hnone
    rw [← huser]
    cases hc : (cl.CreatePlaylistForUser w1.remote w1.c.currentUserID name
        "Managed by Spotitable" false).1 with
    | error e =>
      simp [findOrCreatePlaylist, hpop, hnone, hc, World.calls, World.record, World.print]
    | ok id =>
      simp [findOrCreatePlaylist, hpop, hnone, hc, World.calls, World.record, World.print]

/-- Witness of C13: the client of the tests with no stored track, on a new
instance. The population succeeds and caches st-foo but no track, so the
caches are not both non-empty. findOrCreatePlaylist returns the cached ID for
st-foo in the state the population left, and for st-bar, which is no key, it
issues one create call after the two listing calls and returns the created ID.
On an instance whose caches are both populated it returns the cached ID of
st-foo and leaves the state as it was, so it issues no call at all. -/
theorem C13_find_or_create_witness :
    findOrCreatePlaylist TestSpotify 1 "st-foo" populatedInstance
      = (.ok "spotify:playlist:foo1", populatedInstance) ∧
    findOrCreatePlaylist TestSpotify 1 "st-foo" (NewSpotifyWithClient "koenrh" [])
      = (.ok "spotify:playlist:foo1",
          (populatePlaylists TestSpotify 1 (NewSpotifyWithClient "koenrh" [])).2) ∧
    (populatePlaylists TestSpotify 1 (NewSpotifyWithClient "koenrh" [])).2.c.playlistTracks
      = [] ∧
    (findOrCreatePlaylist TestSpotify 1 "st-bar" (NewSpotifyWithClient "koenrh" [])).2.calls
      = [.GetPlaylistsForUserOpt "koenrh" 50 0,
         .GetPlaylistTracksOpt "spotify:playlist:foo1" 100 0 "",
         .CreatePlaylistForUser "koenrh" "st-bar" "Managed by Spotitable" false] ∧
    (findOrCreatePlaylist TestSpotify 1 "st-bar" (NewSpotifyWithClient "koenrh" [])).1
      = .ok "spotify:playlist:1" ∧
    mapGet (findOrCreatePlaylist TestSpotify 1 "st-bar"
      (NewSpotifyWithClient "koenrh" [])).2.c.playlists "st-bar" = none := by
  have hfoo := C13_find_or_create TestSpotify 1 "st-foo" (NewSpotifyWithClient "koenrh" [])
    (populatePlaylists TestSpotify 1 (NewSpotifyWithClient "koenrh" [])).2
    (Prod.ext (by decide) rfl)
  have hbar := C13_find_or_create TestSpotify 1 "st-bar" (NewSpotifyWithClient "koenrh" [])
    (populatePlaylists TestSpotify 1 (NewSpotifyWithClient "koenrh" [])).2
    (Prod.ext (by decide) rfl)
  have hpop := C13_find_or_create TestSpotify 1 "st-foo" populatedInstance populatedInstance rfl
  obtain ⟨hcalls, _, hnone, hok, _⟩ := hbar.2.2.2.2 (by decide)
  refine ⟨hpop.2.2.2.1 "spotify:playlist:foo1" rfl,
    hfoo.2.2.2.1 "spotify:playlist:foo1" (by decide), by decide, ?_, hok _ rfl, hnone⟩
  rw [hcalls]
  decide

/-! ## C14: a mutation call that fails, each function by itself -/

/-- C14. The track IDs are split into the chunks chunkAt 0, ..., chunkAt (m-1)
of at most 100 IDs whose concatenation is the input, and k is the number of
one of them. For addTracksToPlaylist: when the addition calls for the chunks
before chunk k succeed, each on the client state its predecessors left, and the
call for chunk k fails with an error, the function returns that error, has
issued exactly the calls for the chunks 0 to k in order and none for a later
chunk, and leaves the client in the state these calls produced: the effects of
the earlier chunks are not undone. The caches are unchanged. The same holds,
by itself, for removeTracksFromPlaylist and the removal calls. -/
theorem C14_partial_failure {σ : Type} (cl : SpotifyClient σ) (playlistID : SpotifyID)
    (trackIDs : List SpotifyID) (w : World σ) (k : Nat)
    (hk : k < chunkCount trackIDs) :
    ((List.range (chunkCount trackIDs)).map (chunkAt trackIDs)).flatten = trackIDs ∧
    (∀ j, (chunkAt trackIDs j).length ≤ 100) ∧
    (∀ ea,
      (∀ j, j < k → ∃ snap,
        (cl.AddTracksToPlaylist
          (remoteAfter (fun s ch => (cl.AddTracksToPlaylist s playlistID ch).2) w.remote
            ((List.range j).map (chunkAt trackIDs)))
          playlistID (chunkAt trackIDs j)).1 = .ok snap) →
      (cl.AddTracksToPlaylist
        (remoteAfter (fun s ch => (cl.AddTracksToPlaylist s playlistID ch).2) w.remote
          ((List.range k).map (chunkAt trackIDs)))
        playlistID (chunkAt trackIDs k)).1 = .error ea →
      (addTracksToPlaylist cl playlistID trackIDs w).1 = .halt (.returned ea) ∧
      (addTracksToPlaylist cl playlistID trackIDs w).2.calls
        = w.calls ++ (List.range (k + 1)).map
            (fun j => Call.AddTracksToPlaylist playlistID (chunkAt trackIDs j)) ∧
      (addTracksToPlaylist cl playlistID trackIDs w).2.remote
        = remoteAfter (fun s ch => (cl.AddTracksToPlaylist s playlistID ch).2) w.remote
            ((List.range (k + 1)).map (chunkAt trackIDs)) ∧
      (addTracksToPlaylist cl playlistID trackIDs w).2.c = w.c) ∧
    (∀ er,
      (∀ j, j < k → ∃ snap,
        (cl.RemoveTracksFromPlaylist
          (remoteAfter (fun s ch => (cl.RemoveTracksFromPlaylist s playlistID ch).2) w.remote
            ((List.range j).map (chunkAt trackIDs)))
          playlistID (chunkAt trackIDs j)).1 = .ok snap) →
      (cl.RemoveTracksFromPlaylist
        (remoteAfter (fun s ch => (cl.RemoveTracksFromPlaylist s playlistID ch).2) w.remote
          ((List.range k).map (chunkAt trackIDs)))
        playlistID (chunkAt trackIDs k)).1 = .error er →
      (removeTracksFromPlaylist cl playlistID trackIDs w).1 = .halt (.returned er) ∧
      (removeTracksFromPlaylist cl playlistID trackIDs w).2.calls
        = w.calls ++ (List.range (k + 1)).map
            (fun j => Call.RemoveTracksFromPlaylist playlistID (chunkAt trackIDs j)) ∧
      (removeTracksFromPlaylist cl playlistID trackIDs w).2.remote
        = remoteAfter (fun s ch => (cl.RemoveTracksFromPlaylist s playlistID ch).2) w.remote
            ((List.range (k + 1)).map (chunkAt trackIDs)) ∧
      (removeTracksFromPlaylist cl playlistID trackIDs w).2.c = w.c) := by
  refine ⟨chunkAt_flatten trackIDs, chunkAt_length_le trackIDs, ?_, ?_⟩
  · intro ea hadd haddFail
    have h := addTracksToPlaylistLoop_fail cl playlistID trackIDs ea k 0 (trackIDs.length + 1) w
      (by omega) (by omega)
      (by intro j hj; simpa [List.range_eq_range'] using hadd j hj)
      (by simpa [List.range_eq_range'] using haddFail)
    simpa [addTracksToPlaylist, List.range_eq_range'] using h
  · intro er hrem hremFail
    have h := removeTracksFromPlaylistLoop_fail cl playlistID trackIDs er k 0
      (trackIDs.length + 1) w (by omega) (by omega)
      (by intro j hj; simpa [List.range_eq_range'] using hrem j hj)
      (by simpa [List.range_eq_range'] using hremFail)
    simpa [removeTracksFromPlaylist, List.range_eq_range'] using h

/-- Witness of C14: 101 track IDs whose last one is bad. Over a client that
rejects bad in an addition only, the addition call for the first chunk
succeeds and the one for the second fails: both calls were issued, the error
is returned and the first 100 tracks stay added, while the removal of the same
list over that client succeeds. Over a client that rejects bad in every
mutation, removeTracksFromPlaylist returns the error after its two calls. -/
theorem C14_partial_failure_witness :
    (addTracksToPlaylist addRejectingClient "p" tracksWithBad
      (NewSpotifyWithClient "koenrh" [])).1 = .halt (.returned "rejected") ∧
    (addTracksToPlaylist addRejectingClient "p" tracksWithBad
      (NewSpotifyWithClient "koenrh" [])).2.calls
      = (NewSpotifyWithClient "koenrh" ([] : List (String × List String))).calls
        ++ (List.range (1 + 1)).map
          (fun j => Call.AddTracksToPlaylist "p" (chunkAt tracksWithBad j)) ∧
    mapGetD (addTracksToPlaylist addRejectingClient "p" tracksWithBad
      (NewSpotifyWithClient "koenrh" [])).2.remote "p" [] = List.replicate 100 "a" ∧
    (removeTracksFromPlaylist addRejectingClient "p" tracksWithBad
      (NewSpotifyWithClient "koenrh" [])).1 = .ok () ∧
    (removeTracksFromPlaylist rejectingClient "p" tracksWithBad
      (NewSpotifyWithClient "koenrh" [])).1 = .halt (.returned "rejected") ∧
    (removeTracksFromPlaylist rejectingClient "p" tracksWithBad
      (NewSpotifyWithClient "koenrh" [])).2.calls
      = (NewSpotifyWithClient "koenrh" ([] : List (String × List String))).calls
        ++ (List.range (1 + 1)).map
          (fun j => Call.RemoveTracksFromPlaylist "p" (chunkAt tracksWithBad j)) :=
  have ha := (C14_partial_failure addRejectingClient "p" tracksWithBad
    (NewSpotifyWithClient "koenrh" []) 1 (by decide)).2.2.1 "rejected"
    (fun j hj => by
      obtain rfl : j = 0 := by omega
      exact ⟨"", rfl⟩)
    rfl
  have hr := (C14_partial_failure rejectingClient "p" tracksWithBad
    (NewSpotifyWithClient "koenrh" []) 1 (by decide)).2.2.2 "rejected"
    (fun j hj => by
      obtain rfl : j = 0 := by omega
      exact ⟨"", rfl⟩)
    rfl
  ⟨ha.1, ha.2.1, by set_option maxRecDepth 100000 in decide,
    by set_option maxRecDepth 100000 in decide, hr.1, hr.2.1⟩

end Spotitable
